import Mathlib

/-!
# DERO Merchant Go SDK: request signing and webhook verification

A shallow embedding of the package `deromerchant` (`cryptoutil.go`, `webhook.go`, `client.go`,
`error.go`) together with the parts of the Go standard library its authentication path runs
through (`crypto/sha256`, `crypto/hmac`, `crypto/subtle`, `encoding/hex`, `io/ioutil`,
`net/http` headers), followed by theorems about them. The library functions that are not
modelled (`encoding/json`, `net/url`, the network) are the fields of the parameter `Env`.

Conventions.
* A Go `byte` is a `Fin 256`; a `[]byte` and a `string` are lists of bytes.
* `uint32` and `uint64` arithmetic is arithmetic on `Nat` reduced `% 2 ^ 32` and `% 2 ^ 64`.
* A Go function returning `(v, err)` returns a pair whose second component is an
  `Option Error`, `none` being `nil`.
* A function that mutates the request returns the request afterwards next to its results.
* A call that can dereference a nil pointer returns in `Except Panic`.
-/

namespace DeroMerchant

/-- A Go `byte`. -/
abbrev Byte := Fin 256

/-- A Go `[]byte`. -/
abbrev Bytes := List Byte

/-- A Go `string`: an immutable sequence of bytes. -/
abbrev GoString := List Byte

/-- The UTF-8 bytes of one character, as the Go compiler stores a string literal. -/
def utf8EncodeChar (c : Char) : Bytes :=
  let n := c.toNat
  if n < 0x80 then [Fin.ofNat n]
  else if n < 0x800 then [Fin.ofNat (0xC0 ||| (n >>> 6)), Fin.ofNat (0x80 ||| (n &&& 0x3F))]
  else if n < 0x10000 then
    [Fin.ofNat (0xE0 ||| (n >>> 12)), Fin.ofNat (0x80 ||| ((n >>> 6) &&& 0x3F)),
     Fin.ofNat (0x80 ||| (n &&& 0x3F))]
  else
    [Fin.ofNat (0xF0 ||| (n >>> 18)), Fin.ofNat (0x80 ||| ((n >>> 12) &&& 0x3F)),
     Fin.ofNat (0x80 ||| ((n >>> 6) &&& 0x3F)), Fin.ofNat (0x80 ||| (n &&& 0x3F))]

/-- The Go string a string literal of the source denotes. -/
def str (s : String) : GoString :=
  s.toList.flatMap utf8EncodeChar

/-! ## Errors -/

/-- The `APIError` struct of `error.go`. -/
structure APIError where
  Code : Int
  Message : GoString
deriving DecidableEq, Repr

/-- A non-nil value of the Go interface `error`, by dynamic type. A `*errors.errorString` is
identified by its text: the package-level error variables of the program all carry different
texts, so two of them are equal here exactly when they are the same variable. -/
inductive Error where
  /-- What `errors.New` and `fmt.Errorf` return. -/
  | errorString (s : GoString)
  /-- The type `hex.InvalidByteError`. -/
  | InvalidByteError (b : Byte)
  /-- A `*APIError`; `none` is the nil pointer stored in a non-nil interface value. -/
  | APIError (p : Option APIError)
  /-- An error of any other library type (`encoding/json`, `net/url`, `net`, `io`). -/
  | foreign (type text : GoString)
deriving DecidableEq, Repr

/-- `errors.New`. -/
def errors.New (text : GoString) : Error := Error.errorString text

/-- A run-time panic. -/
inductive Panic where
  /-- The run-time error `invalid memory address or nil pointer dereference`. -/
  | nilDereference
deriving DecidableEq, Repr

deriving instance DecidableEq for Except

/-! ## `crypto/sha256` -/

namespace sha256

/-- The block size of SHA-256 in bytes. -/
def chunk : Nat := 64

/-- The size of a SHA-256 checksum in bytes. -/
def Size : Nat := 32

/-- `BlockSize`. -/
def BlockSize : Nat := 64

/-- The round constants. -/
def _K : List Nat := [
  0x428A2F98, 0x71374491, 0xB5C0FBCF, 0xE9B5DBA5, 0x3956C25B, 0x59F111F1, 0x923F82A4, 0xAB1C5ED5,
  0xD807AA98, 0x12835B01, 0x243185BE, 0x550C7DC3, 0x72BE5D74, 0x80DEB1FE, 0x9BDC06A7, 0xC19BF174,
  0xE49B69C1, 0xEFBE4786, 0x0FC19DC6, 0x240CA1CC, 0x2DE92C6F, 0x4A7484AA, 0x5CB0A9DC, 0x76F988DA,
  0x983E5152, 0xA831C66D, 0xB00327C8, 0xBF597FC7, 0xC6E00BF3, 0xD5A79147, 0x06CA6351, 0x14292967,
  0x27B70A85, 0x2E1B2138, 0x4D2C6DFC, 0x53380D13, 0x650A7354, 0x766A0ABB, 0x81C2C92E, 0x92722C85,
  0xA2BFE8A1, 0xA81A664B, 0xC24B8B70, 0xC76C51A3, 0xD192E819, 0xD6990624, 0xF40E3585, 0x106AA070,
  0x19A4C116, 0x1E376C08, 0x2748774C, 0x34B0BCB5, 0x391C0CB3, 0x4ED8AA4A, 0x5B9CCA4F, 0x682E6FF3,
  0x748F82EE, 0x78A5636F, 0x84C87814, 0x8CC70208, 0x90BEFFFA, 0xA4506CEB, 0xBEF9A3F7, 0xC67178F2]

/-- The eight `uint32` words `h[0..7]` of a digest, also the working variables `a..h`. -/
structure Words where
  a : Nat
  b : Nat
  c : Nat
  d : Nat
  e : Nat
  f : Nat
  g : Nat
  h : Nat
deriving DecidableEq, Repr

/-- The initial words `init0..init7`. -/
def init : Words :=
  ⟨0x6A09E667, 0xBB67AE85, 0x3C6EF372, 0xA54FF53A, 0x510E527F, 0x9B05688C, 0x1F83D9AB, 0x5BE0CD19⟩

/-- `bits.RotateLeft32(x, -k)` on a `uint32`. -/
def rotr (x k : Nat) : Nat := ((x >>> k) ||| (x <<< (32 - k))) % 2 ^ 32

/-- The `uint32` read big-endian from `p[j..j+3]`. -/
def be32 (p : Bytes) (j : Nat) : Nat :=
  ((p.getD j 0).val <<< 24) ||| ((p.getD (j + 1) 0).val <<< 16)
    ||| ((p.getD (j + 2) 0).val <<< 8) ||| (p.getD (j + 3) 0).val

/-- The first loop of `blockGeneric`: `w[0..15]`, the most recent word first. -/
def load (p : Bytes) : List Nat :=
  ((List.range 16).map fun i => be32 p (i * 4)).reverse

/-- The second loop of `blockGeneric` run for `n` more words; `w` holds the words so far, the
most recent first, so that `w[i-2]`, `w[i-7]`, `w[i-15]`, `w[i-16]` sit at 1, 6, 14, 15. -/
def schedule : Nat → List Nat → List Nat
  | 0, w => w
  | n + 1, w =>
    let v1 := w.getD 1 0
    let t1 := (rotr v1 17) ^^^ (rotr v1 19) ^^^ (v1 >>> 10)
    let v2 := w.getD 14 0
    let t2 := (rotr v2 7) ^^^ (rotr v2 18) ^^^ (v2 >>> 3)
    schedule n (((t1 + w.getD 6 0 + t2 + w.getD 15 0) % 2 ^ 32) :: w)

/-- One iteration of the third loop of `blockGeneric`, on the pair `(_K[i], w[i])`. -/
def round (s : Words) (kw : Nat × Nat) : Words :=
  let t1 := (s.h + ((rotr s.e 6) ^^^ (rotr s.e 11) ^^^ (rotr s.e 25))
    + ((s.e &&& s.f) ^^^ ((s.e ^^^ 0xFFFFFFFF) &&& s.g)) + kw.1 + kw.2) % 2 ^ 32
  let t2 := (((rotr s.a 2) ^^^ (rotr s.a 13) ^^^ (rotr s.a 22))
    + ((s.a &&& s.b) ^^^ (s.a &&& s.c) ^^^ (s.b &&& s.c))) % 2 ^ 32
  ⟨(t1 + t2) % 2 ^ 32, s.a, s.b, s.c, (s.d + t1) % 2 ^ 32, s.e, s.f, s.g⟩

/-- The body of the outer loop of `blockGeneric`: one 64-byte chunk. -/
def block1 (s : Words) (p : Bytes) : Words :=
  let w := (schedule 48 (load p)).reverse
  let r := (List.zip _K w).foldl round s
  ⟨(s.a + r.a) % 2 ^ 32, (s.b + r.b) % 2 ^ 32, (s.c + r.c) % 2 ^ 32, (s.d + r.d) % 2 ^ 32,
   (s.e + r.e) % 2 ^ 32, (s.f + r.f) % 2 ^ 32, (s.g + r.g) % 2 ^ 32, (s.h + r.h) % 2 ^ 32⟩

/-- `blockGeneric` over the first `n` chunks of `p`. -/
def block : Nat → Words → Bytes → Words
  | 0, s, _ => s
  | n + 1, s, p => block n (block1 s (p.take chunk)) (p.drop chunk)

/-- The `digest` struct: the words `h`, the buffered bytes `x[:nx]` and the length `len`
written so far. -/
structure digest where
  h : Words
  x : Bytes
  len : Nat
deriving DecidableEq, Repr

/-- `sha256.New()`, which is also the digest after `Reset`. -/
def New : digest := ⟨init, [], 0⟩

/-- `(*digest).Write`: every whole chunk of the buffered bytes followed by `p` goes through
`block`, what is left stays buffered. It returns `len(p)` and a nil error. -/
@[irreducible]
def digest.Write (d : digest) (p : Bytes) : digest :=
  let buf := d.x ++ p
  let n := buf.length / chunk
  ⟨block n d.h buf, buf.drop (n * chunk), (d.len + p.length) % 2 ^ 64⟩

/-- `binary.BigEndian.PutUint64`. -/
def putUint64 (v : Nat) : Bytes :=
  (List.range 8).map fun i => Fin.ofNat (v >>> (8 * (7 - i)))

/-- `binary.BigEndian.PutUint32`. -/
def putUint32 (v : Nat) : Bytes :=
  (List.range 4).map fun i => Fin.ofNat (v >>> (8 * (3 - i)))

/-- `(*digest).checkSum`: the padding, the length in bits, and the words written out. -/
@[irreducible]
def digest.checkSum (d : digest) : Bytes :=
  let len := d.len
  let tmp : Bytes := 0x80 :: List.replicate 63 0
  let d1 := if len % 64 < 56 then d.Write (tmp.take (56 - len % 64))
    else d.Write (tmp.take (64 + 56 - len % 64))
  let d2 := d1.Write (putUint64 ((len <<< 3) % 2 ^ 64))
  putUint32 d2.h.a ++ putUint32 d2.h.b ++ putUint32 d2.h.c ++ putUint32 d2.h.d
    ++ putUint32 d2.h.e ++ putUint32 d2.h.f ++ putUint32 d2.h.g ++ putUint32 d2.h.h

/-- `(*digest).Sum(in)`: works on a copy of the digest and appends the checksum to `in`. -/
def digest.Sum (d : digest) (b : Bytes) : Bytes := b ++ d.checkSum

end sha256

/-! ## `crypto/subtle` and `crypto/hmac` -/

namespace subtle

/-- `ConstantTimeByteEq`: `int((uint32(x^y) - 1) >> 31)`. -/
def ConstantTimeByteEq (x y : Nat) : Nat :=
  (((x ^^^ y) + 2 ^ 32 - 1) % 2 ^ 32) >>> 31

/-- `ConstantTimeCompare`: 0 on different lengths, else the OR of the XORs of all byte pairs
compared to 0. -/
def ConstantTimeCompare (x y : Bytes) : Nat :=
  if x.length ≠ y.length then 0
  else ConstantTimeByteEq ((List.zip x y).foldl (fun v p => v ||| (p.1.val ^^^ p.2.val)) 0) 0

end subtle

namespace hmac

/-- The built-in `copy(dst, src)`: the value of `dst` afterwards. -/
def copy (dst src : Bytes) : Bytes :=
  src.take dst.length ++ dst.drop src.length

/-- The `hmac` struct over SHA-256, the `hash.Hash` that `hmac.New` returns. -/
structure Hash where
  opad : Bytes
  ipad : Bytes
  outer : sha256.digest
  inner : sha256.digest
deriving DecidableEq, Repr

/-- `hmac.New(sha256.New, key)`. -/
def New (key : Bytes) : Hash :=
  let outer := sha256.New
  let inner := sha256.New
  let blocksize := sha256.BlockSize
  let ipad : Bytes := List.replicate blocksize 0
  let opad : Bytes := List.replicate blocksize 0
  let outer1 := if key.length > blocksize then outer.Write key else outer
  let key1 := if key.length > blocksize then outer1.Sum [] else key
  let ipad := (copy ipad key1).map fun b => Fin.ofNat (b.val ^^^ 0x36)
  let opad := (copy opad key1).map fun b => Fin.ofNat (b.val ^^^ 0x5c)
  ⟨opad, ipad, outer1, inner.Write ipad⟩

/-- `(*hmac).Write`: writes to the inner digest; the error is always nil. -/
def Hash.Write (h : Hash) (p : Bytes) : Hash × Nat × Option Error :=
  ({ h with inner := h.inner.Write p }, p.length, none)

/-- `(*hmac).Sum(in)`. -/
def Hash.Sum (h : Hash) (b : Bytes) : Bytes :=
  let origLen := b.length
  let b1 := h.inner.Sum b
  let outer := (sha256.New.Write h.opad).Write (b1.drop origLen)
  outer.Sum (b1.take origLen)

/-- `hmac.Equal`. -/
def Equal (mac1 mac2 : Bytes) : Bool :=
  subtle.ConstantTimeCompare mac1 mac2 == 1

end hmac

/-! ## `cryptoutil.go` -/

/-- `signMessage` of `cryptoutil.go`. -/
def signMessage (msg key : Bytes) : Bytes × Option Error :=
  let mac := hmac.New key
  match mac.Write msg with
  | (_, _, some err) => ([], some err)
  | (mac, _, none) => (mac.Sum [], none)

/-- `validMAC` of `cryptoutil.go`. -/
def validMAC (message messageMAC key : Bytes) : Bool × Option Error :=
  match signMessage message key with
  | (_, some err) => (false, some err)
  | (msgSignature, none) => (hmac.Equal messageMAC msgSignature, none)


/-! ## `encoding/hex` -/

namespace hex

/-- The table `hextable`. -/
def hextable : GoString := str "0123456789abcdef"

/-- `hex.ErrLength`. -/
def ErrLength : Error := errors.New (str "encoding/hex: odd length hex string")

/-- `fromHexChar`: the value of a hexadecimal digit, upper or lower case, and whether the byte
is one. -/
def fromHexChar (c : Byte) : Byte × Bool :=
  if 0x30 ≤ c.val ∧ c.val ≤ 0x39 then (Fin.ofNat (c.val - 0x30), true)
  else if 0x61 ≤ c.val ∧ c.val ≤ 0x66 then (Fin.ofNat (c.val - 0x61 + 10), true)
  else if 0x41 ≤ c.val ∧ c.val ≤ 0x46 then (Fin.ofNat (c.val - 0x41 + 10), true)
  else (0, false)

/-- `hex.Encode`, the bytes written to `dst`. -/
def Encode (src : Bytes) : Bytes :=
  src.flatMap fun v => [hextable.getD (v.val >>> 4) 0, hextable.getD (v.val &&& 0x0f) 0]

/-- `hex.EncodeToString`. -/
def EncodeToString (src : Bytes) : GoString := Encode src

/-- `hex.Decode`: the bytes decoded before the end or the first error, and the error. A bad
byte is reported before an odd length. -/
def Decode : Bytes → Bytes × Option Error
  | [] => ([], none)
  | [c] =>
    if !(fromHexChar c).2 then ([], some (Error.InvalidByteError c)) else ([], some ErrLength)
  | p :: q :: rest =>
    if !(fromHexChar p).2 then ([], some (Error.InvalidByteError p))
    else if !(fromHexChar q).2 then ([], some (Error.InvalidByteError q))
    else
      let r := Decode rest
      (Fin.ofNat (((fromHexChar p).1.val <<< 4) ||| (fromHexChar q).1.val) :: r.1, r.2)

/-- `hex.DecodeString`. -/
def DecodeString (s : GoString) : Bytes × Option Error := Decode s

/-- A valid hexadecimal string: an even number of bytes, each a hexadecimal digit. -/
def Valid (s : GoString) : Prop :=
  s.length % 2 = 0 ∧ ∀ c ∈ s, (fromHexChar c).2 = true

instance (s : GoString) : Decidable (Valid s) := by
  unfold Valid
  exact inferInstance

end hex

/-! ## `io`, `io/ioutil`, `bytes` -/

/-- An `io.ReadCloser`: the bytes it still delivers and the error, if any, that ends the
stream in place of `io.EOF`. -/
structure Reader where
  data : Bytes
  err : Option Error
deriving DecidableEq, Repr

/-- `ioutil.ReadAll`: the bytes read and the error (`io.EOF` is not one), next to the reader
afterwards, which has nothing left to deliver. -/
def ioutil.ReadAll (r : Reader) : (Bytes × Option Error) × Reader :=
  ((r.data, r.err), ⟨[], r.err⟩)

/-- `bytes.NewBuffer(b)`, also under `ioutil.NopCloser`: a reader of `b` that cannot fail. -/
def bytes.NewBuffer (b : Bytes) : Reader := ⟨b, none⟩

/-- `ioutil.NopCloser`. -/
def ioutil.NopCloser (r : Reader) : Reader := r

/-! ## `net/textproto`, `net/url`, `net/http` -/

/-- `validHeaderFieldByte`: the token characters of RFC 7230. -/
def validHeaderFieldByte (c : Byte) : Bool :=
  let n := c.val
  (0x30 ≤ n && n ≤ 0x39) || (0x41 ≤ n && n ≤ 0x5A) || (0x61 ≤ n && n ≤ 0x7A)
    || n == 0x21 || n == 0x23 || n == 0x24 || n == 0x25 || n == 0x26 || n == 0x27
    || n == 0x2A || n == 0x2B || n == 0x2D || n == 0x2E || n == 0x5E || n == 0x5F
    || n == 0x60 || n == 0x7C || n == 0x7E

/-- The second loop of `canonicalMIMEHeaderKey`: upper case at the start and after each dash,
lower case elsewhere. -/
def canonicalize : Bool → Bytes → Bytes
  | _, [] => []
  | upper, c :: rest =>
    let c1 : Byte :=
      if upper && (0x61 ≤ c.val && c.val ≤ 0x7A) then Fin.ofNat (c.val - 0x20)
      else if !upper && (0x41 ≤ c.val && c.val ≤ 0x5A) then Fin.ofNat (c.val + 0x20)
      else c
    c1 :: canonicalize (c1 == 0x2D) rest

/-- `textproto.CanonicalMIMEHeaderKey`: a key with a byte that is no token character is
returned unchanged. -/
def CanonicalMIMEHeaderKey (s : GoString) : GoString :=
  if s.all validHeaderFieldByte then canonicalize true s else s

/-- `http.Header`, a `map[string][]string`, as the list of its entries. -/
abbrev Header := List (GoString × List GoString)

/-- `Header.Get`: the first value under the canonical form of `key`, or `""`. -/
def Header.Get (h : Header) (key : GoString) : GoString :=
  match h.lookup (CanonicalMIMEHeaderKey key) with
  | some (v :: _) => v
  | _ => []

/-- `Header.Set`: the entry of the canonical key becomes `[value]`. -/
def Header.Set (h : Header) (key value : GoString) : Header :=
  (CanonicalMIMEHeaderKey key, [value])
    :: h.filter fun e => !(e.1 == CanonicalMIMEHeaderKey key)

/-- `url.Values`, a `map[string][]string`, as the list of its entries. -/
abbrev Values := List (GoString × List GoString)

/-- `Values.Add`: appends `value` to the values of `key`. -/
def Values.Add : Values → GoString → GoString → Values
  | [], key, value => [(key, [value])]
  | (k, vs) :: rest, key, value =>
    if k = key then (k, vs ++ [value]) :: rest else (k, vs) :: Values.Add rest key value

/-- The fields of `url.URL`. -/
structure URL where
  Scheme : GoString
  Opaque : GoString
  User : Option (GoString × Option GoString)
  Host : GoString
  Path : GoString
  RawPath : GoString
  ForceQuery : Bool
  RawQuery : GoString
  Fragment : GoString
deriving DecidableEq, Repr

/-- The fields of `http.Request` the package reads or writes. `Body` is `none` for a nil
body; `GetBody` is `none` for a nil func and else holds what the func returns. -/
structure Request where
  Method : GoString
  URL : URL
  Header : Header
  Body : Option Reader
  GetBody : Option (Reader × Option Error)
  ContentLength : Int
  Host : GoString
deriving DecidableEq, Repr

/-- The fields of `http.Response` the package reads. -/
structure Response where
  StatusCode : Int
  Body : Reader
deriving DecidableEq, Repr

/-- The `http.Client` struct. -/
structure HTTPClient where
  /-- The field `Timeout`, in nanoseconds. -/
  Timeout : Nat
deriving DecidableEq, Repr

/-! ## `webhook.go`: data -/

/-- `ErrNoWebhookSignature` is returned by `VerifyWebhookSignature` if the webhook request
has no X-Signature header. -/
def ErrNoWebhookSignature : Error :=
  errors.New (str "DeroMerchant: webhook request has no signature header")

/-- `ErrInvalidSignature` is returned by `VerifyWebhookSignature` if the signature in the
X-Signature header does not match the one generated with the webhook secret key. -/
def ErrInvalidSignature : Error :=
  errors.New (str "DeroMerchant: webhook request has invalid signature")

/-- `PaymentUpdateEvent` holds the unmarshalled JSON data of a webhook request. -/
structure PaymentUpdateEvent where
  PaymentID : GoString
  Status : GoString
deriving DecidableEq, Repr

/-- The struct `errorResponse` of `client.go`; its field `Error` is a `*APIError`. -/
structure errorResponse where
  Error : Option APIError
deriving DecidableEq, Repr

/-! ## What lies outside the repository -/

/-- The library functions the package calls without their code, and the network. Every
definition below that calls one of them takes an `Env`; a theorem stated for every `Env` holds
whatever these functions do. Where a claim speaks of what the library does, the models of
`encoding/json` and of the query strings of `net/url` further down are used and the theorem
says so in a hypothesis. -/
structure Env where
  /-- `json.Unmarshal(data, &e)` for a nil `e *PaymentUpdateEvent`: `e` afterwards, and the
  error. -/
  unmarshalEvent : Bytes → Option PaymentUpdateEvent × Option Error
  /-- `json.Unmarshal(data, &errResp)` for a zero `errResp errorResponse`: `errResp`
  afterwards, and the error. -/
  unmarshalErrorResponse : Bytes → errorResponse × Option Error
  /-- `strings.ToUpper`. -/
  ToUpper : GoString → GoString
  /-- `strconv.Quote`, the verb `%q`. -/
  Quote : GoString → GoString
  /-- `url.Parse`. -/
  Parse : GoString → Except Error URL
  /-- `url.ParseRequestURI`. -/
  ParseRequestURI : GoString → Except Error URL
  /-- `url.ParseQuery` without its error, as `URL.Query` calls it. -/
  ParseQuery : GoString → Values
  /-- `Values.Encode`. -/
  Encode : Values → GoString
  /-- `(*URL).String`. -/
  URLString : URL → GoString
  /-- `(*http.Client).Do`: the response of the network to a request, or the error. -/
  Do : HTTPClient → Request → Except Error Response

/-! ## `webhook.go` -/

/-- `VerifyWebhookSignature` returns whether the signature of a webhook request payload, sent
in the X-Signature header, is valid or not: its two results and the request afterwards. -/
def VerifyWebhookSignature (req : Request) (webhookSecretKey : GoString) :
    Except Panic ((Bool × Option Error) × Request) :=
  let h := req.Header.Get (str "X-Signature")
  if h = [] then .ok ((false, some ErrNoWebhookSignature), req)
  else
    match hex.DecodeString h with
    | (_, some err) => .ok ((false, some err), req)
    | (signature, none) =>
      match hex.DecodeString webhookSecretKey with
      | (_, some err) => .ok ((false, some err), req)
      | (key, none) =>
        match req.Body with
        | none => .error Panic.nilDereference
        | some rc =>
          match ioutil.ReadAll rc with
          | ((_, some err), rc1) => .ok ((false, some err), { req with Body := some rc1 })
          | ((body, none), _) =>
            -- Make body readable again
            let req1 := { req with Body := some (ioutil.NopCloser (bytes.NewBuffer body)) }
            match validMAC body signature key with
            | (_, some err) => .ok ((false, some err), req1)
            | (valid, none) =>
              if !valid then .ok ((false, some ErrInvalidSignature), req1)
              else .ok ((true, none), req1)

/-- `ParseWebhookRequest` parses the body of a webhook request and returns it as a
`*PaymentUpdateEvent`. -/
def ParseWebhookRequest (E : Env) (req : Request) :
    Except Panic ((Option PaymentUpdateEvent × Option Error) × Request) :=
  match req.Body with
  | none => .error Panic.nilDereference
  | some rc =>
    match ioutil.ReadAll rc with
    | ((_, some err), rc1) => .ok ((none, some err), { req with Body := some rc1 })
    | ((body, none), _) =>
      -- Make body readable again
      let req1 := { req with Body := some (ioutil.NopCloser (bytes.NewBuffer body)) }
      match E.unmarshalEvent body with
      | (_, some err) => .ok ((none, some err), req1)
      | (e, none) => .ok ((e, none), req1)

/-- `VerifyAndParseWebhookRequest` both verifies and parses a webhook request. -/
def VerifyAndParseWebhookRequest (E : Env) (req : Request) (webhookSecretKey : GoString) :
    Except Panic ((Bool × Option PaymentUpdateEvent × Option Error) × Request) :=
  match VerifyWebhookSignature req webhookSecretKey with
  | .error p => .error p
  | .ok ((valid, some err), req1) => .ok ((valid, none, some err), req1)
  | .ok ((valid, none), req1) =>
    match ParseWebhookRequest E req1 with
    | .error p => .error p
    | .ok ((_, some err), req2) => .ok ((valid, none, some err), req2)
    | .ok ((e, none), req2) => .ok ((valid, e, none), req2)

/-! ## `client.go` -/

/-- `Client` holds all the information needed to perform a request to the REST API. The
pointer `HTTPClient` is taken non-nil, as `NewClient` leaves it. -/
structure Client where
  scheme : GoString
  host : GoString
  apiVersion : GoString
  baseURL : GoString
  HTTPClient : HTTPClient
  apiKey : GoString
  secretKey : GoString
deriving DecidableEq, Repr

/-- `ClientOptions` holds the options for the initialization of a new `Client`. -/
structure ClientOptions where
  Scheme : GoString
  Host : GoString
  APIVersion : GoString
  APIKey : GoString
  SecretKey : GoString
deriving DecidableEq, Repr

def defaultScheme : GoString := str "https"

def defaultHost : GoString := str "merchant.dero.io"

def defaultAPIVersion : GoString := str "v1"

/-- `NewClient` returns a new `Client`, or nil and the error of `url.ParseRequestURI`. -/
def NewClient (E : Env) (o : ClientOptions) : Option Client × Option Error :=
  let scheme := if o.Scheme = [] then defaultScheme else o.Scheme
  let host := if o.Host = [] then defaultHost else o.Host
  let apiVersion := if o.APIVersion = [] then defaultAPIVersion else o.APIVersion
  -- fmt.Sprintf("%s://%s/api/%s", c.scheme, c.host, c.apiVersion)
  let baseURL := scheme ++ str "://" ++ host ++ str "/api/" ++ apiVersion
  match E.ParseRequestURI baseURL with
  | .error err => (none, some err)
  | .ok _ =>
    (some ⟨scheme, host, apiVersion, baseURL, ⟨10 * 1000000000⟩, o.APIKey, o.SecretKey⟩, none)

/-- A non-nil `payload interface{}`, seen through what `json.Marshal(&payload)` returns. -/
structure Payload where
  Marshal : Bytes × Option Error
deriving DecidableEq, Repr

/-- A non-nil `respBody interface{}`: the value behind it, and for `json.Unmarshal(b,
respBody)` the value behind it afterwards and the error. -/
structure Target (ρ : Type) where
  value : ρ
  Unmarshal : Bytes → ρ × Option Error

/-- `hasPort` of `net/http`: a colon after the last closing bracket. -/
def hasPort : GoString → Bool
  | [] => false
  | c :: rest => if hasPort rest then true else if rest.contains 0x5D then false else c == 0x3A

/-- `removeEmptyPort` of `net/http`: strips the empty port in `host:`. -/
def removeEmptyPort (host : GoString) : GoString :=
  if hasPort host && host.getLast? == some 0x3A then host.dropLast else host

/-- `validMethod` of `net/http`: a non-empty token. -/
def validMethod (method : GoString) : Bool :=
  method.length > 0 && method.all validHeaderFieldByte

/-- `http.NewRequest(method, url, body)` for a `body` that is nil or a `*bytes.Buffer`
holding the given bytes, the two kinds the package passes. -/
def http.NewRequest (E : Env) (method url : GoString) (body : Option Bytes) :
    Except Error Request :=
  let method := if method = [] then str "GET" else method
  if !validMethod method then
    .error (Error.errorString (str "net/http: invalid method " ++ E.Quote method))
  else
    match E.Parse url with
    | .error err => .error err
    | .ok u =>
      let u := { u with Host := removeEmptyPort u.Host }
      match body with
      | none => .ok ⟨method, u, [], none, none, 0, u.Host⟩
      | some buf =>
        -- for an empty buffer both Body and GetBody are http.NoBody, which reads as empty too
        .ok ⟨method, u, [], some (ioutil.NopCloser (bytes.NewBuffer buf)),
          some (ioutil.NopCloser (bytes.NewBuffer buf), none), buf.length, u.Host⟩

/-- `NewRequest` returns a new request ready to be sent with `SendRequest` or
`SendSignedRequest`. The map `queryParams` is the list of its entries, each value given by
its text under the verb `%v`. -/
def Client.NewRequest (E : Env) (c : Client) (method endpoint : GoString)
    (queryParams : List (GoString × GoString)) (payload : Option Payload) :
    Option Request × Option Error :=
  let url := c.baseURL ++ endpoint
  match payload.map (fun p => p.Marshal) with
  | some (_, some err) => (none, some err)
  | b =>
    let body : Option Bytes := b.map fun r => r.1
    let method := E.ToUpper method
    match http.NewRequest E method url body with
    | .error err => (none, some err)
    | .ok req =>
      let q := queryParams.foldl (fun q kv => Values.Add q kv.1 kv.2) (E.ParseQuery req.URL.RawQuery)
      let req := { req with URL := { req.URL with RawQuery := E.Encode q } }
      let req := { req with
        Header := req.Header.Set (str "User-Agent") (str "DeroMerchant_Client_Golang/1.0") }
      let req := { req with Header := req.Header.Set (str "X-API-Key") c.apiKey }
      let req := if payload.isSome then
          { req with Header := (req.Header.Set (str "Content-Type")
              (str "application/json")).Set (str "Accept") (str "application/json") }
        else req
      (some req, none)

/-- What a call of `SendRequest` or `SendSignedRequest` did. -/
structure Sent (ρ : Type) where
  /-- The error returned. -/
  err : Option Error
  /-- The value behind `respBody` afterwards; `none` for a nil `respBody`. -/
  respBody : Option ρ
  /-- The requests handed to `c.HTTPClient.Do`, in order. -/
  done : List Request

/-- `strconv.Itoa`, the verb `%d`. -/
def itoa (n : Int) : GoString := str (toString n)

/-- `SendRequest` sends a request to the API. -/
def Client.SendRequest {ρ : Type} (E : Env) (c : Client) (req : Request)
    (respBody : Option (Target ρ)) : Sent ρ :=
  let unwritten := respBody.map fun t => t.value
  match E.Do c.HTTPClient req with
  | .error err => ⟨some err, unwritten, [req]⟩
  | .ok resp =>
    match ioutil.ReadAll resp.Body with
    | ((_, some err), _) => ⟨some err, unwritten, [req]⟩
    | ((b, none), _) =>
      if resp.StatusCode < 200 ∨ resp.StatusCode > 299 then
        match E.unmarshalErrorResponse b with
        | (_, some _) =>
          if resp.StatusCode = 404 then
            ⟨some (Error.errorString (str "DeroMerchant Client: error 404: page "
              ++ E.URLString req.URL ++ str " not found")), unwritten, [req]⟩
          else
            ⟨some (Error.errorString (str "DeroMerchant Client: error "
              ++ itoa resp.StatusCode ++ str " returned by " ++ E.URLString req.URL)),
              unwritten, [req]⟩
        | (errResp, none) => ⟨some (Error.APIError errResp.Error), unwritten, [req]⟩
      else
        match respBody with
        | some t =>
          match t.Unmarshal b with
          | (v, some err) => ⟨some err, some v, [req]⟩
          | (v, none) => ⟨none, some v, [req]⟩
        | none => ⟨none, none, [req]⟩

/-- `SendSignedRequest` sends a signed request to the API: what the call did, and the
request afterwards. Calling a nil `GetBody` panics. -/
def Client.SendSignedRequest {ρ : Type} (E : Env) (c : Client) (req : Request)
    (respBody : Option (Target ρ)) : Except Panic (Sent ρ × Request) :=
  let unwritten := respBody.map fun t => t.value
  match req.Body with
  | some _ =>
    match req.GetBody with
    | none => .error Panic.nilDereference
    | some (_, some err) => .ok (⟨some err, unwritten, []⟩, req)
    | some (b, none) =>
      match ioutil.ReadAll b with
      | ((_, some err), _) => .ok (⟨some err, unwritten, []⟩, req)
      | ((body, none), _) =>
        match hex.DecodeString c.secretKey with
        | (_, some err) => .ok (⟨some err, unwritten, []⟩, req)
        | (key, none) =>
          match signMessage body key with
          | (_, some err) => .ok (⟨some err, unwritten, []⟩, req)
          | (s, none) =>
            let signature := hex.EncodeToString s
            let req1 := { req with Header := req.Header.Set (str "X-Signature") signature }
            .ok (c.SendRequest E req1 respBody, req1)
  | none => .ok (c.SendRequest E req respBody, req)

/-! ## Reference definitions -/

/-- `sha256.Sum256`: the SHA-256 checksum of the data written in one piece. -/
def sha256.Sum256 (data : Bytes) : Bytes := (sha256.New.Write data).checkSum

/-- The key block `K0` of RFC 2104: the key, replaced by its hash when longer than a block,
then padded with zeros to the 64 bytes of a block. -/
def HMAC_SHA256.K0 (key : Bytes) : Bytes :=
  let k := if key.length > 64 then sha256.Sum256 key else key
  k ++ List.replicate (64 - k.length) 0

/-- HMAC-SHA256 as RFC 2104 defines it: `H((K0 xor opad) ++ H((K0 xor ipad) ++ text))`. -/
def HMAC_SHA256 (key text : Bytes) : Bytes :=
  sha256.Sum256 ((HMAC_SHA256.K0 key).map (fun b => Fin.ofNat (b.val ^^^ 0x5c))
    ++ sha256.Sum256 ((HMAC_SHA256.K0 key).map (fun b => Fin.ofNat (b.val ^^^ 0x36)) ++ text))

/-! ## Concrete inputs

The values of the tests of the repository (`webhook_test.go`, `client_test.go`) and of the
scenarios of the specification, on which the definitions are evaluated. -/

namespace Example

/-- The constant `validWebhookSecretKey` of `webhook_test.go`. -/
def validWebhookSecretKey : GoString :=
  str "010f2b45384c57bd388bccb520722abd8d5a61f66ca71fcd25bf7942d067ca73"

/-- The constant `invalidWebhookSecretKey` of `webhook_test.go`. -/
def invalidWebhookSecretKey : GoString :=
  str "1e9a0eefcff11530a1bc247672e9ebcb712fc6ab82e0b54b0e586c8adc33b0c0"

/-- The first event of `TestVerifyAndParseWebhookRequest`. -/
def paidEvent : PaymentUpdateEvent :=
  ⟨str "6c8dd967897d8c46879d75236027f4791816146bed38a259a1dbdb8e047c10b4", str "paid"⟩

/-- The JSON serialization of `paidEvent`, the body `createWebhookRequest` sends. -/
def paidBody : Bytes :=
  str ("\x7b\"paymentID\":\"6c8dd967897d8c46879d75236027f4791816146bed38a259a1dbdb8e047c10b4\","
    ++ "\"status\":\"paid\"\x7d")

/-- A webhook request as a server receives it: a POST with the given headers and body. -/
def webhookRequest (header : Header) (body : Bytes) : Request :=
  ⟨str "POST", ⟨[], [], none, [], str "/", [], false, [], []⟩, header,
    some (bytes.NewBuffer body), none, body.length, str "localhost:8080"⟩

/-- The request `createWebhookRequest` builds for `paidEvent` under `validWebhookSecretKey`:
the header is the digest in hexadecimal. -/
def signedRequest : Request :=
  webhookRequest
    [(str "X-Signature",
      [str "c9d1c777c43e2263082bd345069526922ca368f247c28bff03f2e45d7a76f0ee"])]
    paidBody

/-- The request `createWebhookRequest` builds for `paidEvent` under
`invalidWebhookSecretKey`. -/
def wrongKeyRequest : Request :=
  webhookRequest
    [(str "X-Signature",
      [str "bc1ad764e9f0a59aadda18f556eb3a4c70ae87d303be4526559c90aff1aec2bb"])]
    paidBody

/-- A request carrying `paidBody` and no X-Signature header. -/
def unsignedRequest : Request :=
  webhookRequest [(str "Content-Type", [str "application/json"])] paidBody

/-- A request whose X-Signature header is not hexadecimal. -/
def garbledRequest : Request :=
  webhookRequest [(str "X-Signature", [str "not-hex"])] paidBody

/-- The body of scenario 5 of the specification. -/
def createPaymentBody : Bytes :=
  str "\x7b\"currency\":\"DERO\",\"amount\":10\x7d"

/-- ASCII upper case, which is `strings.ToUpper` on ASCII strings. -/
def toUpperASCII (s : GoString) : GoString :=
  s.map fun c => if 0x61 ≤ c.val ∧ c.val ≤ 0x7A then Fin.ofNat (c.val - 0x20) else c

/-- A stand-in for the library and the network, for evaluating on examples: the JSON decoder
knows `paidBody` only, URLs are kept whole as their path, queries are dropped, and the network
answers every request with status 200 and an empty body. -/
def env : Env where
  unmarshalEvent := fun b =>
    if b = paidBody then (some paidEvent, none)
    else (none, some (Error.foreign (str "*json.SyntaxError") (str "unexpected end of JSON input")))
  unmarshalErrorResponse := fun _ =>
    (⟨none⟩, some (Error.foreign (str "*json.SyntaxError") (str "unexpected end of JSON input")))
  ToUpper := toUpperASCII
  Quote := fun s => str "\"" ++ s ++ str "\""
  Parse := fun s => .ok ⟨[], [], none, [], s, [], false, [], []⟩
  ParseRequestURI := fun s => .ok ⟨[], [], none, [], s, [], false, [], []⟩
  ParseQuery := fun _ => []
  Encode := fun _ => []
  URLString := fun u => u.Path
  Do := fun _ _ => .ok ⟨200, bytes.NewBuffer []⟩

/-- The client of `TestSendSignedRequest`. -/
def client : Client :=
  ⟨str "http", str "localhost:8080", str "v1", str "http://localhost:8080/api/v1",
    ⟨10 * 1000000000⟩,
    str "bfe737bcdc5d8886a03be6e6c34c545d85ab8fa39052b9e3be36d3626c180a6f",
    str "b3cef2080cf82a010acba9bd00c9bd5797ec07767fbd7c08702a921d67c8155a"⟩

/-- The payload of `TestSendSignedRequest`, by its JSON serialization. -/
def payload : Payload :=
  ⟨(str "\x7b\"id\":1,\"message\":\"Hello world\"\x7d", none)⟩

/-- The request `client.NewRequest` builds in `env` for `POST /` with `payload`. -/
def postRequest : Request :=
  ⟨str "POST", ⟨[], [], none, [], str "http://localhost:8080/api/v1/", [], false, [], []⟩,
    [(str "Accept", [str "application/json"]), (str "Content-Type", [str "application/json"]),
     (str "X-Api-Key", [client.apiKey]),
     (str "User-Agent", [str "DeroMerchant_Client_Golang/1.0"])],
    some (bytes.NewBuffer payload.Marshal.1), some (bytes.NewBuffer payload.Marshal.1, none),
    32, []⟩

end Example

/-! ## `error.go` -/

/-- The method `(*APIError).Error` of `error.go`, on the pointer a `*APIError` error holds:
reading `e.Code` through a nil pointer panics. -/
def APIError.Error : Option APIError → Except Panic GoString
  | none => .error Panic.nilDereference
  | some e => .ok (str "DeroMerchant Client: API Error " ++ itoa e.Code ++ str ": " ++ e.Message)

/-! ## `unicode/utf8` and `encoding/json`

A model of `json.Unmarshal` for the two targets the package decodes into itself, the
`errorResponse` of `SendRequest` and the `*PaymentUpdateEvent` of `ParseWebhookRequest`: the
syntax check of the whole text first, then the decoding of the value. The texts of the errors
of `encoding/json` are not modelled, their types are. -/

namespace utf8

/-- `utf8.EncodeRune`: a surrogate or a rune beyond `U+10FFFF` is written as `U+FFFD`. -/
def EncodeRune (r : Nat) : Bytes :=
  if r < 0x80 then [Fin.ofNat r]
  else if r < 0x800 then [Fin.ofNat (0xC0 ||| (r >>> 6)), Fin.ofNat (0x80 ||| (r &&& 0x3F))]
  else if (0xD800 ≤ r ∧ r < 0xE000) ∨ 0x10FFFF < r then [0xEF, 0xBF, 0xBD]
  else if r < 0x10000 then
    [Fin.ofNat (0xE0 ||| (r >>> 12)), Fin.ofNat (0x80 ||| ((r >>> 6) &&& 0x3F)),
     Fin.ofNat (0x80 ||| (r &&& 0x3F))]
  else
    [Fin.ofNat (0xF0 ||| (r >>> 18)), Fin.ofNat (0x80 ||| ((r >>> 12) &&& 0x3F)),
     Fin.ofNat (0x80 ||| ((r >>> 6) &&& 0x3F)), Fin.ofNat (0x80 ||| (r &&& 0x3F))]

/-- Whether `b` is in `lo..hi`. -/
def between (lo hi : Nat) (b : Byte) : Bool := lo ≤ b.val && b.val ≤ hi

/-- The size `utf8.DecodeRune` returns at the head of `p` when the head is a well-formed
encoding of more than one byte, and 0 when `DecodeRune` returns `(RuneError, 1)`. -/
def validSize (p : Bytes) : Nat :=
  match p with
  | c0 :: c1 :: rest =>
    if between 0xC2 0xDF c0 then (if between 0x80 0xBF c1 then 2 else 0)
    else
      match rest with
      | c2 :: rest2 =>
        let second3 :=
          if c0.val == 0xE0 then between 0xA0 0xBF c1
          else if c0.val == 0xED then between 0x80 0x9F c1
          else between 0x80 0xBF c1
        if between 0xE0 0xEF c0 then (if second3 && between 0x80 0xBF c2 then 3 else 0)
        else
          match rest2 with
          | c3 :: _ =>
            let second4 :=
              if c0.val == 0xF0 then between 0x90 0xBF c1
              else if c0.val == 0xF4 then between 0x80 0x8F c1
              else between 0x80 0xBF c1
            if between 0xF0 0xF4 c0 && second4 && between 0x80 0xBF c2 && between 0x80 0xBF c3
            then 4 else 0
          | [] => 0
      | [] => 0
  | _ => 0

end utf8

namespace json

/-- A JSON value as the scanner delimits it: a number by its text, a string and a key by the
bytes between the quotes, still escaped. -/
inductive Value where
  | null
  | bool (b : Bool)
  | number (text : Bytes)
  | string (raw : Bytes)
  | array (items : List Value)
  | object (members : List (Bytes × Value))

/-- Why the syntax check stops: the text is not JSON, or the recursion ran out of fuel. -/
inductive Fail where
  | invalid
  | fuel
deriving DecidableEq, Repr

/-- `isSpace` of the scanner. -/
def isSpace (c : Byte) : Bool :=
  c.val == 0x20 || c.val == 0x09 || c.val == 0x0D || c.val == 0x0A

/-- The text after its leading white space. -/
def skipSpace : Bytes → Bytes
  | [] => []
  | c :: rest => if isSpace c then skipSpace rest else c :: rest

def isDigit (c : Byte) : Bool := 0x30 ≤ c.val && c.val ≤ 0x39

def isHex (c : Byte) : Bool :=
  isDigit c || (0x61 ≤ c.val && c.val ≤ 0x66) || (0x41 ≤ c.val && c.val ≤ 0x46)

/-- The characters that may follow a backslash other than `u`. -/
def isEscape (c : Byte) : Bool :=
  c.val == 0x22 || c.val == 0x5C || c.val == 0x2F || c.val == 0x62 || c.val == 0x66
    || c.val == 0x6E || c.val == 0x72 || c.val == 0x74

/-- The scanner inside a string, after the opening quote: the bytes up to the closing quote
and the text after it. Control characters and bad escapes are refused; bytes that are not
UTF-8 are let through. -/
def scanString : Bytes → Option (Bytes × Bytes)
  | [] => none
  | c :: rest =>
    if c.val == 0x22 then some ([], rest)
    else if c.val == 0x5C then
      match rest with
      | [] => none
      | e :: rest1 =>
        if isEscape e then (scanString rest1).map fun r => (c :: e :: r.1, r.2)
        else if e.val == 0x75 then
          match rest1 with
          | h1 :: h2 :: h3 :: h4 :: rest2 =>
            if isHex h1 && isHex h2 && isHex h3 && isHex h4 then
              (scanString rest2).map fun r => (c :: e :: h1 :: h2 :: h3 :: h4 :: r.1, r.2)
            else none
          | _ => none
        else none
    else if c.val < 0x20 then none
    else (scanString rest).map fun r => (c :: r.1, r.2)

/-- The leading digits and the text after them. -/
def spanDigits : Bytes → Bytes × Bytes
  | [] => ([], [])
  | c :: rest =>
    if isDigit c then ((spanDigits rest).1.cons c, (spanDigits rest).2) else ([], c :: rest)

/-- The scanner on a number, without the sign: an integer part that is `0` or starts with
`1..9`, then an optional fraction and an optional exponent, each with at least one digit. -/
def scanUnsigned (s : Bytes) : Option (Bytes × Bytes) :=
  let int : Option (Bytes × Bytes) :=
    match s with
    | [] => none
    | c :: rest =>
      if c.val == 0x30 then some ([c], rest)
      else if isDigit c then some (c :: (spanDigits rest).1, (spanDigits rest).2)
      else none
  match int with
  | none => none
  | some (i, r) =>
    let frac : Option (Bytes × Bytes) :=
      match r with
      | c :: r1 =>
        if c.val == 0x2E then
          (if (spanDigits r1).1 = [] then none
           else some (i ++ c :: (spanDigits r1).1, (spanDigits r1).2))
        else some (i, r)
      | [] => some (i, r)
    match frac with
    | none => none
    | some (f, r2) =>
      match r2 with
      | c :: r3 =>
        if c.val == 0x65 || c.val == 0x45 then
          let sign : Bytes × Bytes :=
            match r3 with
            | d :: r4 => if d.val == 0x2B || d.val == 0x2D then ([d], r4) else ([], r3)
            | [] => ([], r3)
          if (spanDigits sign.2).1 = [] then none
          else some (f ++ c :: sign.1 ++ (spanDigits sign.2).1, (spanDigits sign.2).2)
        else some (f, r2)
      | [] => some (f, r2)

/-- The scanner on a number: its text and the text after it. -/
def scanNumber (s : Bytes) : Option (Bytes × Bytes) :=
  match s with
  | c :: rest =>
    if c.val == 0x2D then (scanUnsigned rest).map fun r => (c :: r.1, r.2)
    else scanUnsigned s
  | [] => none

/-- The text after the literal `lit`, if the text starts with it. -/
def after (lit : Bytes) (s : Bytes) : Option Bytes :=
  if lit.isPrefixOf s then some (s.drop lit.length) else none

/-- The constant `maxNestingDepth` of the scanner. -/
def maxNestingDepth : Nat := 10000

mutual

/-- One value at the head of the text, which may start with white space, inside `depth`
objects and arrays: the value and the text after it. An object or array nested deeper than
`maxNestingDepth` is refused. -/
def parseValue : Nat → Nat → Bytes → Except Fail (Value × Bytes)
  | 0, _, _ => .error Fail.fuel
  | n + 1, depth, s =>
    match skipSpace s with
    | [] => .error Fail.invalid
    | c :: rest =>
      if c.val == 0x7B then
        if maxNestingDepth ≤ depth then .error Fail.invalid
        else
          match skipSpace rest with
          | [] => .error Fail.invalid
          | d :: rest1 =>
            if d.val == 0x7D then .ok (Value.object [], rest1)
            else
              match parseMembers n (depth + 1) (d :: rest1) with
              | .ok (ms, r) => .ok (Value.object ms, r)
              | .error f => .error f
      else if c.val == 0x5B then
        if maxNestingDepth ≤ depth then .error Fail.invalid
        else
          match skipSpace rest with
          | [] => .error Fail.invalid
          | d :: rest1 =>
            if d.val == 0x5D then .ok (Value.array [], rest1)
            else
              match parseItems n (depth + 1) (d :: rest1) with
              | .ok (vs, r) => .ok (Value.array vs, r)
              | .error f => .error f
      else if c.val == 0x22 then
        match scanString rest with
        | some (raw, r) => .ok (Value.string raw, r)
        | none => .error Fail.invalid
      else if c.val == 0x2D || isDigit c then
        match scanNumber (c :: rest) with
        | some (t, r) => .ok (Value.number t, r)
        | none => .error Fail.invalid
      else
        match after (str "true") (c :: rest), after (str "false") (c :: rest),
          after (str "null") (c :: rest) with
        | some r, _, _ => .ok (Value.bool true, r)
        | _, some r, _ => .ok (Value.bool false, r)
        | _, _, some r => .ok (Value.null, r)
        | _, _, _ => .error Fail.invalid

/-- The members of an object from its first key, which the text starts with, to the closing
brace. -/
def parseMembers : Nat → Nat → Bytes → Except Fail (List (Bytes × Value) × Bytes)
  | 0, _, _ => .error Fail.fuel
  | n + 1, depth, s =>
    match s with
    | [] => .error Fail.invalid
    | q :: rest =>
      if q.val == 0x22 then
        match scanString rest with
        | none => .error Fail.invalid
        | some (key, r1) =>
          match skipSpace r1 with
          | [] => .error Fail.invalid
          | c :: r2 =>
            if c.val == 0x3A then
              match parseValue n depth r2 with
              | .error f => .error f
              | .ok (v, r3) =>
                match skipSpace r3 with
                | [] => .error Fail.invalid
                | d :: r4 =>
                  if d.val == 0x7D then .ok ([(key, v)], r4)
                  else if d.val == 0x2C then
                    match parseMembers n depth (skipSpace r4) with
                    | .ok (ms, r5) => .ok ((key, v) :: ms, r5)
                    | .error f => .error f
                  else .error Fail.invalid
            else .error Fail.invalid
      else .error Fail.invalid

/-- The items of an array from its first value to the closing bracket. -/
def parseItems : Nat → Nat → Bytes → Except Fail (List Value × Bytes)
  | 0, _, _ => .error Fail.fuel
  | n + 1, depth, s =>
    match parseValue n depth s with
    | .error f => .error f
    | .ok (v, r) =>
      match skipSpace r with
      | [] => .error Fail.invalid
      | d :: r1 =>
        if d.val == 0x5D then .ok ([v], r1)
        else if d.val == 0x2C then
          match parseItems n depth r1 with
          | .ok (vs, r2) => .ok (v :: vs, r2)
          | .error f => .error f
        else .error Fail.invalid

end

/-- `checkValid` and the scan of the value: the text must be one value between white space.
The fuel, one more than twice the length, is never used up (`parse_fuel`). -/
def parse (data : Bytes) : Except Fail Value :=
  match parseValue (2 * data.length + 1) 0 data with
  | .error f => .error f
  | .ok (v, r) => if skipSpace r = [] then .ok v else .error Fail.invalid

/-- The value of four hexadecimal digits. -/
def getu4 (h1 h2 h3 h4 : Byte) : Nat :=
  (hex.fromHexChar h1).1.val * 4096 + (hex.fromHexChar h2).1.val * 256
    + (hex.fromHexChar h3).1.val * 16 + (hex.fromHexChar h4).1.val

/-- The byte an escape other than `u` stands for. -/
def escaped (e : Byte) : Byte :=
  if e.val == 0x62 then 0x08
  else if e.val == 0x66 then 0x0C
  else if e.val == 0x6E then 0x0A
  else if e.val == 0x72 then 0x0D
  else if e.val == 0x74 then 0x09
  else e

/-- The rune of the escape `uXXXX` the text starts with, after the backslash, and how many
bytes of the text it takes: a high surrogate takes a low surrogate escaped right after it
along, any other surrogate is `U+FFFD`. -/
def escapedRune (s : Bytes) : Nat × Nat :=
  match s with
  | _ :: h1 :: h2 :: h3 :: h4 :: rest =>
    let rr := getu4 h1 h2 h3 h4
    if 0xD800 ≤ rr ∧ rr < 0xE000 then
      match rest with
      | b :: u :: g1 :: g2 :: g3 :: g4 :: _ =>
        let rr1 := getu4 g1 g2 g3 g4
        if b.val == 0x5C && u.val == 0x75 && isHex g1 && isHex g2 && isHex g3 && isHex g4
            && rr < 0xDC00 && 0xDC00 ≤ rr1 && rr1 < 0xE000 then
          (((rr - 0xD800) <<< 10 ||| (rr1 - 0xDC00)) + 0x10000, 11)
        else (0xFFFD, 5)
      | _ => (0xFFFD, 5)
    else (rr, 5)
  | _ => (0xFFFD, 0)

/-- The loop of `unquoteBytes` on the bytes between the quotes of a string the scanner
accepted: `skip` bytes of an escape are still to be passed over, `copy` bytes of a
well-formed UTF-8 encoding are still to be copied. A byte that starts no well-formed
encoding becomes `U+FFFD`. -/
def unquoteLoop : Nat → Nat → Bytes → Bytes
  | _, _, [] => []
  | skip + 1, copy, _ :: rest => unquoteLoop skip copy rest
  | 0, copy + 1, c :: rest => c :: unquoteLoop 0 copy rest
  | 0, 0, c :: rest =>
    if c.val == 0x5C then
      match rest with
      | [] => []
      | e :: _ =>
        if e.val == 0x75 then
          utf8.EncodeRune (escapedRune rest).1 ++ unquoteLoop (escapedRune rest).2 0 rest
        else escaped e :: unquoteLoop 1 0 rest
    else if c.val < 0x80 then c :: unquoteLoop 0 0 rest
    else if utf8.validSize (c :: rest) = 0 then
      utf8.EncodeRune 0xFFFD ++ unquoteLoop 0 0 rest
    else c :: unquoteLoop 0 (utf8.validSize (c :: rest) - 1) rest

/-- `unquoteBytes`, on the bytes between the quotes. -/
def unquote (raw : Bytes) : Bytes := unquoteLoop 0 0 raw

/-- The loop that folds a name: `skip` bytes of a folded rune are still to be passed over. -/
def foldLoop : Nat → Bytes → Bytes
  | _, [] => []
  | skip + 1, _ :: rest => foldLoop skip rest
  | 0, c :: rest =>
    if 0x61 ≤ c.val ∧ c.val ≤ 0x7A then Fin.ofNat (c.val - 0x20) :: foldLoop 0 rest
    else if c.val = 0xC5 ∧ rest.take 1 = [0xBF] then 0x53 :: foldLoop 1 rest
    else if c.val = 0xE2 ∧ rest.take 2 = [0x84, 0xAA] then 0x4B :: foldLoop 2 rest
    else c :: foldLoop 0 rest

/-- The name under the simple case folding by which a key is matched to a field when no field
has its exact name: ASCII letters in upper case, the long s `U+017F` as `S`, the Kelvin sign
`U+212A` as `K`. -/
def foldName (name : Bytes) : Bytes := foldLoop 0 name

/-- Whether the key, given as the scanner delimits it, selects the field of the given JSON
name. The field names of the package are distinct under folding, so a key selects one field
at most. -/
def isField (name : GoString) (key : Bytes) : Bool :=
  foldName (unquote key) == foldName name

/-- `strconv.ParseInt(s, 10, 64)` on the text of a JSON number: `none` for a fraction, an
exponent or a value out of the range of `int64`. -/
def parseInt (text : Bytes) : Option Int :=
  let neg := text.head? == some 0x2D
  let digits := if neg then text.drop 1 else text
  if digits = [] ∨ ¬ digits.all isDigit then none
  else
    let n : Nat := digits.foldl (fun a d => 10 * a + (d.val - 0x30)) 0
    let v : Int := if neg then -(n : Int) else (n : Int)
    if -(2 : Int) ^ 63 ≤ v ∧ v < (2 : Int) ^ 63 then some v else none

/-- A `*json.SyntaxError`. -/
def SyntaxError : Error := Error.foreign (str "*json.SyntaxError") []

/-- A `*json.UnmarshalTypeError`. -/
def UnmarshalTypeError : Error := Error.foreign (str "*json.UnmarshalTypeError") []

/-- `d.saveError`: the first error is the one returned at the end. -/
def saveError (saved : Option Error) (e : Error) : Option Error :=
  match saved with
  | some s => some s
  | none => some e

/-- One member of an object decoded into an `APIError`: `code` takes an integer, `message` a
string, `null` leaves a field as it is, any other value is a type error, any other key is
skipped. -/
def storeAPIError (st : APIError × Option Error) (m : Bytes × Value) :
    APIError × Option Error :=
  if isField (str "code") m.1 then
    match m.2 with
    | Value.number t =>
      match parseInt t with
      | some n => ({ st.1 with Code := n }, st.2)
      | none => (st.1, saveError st.2 UnmarshalTypeError)
    | Value.null => st
    | _ => (st.1, saveError st.2 UnmarshalTypeError)
  else if isField (str "message") m.1 then
    match m.2 with
    | Value.string raw => ({ st.1 with Message := unquote raw }, st.2)
    | Value.null => st
    | _ => (st.1, saveError st.2 UnmarshalTypeError)
  else st

/-- One member of an object decoded into an `errorResponse`: under the key `error`, `null`
sets the pointer to nil, an object is decoded into the `APIError` pointed to, allocated if the
pointer is nil, and any other value allocates and is a type error. -/
def storeErrorResponse (st : errorResponse × Option Error) (m : Bytes × Value) :
    errorResponse × Option Error :=
  if isField (str "error") m.1 then
    match m.2 with
    | Value.null => (⟨none⟩, st.2)
    | Value.object fs =>
      (⟨some (fs.foldl storeAPIError (st.1.Error.getD ⟨0, []⟩, st.2)).1⟩,
        (fs.foldl storeAPIError (st.1.Error.getD ⟨0, []⟩, st.2)).2)
    | _ => (⟨some (st.1.Error.getD ⟨0, []⟩)⟩, saveError st.2 UnmarshalTypeError)
  else st

/-- `json.Unmarshal(data, &errResp)` for a zero `errResp errorResponse`: `errResp` afterwards
and the error. A text that is not JSON is a syntax error and writes nothing; `null` writes
nothing and is no error; a value that is no object is a type error. -/
def unmarshalErrorResponse (data : Bytes) : errorResponse × Option Error :=
  match parse data with
  | .error _ => (⟨none⟩, some SyntaxError)
  | .ok (Value.object ms) => ms.foldl storeErrorResponse (⟨none⟩, none)
  | .ok Value.null => (⟨none⟩, none)
  | .ok _ => (⟨none⟩, some UnmarshalTypeError)

/-- One member of an object decoded into a `PaymentUpdateEvent`. -/
def storeEvent (st : PaymentUpdateEvent × Option Error) (m : Bytes × Value) :
    PaymentUpdateEvent × Option Error :=
  if isField (str "paymentID") m.1 then
    match m.2 with
    | Value.string raw => ({ st.1 with PaymentID := unquote raw }, st.2)
    | Value.null => st
    | _ => (st.1, saveError st.2 UnmarshalTypeError)
  else if isField (str "status") m.1 then
    match m.2 with
    | Value.string raw => ({ st.1 with Status := unquote raw }, st.2)
    | Value.null => st
    | _ => (st.1, saveError st.2 UnmarshalTypeError)
  else st

/-- `json.Unmarshal(data, &e)` for a nil `e *PaymentUpdateEvent`: `e` afterwards and the
error. `null` leaves `e` nil and is no error; an object allocates the event and is decoded
into it; any other value allocates and is a type error. -/
def unmarshalEvent (data : Bytes) : Option PaymentUpdateEvent × Option Error :=
  match parse data with
  | .error _ => (none, some SyntaxError)
  | .ok Value.null => (none, none)
  | .ok (Value.object ms) =>
    (some (ms.foldl storeEvent (⟨[], []⟩, none)).1, (ms.foldl storeEvent (⟨[], []⟩, none)).2)
  | .ok _ => (some ⟨[], []⟩, some UnmarshalTypeError)

end json

/-! ## `net/url`: query strings -/

namespace url

/-- `shouldEscape(c, encodeQueryComponent)`: every byte but the letters, the digits and
`-`, `_`, `.`, `~`. -/
def shouldEscape (c : Byte) : Bool :=
  !((0x61 ≤ c.val && c.val ≤ 0x7A) || (0x41 ≤ c.val && c.val ≤ 0x5A)
    || (0x30 ≤ c.val && c.val ≤ 0x39)
    || c.val == 0x2D || c.val == 0x5F || c.val == 0x2E || c.val == 0x7E)

/-- The constant `upperhex`. -/
def upperhex : GoString := str "0123456789ABCDEF"

/-- What `escape(s, encodeQueryComponent)` writes for one byte. -/
def escapeByte (c : Byte) : Bytes :=
  if c.val = 0x20 then [0x2B]
  else if shouldEscape c then [0x25, upperhex.getD (c.val >>> 4) 0, upperhex.getD (c.val &&& 15) 0]
  else [c]

/-- `url.QueryEscape`. -/
def QueryEscape (s : GoString) : GoString := s.flatMap escapeByte

/-- `ishex`. -/
def ishex (c : Byte) : Bool :=
  (0x30 ≤ c.val && c.val ≤ 0x39) || (0x61 ≤ c.val && c.val ≤ 0x66)
    || (0x41 ≤ c.val && c.val ≤ 0x46)

/-- `unhex`. -/
def unhex (c : Byte) : Nat :=
  if 0x30 ≤ c.val ∧ c.val ≤ 0x39 then c.val - 0x30
  else if 0x61 ≤ c.val ∧ c.val ≤ 0x66 then c.val - 0x61 + 10
  else if 0x41 ≤ c.val ∧ c.val ≤ 0x46 then c.val - 0x41 + 10
  else 0

/-- `unescape(s, encodeQueryComponent)`: `%XX` becomes the byte, `+` a space; the error is the
text of the first `%` that two hexadecimal digits do not follow, three bytes at most. -/
def unescape : Bytes → Except Bytes Bytes
  | [] => .ok []
  | [c] => if c.val = 0x25 then .error [c] else .ok [if c.val = 0x2B then 0x20 else c]
  | c :: h1 :: rest =>
    if c.val = 0x25 then
      match rest with
      | [] => .error [c, h1]
      | h2 :: rest1 =>
        if ishex h1 && ishex h2 then
          match unescape rest1 with
          | .ok r => .ok (Fin.ofNat (unhex h1 <<< 4 ||| unhex h2) :: r)
          | .error e => .error e
        else .error [c, h1, h2]
    else
      match unescape (h1 :: rest) with
      | .ok r => .ok ((if c.val = 0x2B then 0x20 else c) :: r)
      | .error e => .error e

/-- `url.QueryUnescape`: an `EscapeError` holds the text refused. -/
def QueryUnescape (s : GoString) : GoString × Option Error :=
  match unescape s with
  | .ok r => (r, none)
  | .error e => ([], some (Error.foreign (str "url.EscapeError") e))

/-- `strings.Cut(s, sep)` for a separator of one byte. -/
def cut (sep : Byte) : Bytes → Bytes × Bytes × Bool
  | [] => ([], [], false)
  | c :: rest =>
    if c = sep then ([], rest, true)
    else ((cut sep rest).1.cons c, (cut sep rest).2.1, (cut sep rest).2.2)

/-- The texts between the separators, which the loop of `parseQuery` cuts off one by one. -/
def pieces (sep : Byte) : Bytes → List Bytes
  | [] => [[]]
  | c :: rest =>
    if c = sep then [] :: pieces sep rest
    else
      match pieces sep rest with
      | p :: ps => (c :: p) :: ps
      | [] => [[c]]

/-- One round of the loop of `parseQuery` (as of Go 1.17; before, a semicolon separated as
`&` does): the map and the error so far, and the text up to the next `&`. -/
def parsePair (st : Values × Option Error) (key : Bytes) : Values × Option Error :=
  if key.contains 0x3B then
    (st.1, some (Error.errorString (str "invalid semicolon separator in query")))
  else if key = [] then st
  else
    match QueryUnescape (cut 0x3D key).1 with
    | (_, some err1) => (st.1, if st.2 = none then some err1 else st.2)
    | (k, none) =>
      match QueryUnescape (cut 0x3D key).2.1 with
      | (_, some err1) => (st.1, if st.2 = none then some err1 else st.2)
      | (value, none) => (Values.Add st.1 k value, st.2)

/-- `url.ParseQuery`: the map, which holds every pair that could be decoded, and the first
error. -/
def ParseQuery (query : GoString) : Values × Option Error :=
  (pieces 0x26 query).foldl parsePair ([], none)

/-- The order `<` of Go on strings, byte by byte. -/
def less : GoString → GoString → Bool
  | _, [] => false
  | [], _ :: _ => true
  | a :: s, b :: t => a.val < b.val || (a.val == b.val && less s t)

end url

/-- `sort.Strings`: increasing order. -/
def sort.Strings (keys : List GoString) : List GoString :=
  keys.insertionSort fun a b => url.less b a = false

/-- `Values.Encode`: the pairs `key=value`, both escaped, joined by `&`, the keys in increasing
order and the values of a key in their order. -/
def Values.Encode (v : Values) : GoString :=
  (str "&").intercalate
    ((sort.Strings (v.map Prod.fst)).flatMap fun k =>
      ((v.lookup k).getD []).map fun x => url.QueryEscape k ++ 0x3D :: url.QueryEscape x)

/-! ## `net/url`: the scheme -/

namespace url

/-- The loop of `getScheme` from index `i` on: a scheme is letters, digits, `+`, `-` and `.`
up to a colon, and starts with a letter. -/
def getSchemeFrom (rawURL : GoString) : Nat → Bytes → Except Error (GoString × GoString)
  | _, [] => .ok ([], rawURL)
  | i, c :: rest =>
    if (0x61 ≤ c.val ∧ c.val ≤ 0x7A) ∨ (0x41 ≤ c.val ∧ c.val ≤ 0x5A) then
      getSchemeFrom rawURL (i + 1) rest
    else if (0x30 ≤ c.val ∧ c.val ≤ 0x39) ∨ c.val = 0x2B ∨ c.val = 0x2D ∨ c.val = 0x2E then
      if i = 0 then .ok ([], rawURL) else getSchemeFrom rawURL (i + 1) rest
    else if c.val = 0x3A then
      if i = 0 then .error (errors.New (str "missing protocol scheme"))
      else .ok (rawURL.take i, rest)
    else .ok ([], rawURL)

/-- `getScheme`: the scheme and the text after its colon, or no scheme and the whole text. -/
def getScheme (rawURL : GoString) : Except Error (GoString × GoString) :=
  getSchemeFrom rawURL 0 rawURL

end url

/-! ## Concrete inputs, continued -/

namespace Example

/-- ASCII lower case, which is `strings.ToLower` on ASCII strings. -/
def toLowerASCII (s : GoString) : GoString :=
  s.map fun c => if 0x41 ≤ c.val ∧ c.val ≤ 0x5A then Fin.ofNat (c.val + 0x20) else c

/-- A stand-in for `url.ParseRequestURI`. It follows the library in what is refused before
an authority is looked for: a control character, the empty text, a colon with no scheme before
it, and a text without a scheme that does not start with a slash. What follows the scheme is
kept whole as the path. -/
def parseRequestURI (rawURL : GoString) : Except Error URL :=
  if rawURL.any (fun b => b.val < 0x20 || b.val == 0x7F) then
    .error (Error.foreign (str "*url.Error") (str "net/url: invalid control character in URL"))
  else if rawURL = [] then .error (Error.foreign (str "*url.Error") (str "empty url"))
  else if rawURL = str "*" then .ok ⟨[], [], none, [], str "*", [], false, [], []⟩
  else
    match url.getScheme rawURL with
    | .error _ => .error (Error.foreign (str "*url.Error") (str "missing protocol scheme"))
    | .ok (scheme, rest) =>
      if scheme = [] ∧ rest.head? ≠ some 0x2F then
        .error (Error.foreign (str "*url.Error") (str "invalid URI for request"))
      else .ok ⟨toLowerASCII scheme, [], none, [], rest, [], false, [], []⟩

/-- The library where it is modelled (`encoding/json`, the query strings of `net/url`), a
stand-in elsewhere, and a network that gives every request the same answer. URLs are cut at
the first `?` only. -/
def stdEnv (answer : Except Error Response) : Env where
  unmarshalEvent := json.unmarshalEvent
  unmarshalErrorResponse := json.unmarshalErrorResponse
  ToUpper := toUpperASCII
  Quote := fun s => str "\"" ++ s ++ str "\""
  Parse := fun s => .ok ⟨[], [], none, [], (url.cut 0x3F s).1, [], false, (url.cut 0x3F s).2.1, []⟩
  ParseRequestURI := parseRequestURI
  ParseQuery := fun s => (url.ParseQuery s).1
  Encode := Values.Encode
  URLString := fun u => if u.RawQuery = [] then u.Path else u.Path ++ 0x3F :: u.RawQuery
  Do := fun _ _ => answer

/-- A response of the network with the given status and body. -/
def answer (status : Int) (body : Bytes) : Except Error Response :=
  .ok ⟨status, bytes.NewBuffer body⟩

/-- A nil `*PaymentUpdateEvent` passed by its address as `respBody`. -/
def eventTarget : Target (Option PaymentUpdateEvent) := ⟨none, json.unmarshalEvent⟩

/-- The query parameters of the first case of `TestNewRequest`, each value by its text under
`%v`. -/
def queryParams : List (GoString × GoString) := [(str "one", str "1"), (str "two", str "two")]

/-- The body `sendErrorResponse(w, 400, "Bad Request")` writes. -/
def errorBody : Bytes :=
  str "\x7b\"error\":\x7b\"code\":400,\"message\":\"Bad Request\"\x7d\x7d"

/-- The request `client.NewRequest` builds in `stdEnv` for `GET /test` with `queryParams` and
no payload. -/
def getRequest : Request :=
  ⟨str "GET",
    ⟨[], [], none, [], str "http://localhost:8080/api/v1/test", [], false, str "one=1&two=two",
      []⟩,
    [(str "X-Api-Key", [client.apiKey]),
     (str "User-Agent", [str "DeroMerchant_Client_Golang/1.0"])],
    none, none, 0, []⟩

/-- Query parameters with separators, escapes, a space and a letter outside ASCII. -/
def reservedParams : List (GoString × GoString) :=
  [(str "q&a", str "x=y z"), (str "ü", str "100%+")]

/-- The request `client.NewRequest` builds in `stdEnv` for `GET /test` with `reservedParams`
and no payload. -/
def reservedRequest : Request :=
  { getRequest with
    URL := { getRequest.URL with RawQuery := str "q%26a=x%3Dy+z&%C3%BC=100%25%2B" } }

/-- A webhook request whose body is the JSON literal `null`, signed under
`validWebhookSecretKey`. -/
def nullRequest : Request :=
  webhookRequest
    [(str "X-Signature",
      [str "6c056e674f944219ac3cdee3a9ad6b25f2e00c69408bae026a24367785c4a840"])]
    (str "null")

/-- A request with a body whose `GetBody` returns an error. -/
def brokenRequest : Request :=
  { postRequest with
    GetBody := some (bytes.NewBuffer [], some (Error.errorString (str "body is gone"))) }

/-- A client whose secret key is not hexadecimal. -/
def badKeyClient : Client := { client with secretKey := str "not-hex" }

/-- The options of the third case of `TestNewClient`. -/
def invalidOptions : ClientOptions :=
  ⟨str "1234", str "localhost:8080:9090", str "///v1", client.apiKey, client.secretKey⟩

end Example

/-! ## Lemmas on the library models -/

theorem or_eq_zero_iff (a b : Nat) : a ||| b = 0 ↔ a = 0 ∧ b = 0 := by
  constructor
  · intro h
    have key : ∀ i, a.testBit i = false ∧ b.testBit i = false := by
      intro i
      have := congrArg (fun n => n.testBit i) h
      simpa [Nat.testBit_or] using this
    exact ⟨Nat.eq_of_testBit_eq fun i => by simp [(key i).1],
      Nat.eq_of_testBit_eq fun i => by simp [(key i).2]⟩
  · rintro ⟨rfl, rfl⟩
    rfl

/-- The accumulator of `ConstantTimeCompare` ends at 0 exactly when it started at 0 and all
pairs are equal. -/
theorem subtle.fold_eq_zero_iff (x y : Bytes) (v : Nat) (h : x.length = y.length) :
    (List.zip x y).foldl (fun v p => v ||| (p.1.val ^^^ p.2.val)) v = 0 ↔ v = 0 ∧ x = y := by
  induction x generalizing y v with
  | nil =>
    cases y with
    | nil => simp
    | cons b y => simp at h
  | cons a x ih =>
    cases y with
    | nil => simp at h
    | cons b y =>
      simp only [List.length_cons, Nat.add_right_cancel_iff] at h
      simp only [List.zip_cons_cons, List.foldl_cons, ih y _ h, or_eq_zero_iff,
        Nat.xor_eq_zero, List.cons.injEq]
      constructor
      · rintro ⟨⟨h1, h2⟩, h3⟩
        exact ⟨h1, Fin.ext h2, h3⟩
      · rintro ⟨h1, h2, h3⟩
        exact ⟨⟨h1, by rw [h2]⟩, h3⟩

theorem subtle.fold_lt (l : List (Byte × Byte)) (v : Nat) (hv : v < 2 ^ 8) :
    l.foldl (fun v p => v ||| (p.1.val ^^^ p.2.val)) v < 2 ^ 8 := by
  induction l generalizing v with
  | nil => simpa using hv
  | cons p l ih =>
    simp only [List.foldl_cons]
    apply ih
    exact Nat.or_lt_two_pow hv (Nat.xor_lt_two_pow p.1.isLt p.2.isLt)

theorem subtle.byteEq_zero (v : Nat) (hv : v < 2 ^ 8) :
    subtle.ConstantTimeByteEq v 0 = 1 ↔ v = 0 := by
  unfold subtle.ConstantTimeByteEq
  rw [Nat.xor_zero, Nat.shiftRight_eq_div_pow]
  norm_num at hv ⊢
  omega

/-- `subtle.ConstantTimeCompare` returns 1 exactly on equal slices. -/
theorem subtle.ConstantTimeCompare_eq_one (x y : Bytes) :
    subtle.ConstantTimeCompare x y = 1 ↔ x = y := by
  unfold subtle.ConstantTimeCompare
  by_cases h : x.length = y.length
  · simp only [h, ne_eq, not_true_eq_false, if_false]
    rw [subtle.byteEq_zero _ (subtle.fold_lt _ 0 (by norm_num)), subtle.fold_eq_zero_iff x y 0 h]
    simp
  · simp only [ne_eq, h, not_false_eq_true, if_true]
    constructor
    · intro h0
      exact absurd h0 (by decide)
    · intro hxy
      exact absurd (congrArg List.length hxy) h

/-- `hmac.Equal` decides equality of the two slices. -/
theorem hmac.Equal_iff (x y : Bytes) : hmac.Equal x y = true ↔ x = y := by
  unfold hmac.Equal
  rw [beq_iff_eq]
  exact subtle.ConstantTimeCompare_eq_one x y

/-- What `signMessage` returns: the HMAC-SHA256 of `msg` under `key` and a nil error. -/
theorem signMessage_eq (msg key : Bytes) :
    signMessage msg key = (((hmac.New key).Write msg).1.Sum [], none) := by
  simp [signMessage, hmac.Hash.Write]

/-- What `validMAC` returns: whether the candidate equals the recomputed digest. -/
theorem validMAC_eq (message messageMAC key : Bytes) :
    validMAC message messageMAC key
      = (hmac.Equal messageMAC (signMessage message key).1, none) := by
  unfold validMAC
  rw [signMessage_eq]

/-- A SHA-256 checksum has 32 bytes. -/
theorem sha256.checkSum_length (d : sha256.digest) : d.checkSum.length = 32 := by
  simp [sha256.digest.checkSum, sha256.putUint32]

theorem hmac.Hash_Sum_length (h : hmac.Hash) : (h.Sum []).length = 32 := by
  unfold hmac.Hash.Sum sha256.digest.Sum
  generalize (sha256.New.Write h.opad).Write _ = d
  rw [List.length_append, sha256.checkSum_length]
  simp

/-- The digest `signMessage` returns has 32 bytes. -/
theorem signMessage_length (msg key : Bytes) : (signMessage msg key).1.length = 32 := by
  rw [signMessage_eq]
  exact hmac.Hash_Sum_length _

set_option maxRecDepth 100000 in
theorem hex.nibbles (v : Byte) :
    (hex.fromHexChar (hex.hextable.getD (v.val >>> 4) 0)).2 = true
    ∧ (hex.fromHexChar (hex.hextable.getD (v.val &&& 0x0f) 0)).2 = true
    ∧ (Fin.ofNat (((hex.fromHexChar (hex.hextable.getD (v.val >>> 4) 0)).1.val <<< 4)
        ||| (hex.fromHexChar (hex.hextable.getD (v.val &&& 0x0f) 0)).1.val) : Byte) = v := by
  revert v
  decide!

/-- Decoding the hexadecimal encoding of a slice gives the slice back, with no error. -/
theorem hex.DecodeString_EncodeToString (b : Bytes) :
    hex.DecodeString (hex.EncodeToString b) = (b, none) := by
  unfold hex.DecodeString hex.EncodeToString
  induction b with
  | nil => rfl
  | cons v b ih =>
    obtain ⟨h1, h2, h3⟩ := hex.nibbles v
    have : hex.Encode (v :: b)
        = hex.hextable.getD (v.val >>> 4) 0 :: hex.hextable.getD (v.val &&& 0x0f) 0
          :: hex.Encode b := by
      simp [hex.Encode]
    rw [this]
    simp only [hex.Decode, h1, h2, h3, Bool.not_true, Bool.false_eq_true, if_false]
    rw [ih]

theorem hex.Encode_length (b : Bytes) : (hex.Encode b).length = 2 * b.length := by
  induction b with
  | nil => rfl
  | cons v b ih =>
    have : hex.Encode (v :: b)
        = hex.hextable.getD (v.val >>> 4) 0 :: hex.hextable.getD (v.val &&& 0x0f) 0
          :: hex.Encode b := by
      simp [hex.Encode]
    rw [this]
    simp [ih]
    omega

/-- `hex.Decode` returns no error exactly on a valid hexadecimal string. -/
theorem hex.Decode_ok_iff (s : GoString) : (hex.Decode s).2 = none ↔ hex.Valid s := by
  induction s using hex.Decode.induct with
  | case1 => simp [hex.Decode, hex.Valid]
  | case2 c h =>
    have hc : (hex.fromHexChar c).2 = false := by simpa using h
    simp [hex.Decode, hex.Valid, hc]
  | case3 c h =>
    have : (hex.fromHexChar c).2 = true := by simpa using h
    simp [hex.Decode, hex.Valid, this, hex.ErrLength, errors.New]
  | case4 p q rest h =>
    have hp : (hex.fromHexChar p).2 = false := by simpa using h
    simp [hex.Decode, hex.Valid, hp]
  | case5 p q rest h1 h2 =>
    have hp : (hex.fromHexChar p).2 = true := by simpa using h1
    have hq : (hex.fromHexChar q).2 = false := by simpa using h2
    simp [hex.Decode, hex.Valid, hp, hq]
  | case6 p q rest h1 h2 ih =>
    have hp : (hex.fromHexChar p).2 = true := by simpa using h1
    have hq : (hex.fromHexChar q).2 = true := by simpa using h2
    simp only [hex.Decode, hp, hq, Bool.not_true, Bool.false_eq_true, if_false]
    rw [ih]
    simp only [hex.Valid, List.length_cons, List.mem_cons, forall_eq_or_imp, hp, hq, true_and]
    constructor
    · rintro ⟨h3, h4⟩
      exact ⟨by omega, h4⟩
    · rintro ⟨h3, h4⟩
      exact ⟨by omega, h4⟩

/-- The error of `hex.Decode` is a bad byte or the odd length. -/
theorem hex.Decode_err_cases (s : GoString) (e : Error) (h : (hex.Decode s).2 = some e) :
    (∃ c, e = Error.InvalidByteError c) ∨ e = hex.ErrLength := by
  induction s using hex.Decode.induct with
  | case1 => simp [hex.Decode] at h
  | case2 c hc =>
    simp [hex.Decode, hc] at h
    exact Or.inl ⟨c, h.symm⟩
  | case3 c hc =>
    have : (hex.fromHexChar c).2 = true := by simpa using hc
    simp [hex.Decode, this] at h
    exact Or.inr h.symm
  | case4 p q rest hp =>
    simp [hex.Decode, hp] at h
    exact Or.inl ⟨p, h.symm⟩
  | case5 p q rest h1 h2 =>
    have : (hex.fromHexChar p).2 = true := by simpa using h1
    simp [hex.Decode, this, h2] at h
    exact Or.inl ⟨q, h.symm⟩
  | case6 p q rest h1 h2 ih =>
    have hp : (hex.fromHexChar p).2 = true := by simpa using h1
    have hq : (hex.fromHexChar q).2 = true := by simpa using h2
    simp only [hex.Decode, hp, hq, Bool.not_true, Bool.false_eq_true, if_false] at h
    exact ih h

/-- The errors of `encoding/hex` are none of the two webhook errors. -/
theorem hex.Decode_err_ne (s : GoString) (e : Error) (h : (hex.Decode s).2 = some e) :
    e ≠ ErrNoWebhookSignature ∧ e ≠ ErrInvalidSignature := by
  rcases hex.Decode_err_cases s e h with ⟨c, rfl⟩ | rfl
  · exact ⟨by simp [ErrNoWebhookSignature, errors.New], by simp [ErrInvalidSignature, errors.New]⟩
  · exact ⟨by decide, by decide⟩

set_option maxRecDepth 100000 in
theorem hex.nibbles_mem (v : Byte) :
    hex.hextable.getD (v.val >>> 4) 0 ∈ str "0123456789abcdef"
    ∧ hex.hextable.getD (v.val &&& 0x0f) 0 ∈ str "0123456789abcdef" := by
  revert v
  decide!

/-- The hexadecimal encoding uses the lower-case digits only. -/
theorem hex.Encode_mem (b : Bytes) : ∀ ch ∈ hex.Encode b, ch ∈ str "0123456789abcdef" := by
  induction b with
  | nil => simp [hex.Encode]
  | cons v b ih =>
    have : hex.Encode (v :: b)
        = hex.hextable.getD (v.val >>> 4) 0 :: hex.hextable.getD (v.val &&& 0x0f) 0
          :: hex.Encode b := by
      simp [hex.Encode]
    rw [this]
    intro ch hch
    simp only [List.mem_cons] at hch
    rcases hch with rfl | rfl | hch
    · exact (hex.nibbles_mem v).1
    · exact (hex.nibbles_mem v).2
    · exact ih ch hch

/-! ## The streaming digest against the one-shot hash -/

theorem sha256.block_take (n : Nat) (s : sha256.Words) (p : Bytes) :
    sha256.block n s (p.take (n * 64)) = sha256.block n s p := by
  induction n generalizing s p with
  | zero => rfl
  | succ n ih =>
    have h1 : List.take sha256.chunk (List.take ((n + 1) * 64) p) = List.take sha256.chunk p := by
      rw [List.take_take]
      congr 1
      simp only [sha256.chunk]
      omega
    have h2 : List.drop sha256.chunk (List.take ((n + 1) * 64) p)
        = List.take (n * 64) (List.drop sha256.chunk p) := by
      rw [List.drop_take]
      congr 1
      simp only [sha256.chunk]
      omega
    simp only [sha256.block, h1, h2, ih]

theorem sha256.block_add (n m : Nat) (s : sha256.Words) (p : Bytes) :
    sha256.block (n + m) s p = sha256.block m (sha256.block n s p) (p.drop (n * 64)) := by
  induction n generalizing s p with
  | zero => simp [sha256.block]
  | succ n ih =>
    have h : n + 1 + m = (n + m) + 1 := by omega
    rw [h]
    simp only [sha256.block, ih, List.drop_drop]
    congr 2
    simp only [sha256.chunk]
    omega

/-- Writing in two pieces is writing the concatenation. -/
theorem sha256.Write_Write (d : sha256.digest) (a b : Bytes) :
    (d.Write a).Write b = d.Write (a ++ b) := by
  unfold sha256.digest.Write
  simp only [sha256.chunk]
  generalize hbuf : d.x ++ a = buf
  have hbuf2 : d.x ++ (a ++ b) = buf ++ b := by rw [← hbuf, List.append_assoc]
  rw [hbuf2]
  have hle : buf.length / 64 * 64 ≤ buf.length := Nat.div_mul_le_self _ _
  have hn : (buf ++ b).length / 64
      = buf.length / 64 + (List.drop (buf.length / 64 * 64) buf ++ b).length / 64 := by
    simp only [List.length_append, List.length_drop]
    omega
  have hdrop : List.drop (buf.length / 64 * 64) (buf ++ b)
      = List.drop (buf.length / 64 * 64) buf ++ b := List.drop_append_of_le_length hle
  have htake : List.take (buf.length / 64 * 64) (buf ++ b)
      = List.take (buf.length / 64 * 64) buf := List.take_append_of_le_length hle
  rw [hn, sha256.block_add, hdrop, ← sha256.block_take (buf.length / 64) d.h (buf ++ b), htake,
    sha256.block_take, Nat.add_mul, ← List.drop_drop, hdrop]
  congr 1
  simp only [List.length_append]
  omega

theorem hmac.copy_zeros (k : Bytes) (h : k.length ≤ 64) :
    hmac.copy (List.replicate 64 0) k = k ++ List.replicate (64 - k.length) 0 := by
  unfold hmac.copy
  simp only [List.length_replicate, List.drop_replicate]
  rw [List.take_of_length_le h]

theorem sha256.digest_Sum_nil (d : sha256.digest) : d.Sum [] = d.checkSum := by
  unfold sha256.digest.Sum
  rw [List.nil_append]

theorem hmac.Hash_Sum_nil (h : hmac.Hash) :
    h.Sum [] = sha256.Sum256 (h.opad ++ h.inner.checkSum) := by
  unfold hmac.Hash.Sum sha256.Sum256
  simp only [List.length_nil, List.drop_zero, List.take_zero]
  rw [sha256.digest_Sum_nil, sha256.digest_Sum_nil, sha256.Write_Write]

theorem hmac.key0_length (key : Bytes) :
    (if key.length > 64 then sha256.Sum256 key else key).length ≤ 64 := by
  by_cases h : key.length > 64
  · rw [if_pos h, sha256.Sum256, sha256.checkSum_length]
    omega
  · rw [if_neg h]
    omega

theorem hmac.key1_eq (key : Bytes) : (if key.length > sha256.BlockSize then
      (if key.length > sha256.BlockSize then sha256.New.Write key else sha256.New).Sum []
      else key) = (if key.length > 64 then sha256.Sum256 key else key) := by
  unfold sha256.BlockSize
  by_cases h : key.length > 64
  · rw [if_pos h, if_pos h, if_pos h, sha256.digest_Sum_nil, sha256.Sum256]
  · rw [if_neg h, if_neg h]

/-- The padded key `hmac.New` builds is the key block `K0` of RFC 2104. -/
theorem hmac.copy_key (key : Bytes) :
    hmac.copy (List.replicate sha256.BlockSize 0) (if key.length > sha256.BlockSize then
      (if key.length > sha256.BlockSize then sha256.New.Write key else sha256.New).Sum []
      else key) = HMAC_SHA256.K0 key := by
  rw [hmac.key1_eq]
  unfold sha256.BlockSize HMAC_SHA256.K0
  exact hmac.copy_zeros _ (hmac.key0_length key)

theorem hmac.New_opad (key : Bytes) :
    (hmac.New key).opad = (HMAC_SHA256.K0 key).map (fun b => Fin.ofNat (b.val ^^^ 0x5c)) := by
  rw [← hmac.copy_key]
  rfl

theorem hmac.New_inner (key : Bytes) :
    (hmac.New key).inner
      = sha256.New.Write ((HMAC_SHA256.K0 key).map (fun b => Fin.ofNat (b.val ^^^ 0x36))) := by
  rw [← hmac.copy_key]
  rfl

/-- The digest of `hmac.New(sha256.New, key)` after `Write(msg)` is HMAC-SHA256 as RFC 2104
defines it. -/
theorem hmac.Sum_eq_HMAC (msg key : Bytes) :
    ((hmac.New key).Write msg).1.Sum [] = HMAC_SHA256 key msg := by
  rw [hmac.Hash_Sum_nil]
  have h1 : ((hmac.New key).Write msg).1.opad = (hmac.New key).opad := rfl
  have h2 : ((hmac.New key).Write msg).1.inner = (hmac.New key).inner.Write msg := rfl
  rw [h1, h2, hmac.New_opad, hmac.New_inner, sha256.Write_Write]
  rfl

/-- `signMessage` computes HMAC-SHA256 as RFC 2104 defines it, and returns no error. -/
theorem signMessage_eq_HMAC (msg key : Bytes) :
    signMessage msg key = (HMAC_SHA256 key msg, none) := by
  rw [signMessage_eq, hmac.Sum_eq_HMAC]

/-! ## Lemmas on `webhook.go` -/

theorem canonical_X_Signature : CanonicalMIMEHeaderKey (str "X-Signature") = str "X-Signature" := by
  decide

/-- A header map without an entry under `X-Signature` gives `""`. -/
theorem Header.Get_of_lookup_none (h : Header) (hl : h.lookup (str "X-Signature") = none) :
    h.Get (str "X-Signature") = [] := by
  unfold Header.Get
  rw [canonical_X_Signature, hl]

theorem Header.Get_Set (h : Header) (key value : GoString) : (h.Set key value).Get key = value := by
  simp [Header.Get, Header.Set, List.lookup]

/-- `VerifyWebhookSignature` on a missing or empty signature header. -/
theorem VerifyWebhookSignature_empty (req : Request) (K : GoString)
    (h : req.Header.Get (str "X-Signature") = []) :
    VerifyWebhookSignature req K = .ok ((false, some ErrNoWebhookSignature), req) := by
  unfold VerifyWebhookSignature
  simp only [h, if_true]

/-- `VerifyWebhookSignature` when the header does not decode. -/
theorem VerifyWebhookSignature_bad_header (req : Request) (K : GoString) (e : Error)
    (hne : req.Header.Get (str "X-Signature") ≠ [])
    (hd : (hex.DecodeString (req.Header.Get (str "X-Signature"))).2 = some e) :
    VerifyWebhookSignature req K = .ok ((false, some e), req) := by
  unfold VerifyWebhookSignature
  simp only [hne, if_false]
  split
  · next a err heq =>
    rw [heq] at hd
    simp only [Option.some.injEq] at hd
    rw [hd]
  · next sig heq =>
    rw [heq] at hd
    simp at hd

/-- `VerifyWebhookSignature` when the header decodes and the key does not. -/
theorem VerifyWebhookSignature_bad_key (req : Request) (K : GoString) (e : Error)
    (hne : req.Header.Get (str "X-Signature") ≠ [])
    (hd : (hex.DecodeString (req.Header.Get (str "X-Signature"))).2 = none)
    (hk : (hex.DecodeString K).2 = some e) :
    VerifyWebhookSignature req K = .ok ((false, some e), req) := by
  unfold VerifyWebhookSignature
  simp only [hne, if_false]
  split
  · next a err heq =>
    rw [heq] at hd
    simp at hd
  · next sig heq =>
    split
    · next a err heq2 =>
      rw [heq2] at hk
      simp only [Option.some.injEq] at hk
      rw [hk]
    · next key heq2 =>
      rw [heq2] at hk
      simp at hk

/-- `VerifyWebhookSignature` when header and key decode and the body reads without error:
the outcome is the comparison of the decoded header with the recomputed digest, and the
request is as before. -/
theorem VerifyWebhookSignature_decoded (req : Request) (K : GoString) (B : Bytes)
    (hne : req.Header.Get (str "X-Signature") ≠ [])
    (hd : (hex.DecodeString (req.Header.Get (str "X-Signature"))).2 = none)
    (hk : (hex.DecodeString K).2 = none)
    (hbody : req.Body = some ⟨B, none⟩) :
    VerifyWebhookSignature req K
      = if (hex.DecodeString (req.Header.Get (str "X-Signature"))).1
            = (signMessage B (hex.DecodeString K).1).1
        then .ok ((true, none), req) else .ok ((false, some ErrInvalidSignature), req) := by
  have hreq : { req with Body := some (ioutil.NopCloser (bytes.NewBuffer B)) } = req := by
    cases req
    simp only [ioutil.NopCloser, bytes.NewBuffer] at hbody ⊢
    simp only [hbody]
  unfold VerifyWebhookSignature
  simp only [hne, if_false]
  split
  · next a err heq =>
    rw [heq] at hd
    simp at hd
  · next sig heq =>
    split
    · next a err heq2 =>
      rw [heq2] at hk
      simp at hk
    · next key heq2 =>
      simp only [hbody, ioutil.ReadAll, hreq, validMAC_eq, heq, heq2]
      by_cases hc : sig = (signMessage B key).1
      · simp only [hc, (hmac.Equal_iff _ _).2, Bool.not_true, Bool.false_eq_true, if_false,
          if_true]
      · have : hmac.Equal sig (signMessage B key).1 = false := by
          rw [Bool.eq_false_iff]
          intro h
          exact hc ((hmac.Equal_iff _ _).1 h)
        simp only [this, hc, Bool.not_false, if_true, if_false]

/-- `VerifyWebhookSignature` when header and key decode and the body is nil. -/
theorem VerifyWebhookSignature_nil_body (req : Request) (K : GoString)
    (hne : req.Header.Get (str "X-Signature") ≠ [])
    (hd : (hex.DecodeString (req.Header.Get (str "X-Signature"))).2 = none)
    (hk : (hex.DecodeString K).2 = none)
    (hbody : req.Body = none) :
    VerifyWebhookSignature req K = .error Panic.nilDereference := by
  unfold VerifyWebhookSignature
  simp only [hne, if_false]
  split
  · next a err heq =>
    rw [heq] at hd
    simp at hd
  · next sig heq =>
    split
    · next a err heq2 =>
      rw [heq2] at hk
      simp at hk
    · next key heq2 =>
      simp only [hbody]

/-- `VerifyWebhookSignature` when header and key decode and reading the body fails: the
read error is returned and the body is left read, not restored. -/
theorem VerifyWebhookSignature_read_error (req : Request) (K : GoString) (rc : Reader)
    (e : Error)
    (hne : req.Header.Get (str "X-Signature") ≠ [])
    (hd : (hex.DecodeString (req.Header.Get (str "X-Signature"))).2 = none)
    (hk : (hex.DecodeString K).2 = none)
    (hbody : req.Body = some rc) (herr : rc.err = some e) :
    VerifyWebhookSignature req K
      = .ok ((false, some e), { req with Body := some ⟨[], some e⟩ }) := by
  unfold VerifyWebhookSignature
  simp only [hne, if_false]
  split
  · next a err heq =>
    rw [heq] at hd
    simp at hd
  · next sig heq =>
    split
    · next a err heq2 =>
      rw [heq2] at hk
      simp at hk
    · next key heq2 =>
      simp only [hbody, ioutil.ReadAll, herr]

/-- The paths through `VerifyWebhookSignature`: no signature, header decode error, key decode
error, nil body, body read error, verified, invalid signature. -/
theorem VerifyWebhookSignature_paths (req : Request) (K : GoString) :
    (req.Header.Get (str "X-Signature") = []
      ∧ VerifyWebhookSignature req K = .ok ((false, some ErrNoWebhookSignature), req))
    ∨ (∃ e, (hex.DecodeString (req.Header.Get (str "X-Signature"))).2 = some e
      ∧ VerifyWebhookSignature req K = .ok ((false, some e), req))
    ∨ (∃ e, (hex.DecodeString K).2 = some e
      ∧ VerifyWebhookSignature req K = .ok ((false, some e), req))
    ∨ (req.Body = none ∧ VerifyWebhookSignature req K = .error Panic.nilDereference)
    ∨ (∃ rc e, req.Body = some rc ∧ rc.err = some e
      ∧ VerifyWebhookSignature req K
        = .ok ((false, some e), { req with Body := some ⟨[], some e⟩ }))
    ∨ (∃ B, req.Body = some (bytes.NewBuffer B)
      ∧ VerifyWebhookSignature req K = .ok ((true, none), req))
    ∨ (∃ B, req.Body = some (bytes.NewBuffer B)
      ∧ VerifyWebhookSignature req K = .ok ((false, some ErrInvalidSignature), req)) := by
  by_cases hne : req.Header.Get (str "X-Signature") = []
  · exact Or.inl ⟨hne, VerifyWebhookSignature_empty req K hne⟩
  cases hd : (hex.DecodeString (req.Header.Get (str "X-Signature"))).2 with
  | some e => exact Or.inr (Or.inl ⟨e, rfl, VerifyWebhookSignature_bad_header req K e hne hd⟩)
  | none =>
    cases hk : (hex.DecodeString K).2 with
    | some e =>
      exact Or.inr (Or.inr (Or.inl ⟨e, rfl, VerifyWebhookSignature_bad_key req K e hne hd hk⟩))
    | none =>
      cases hbody : req.Body with
      | none =>
        exact Or.inr (Or.inr (Or.inr (Or.inl
          ⟨rfl, VerifyWebhookSignature_nil_body req K hne hd hk hbody⟩)))
      | some rc =>
        obtain ⟨B, err⟩ := rc
        cases err with
        | some e =>
          exact Or.inr (Or.inr (Or.inr (Or.inr (Or.inl ⟨_, e, rfl, rfl,
            VerifyWebhookSignature_read_error req K _ e hne hd hk hbody rfl⟩))))
        | none =>
          have h := VerifyWebhookSignature_decoded req K B hne hd hk hbody
          by_cases hc : (hex.DecodeString (req.Header.Get (str "X-Signature"))).1
              = (signMessage B (hex.DecodeString K).1).1
          · rw [if_pos hc] at h
            exact Or.inr (Or.inr (Or.inr (Or.inr (Or.inr (Or.inl ⟨B, rfl, h⟩)))))
          · rw [if_neg hc] at h
            exact Or.inr (Or.inr (Or.inr (Or.inr (Or.inr (Or.inr ⟨B, rfl, h⟩)))))

/-! ## Lemmas on `client.go` -/

/-- `SendRequest` hands the request to the HTTP client, once, whatever comes back. -/
theorem Client.SendRequest_done {ρ : Type} (E : Env) (c : Client) (req : Request)
    (respBody : Option (Target ρ)) : (c.SendRequest E req respBody).done = [req] := by
  unfold Client.SendRequest
  simp only
  split
  · rfl
  · split
    · rfl
    · split
      · split
        · split <;> rfl
        · rfl
      · split
        · split <;> rfl
        · rfl

/-- A request `http.NewRequest` builds over a buffer carries the buffer as `Body` and as what
`GetBody` returns. -/
theorem http.NewRequest_buffer (E : Env) (method url : GoString) (buf : Bytes) (req : Request)
    (h : http.NewRequest E method url (some buf) = .ok req) :
    req.Body = some (bytes.NewBuffer buf) ∧ req.GetBody = some (bytes.NewBuffer buf, none) := by
  unfold http.NewRequest at h
  simp only at h
  generalize (if method = [] then str "GET" else method) = m at h
  split at h
  · simp at h
  · split at h
    · simp at h
    · simp only [Except.ok.injEq] at h
      subst h
      exact ⟨rfl, rfl⟩

/-- A request `NewRequest` builds from a non-nil payload: the payload was serialized without
error, once, and the bytes of that serialization are the body and what `GetBody` returns. -/
theorem Client.NewRequest_body (E : Env) (c : Client) (method endpoint : GoString)
    (queryParams : List (GoString × GoString)) (p : Payload) (req : Request)
    (h : c.NewRequest E method endpoint queryParams (some p) = (some req, none)) :
    p.Marshal.2 = none ∧ req.Body = some (bytes.NewBuffer p.Marshal.1)
      ∧ req.GetBody = some (bytes.NewBuffer p.Marshal.1, none) := by
  obtain ⟨b, err⟩ := p
  cases err with
  | some e => simp [Client.NewRequest] at h
  | none =>
    simp only [Client.NewRequest, Option.map_some'] at h
    split at h
    · simp at h
    · next r hr =>
      simp only [Option.isSome_some, if_true, Prod.mk.injEq, Option.some.injEq, and_true] at h
      subst h
      exact ⟨rfl, (http.NewRequest_buffer E _ _ _ r hr).1, (http.NewRequest_buffer E _ _ _ r hr).2⟩

/-! ## Lemmas on `NewRequest` -/

theorem lookup_filter_ne (h : Header) (k k' : GoString) (hne : k ≠ k') :
    (h.filter fun e => !(e.1 == k)).lookup k' = h.lookup k' := by
  induction h with
  | nil => rfl
  | cons e h ih =>
    obtain ⟨a, vs⟩ := e
    by_cases hak : a = k
    · subst hak
      have h1 : (k' == a) = false := by
        rw [beq_eq_false_iff_ne]
        exact fun h => hne h.symm
      simp only [List.filter_cons, beq_self_eq_true, Bool.not_true, Bool.false_eq_true,
        if_false, List.lookup_cons, h1, ih]
    · have h1 : (a == k) = false := by
        rw [beq_eq_false_iff_ne]
        exact hak
      simp only [List.filter_cons, h1, Bool.not_false, if_true, List.lookup_cons, ih]

/-- Setting a header leaves the entries under other canonical keys as they were. -/
theorem Header.lookup_Set_ne (h : Header) (key value k' : GoString)
    (hne : CanonicalMIMEHeaderKey key ≠ k') :
    (h.Set key value).lookup k' = h.lookup k' := by
  unfold Header.Set
  have h1 : (k' == CanonicalMIMEHeaderKey key) = false := by
    rw [beq_eq_false_iff_ne]
    exact fun h => hne h.symm
  rw [List.lookup_cons, h1]
  exact lookup_filter_ne h _ _ hne

theorem Header.Get_Set_ne (h : Header) (key value key' : GoString)
    (hne : CanonicalMIMEHeaderKey key ≠ CanonicalMIMEHeaderKey key') :
    (h.Set key value).Get key' = h.Get key' := by
  unfold Header.Get
  rw [Header.lookup_Set_ne h key value _ hne]

/-- What `http.NewRequest` returns when it returns a request: the URL is the parsed one, the
header map is empty, and a buffer is both `Body` and what `GetBody` returns. -/
theorem http.NewRequest_ok (E : Env) (method url : GoString) (body : Option Bytes)
    (req : Request) (h : http.NewRequest E method url body = .ok req) :
    req.Header = [] ∧ req.Body = body.map bytes.NewBuffer
      ∧ req.GetBody = body.map (fun b => (bytes.NewBuffer b, none))
      ∧ ∃ u, E.Parse url = .ok u ∧ req.URL = { u with Host := removeEmptyPort u.Host } := by
  unfold http.NewRequest at h
  simp only at h
  generalize (if method = [] then str "GET" else method) = m at h
  split at h
  · simp at h
  · split at h
    · simp at h
    · next u hu =>
      cases body with
      | none =>
        simp only [Except.ok.injEq] at h
        subst h
        exact ⟨rfl, rfl, rfl, u, hu, rfl⟩
      | some b =>
        simp only [Except.ok.injEq] at h
        subst h
        exact ⟨rfl, rfl, rfl, u, hu, rfl⟩

/-- What `NewRequest` returns when it returns a request. -/
theorem Client.NewRequest_built (E : Env) (c : Client) (method endpoint : GoString)
    (queryParams : List (GoString × GoString)) (payload : Option Payload) (req : Request)
    (h : c.NewRequest E method endpoint queryParams payload = (some req, none)) :
    ∃ r, http.NewRequest E (E.ToUpper method) (c.baseURL ++ endpoint)
          (payload.map fun p => p.Marshal.1) = .ok r
      ∧ (∀ p, payload = some p → p.Marshal.2 = none)
      ∧ req.Method = r.Method ∧ req.Body = r.Body ∧ req.GetBody = r.GetBody
      ∧ req.URL = { r.URL with
          RawQuery := E.Encode (queryParams.foldl (fun q kv => Values.Add q kv.1 kv.2)
            (E.ParseQuery r.URL.RawQuery)) }
      ∧ req.Header = if payload.isSome then
          ((((r.Header.Set (str "User-Agent") (str "DeroMerchant_Client_Golang/1.0")).Set
            (str "X-API-Key") c.apiKey).Set (str "Content-Type") (str "application/json")).Set
            (str "Accept") (str "application/json"))
        else (r.Header.Set (str "User-Agent") (str "DeroMerchant_Client_Golang/1.0")).Set
            (str "X-API-Key") c.apiKey := by
  cases payload with
  | none =>
    simp only [Client.NewRequest, Option.map_none'] at h
    split at h
    · simp at h
    · next r hr =>
      simp only [Option.isSome_none, Bool.false_eq_true, if_false, Prod.mk.injEq,
        Option.some.injEq, and_true] at h
      subst h
      exact ⟨r, hr, fun p hp => by simp at hp, rfl, rfl, rfl, rfl, rfl⟩
  | some p =>
    obtain ⟨b, err⟩ := p
    cases err with
    | some e => simp [Client.NewRequest] at h
    | none =>
      simp only [Client.NewRequest, Option.map_some'] at h
      split at h
      · simp at h
      · next r hr =>
        simp only [Option.isSome_some, if_true, Prod.mk.injEq, Option.some.injEq,
          and_true] at h
        subst h
        refine ⟨r, hr, fun p hp => ?_, rfl, rfl, rfl, rfl, rfl⟩
        simp only [Option.some.injEq] at hp
        subst hp
        rfl

/-! ## Lemmas on query strings -/

theorem url.unescape_cons_of_ne (c : Byte) (hc : c.val ≠ 0x25) (t : Bytes) :
    url.unescape (c :: t)
      = match url.unescape t with
        | .ok r => .ok ((if c.val = 0x2B then 0x20 else c) :: r)
        | .error e => .error e := by
  cases t with
  | nil => simp [url.unescape, hc]
  | cons h1 rest =>
    rw [url.unescape.eq_def]
    simp only [hc, if_false]

theorem url.unescape_percent (h1 h2 : Byte) (hh : (url.ishex h1 && url.ishex h2) = true)
    (t : Bytes) :
    url.unescape (0x25 :: h1 :: h2 :: t)
      = match url.unescape t with
        | .ok r => .ok (Fin.ofNat (url.unhex h1 <<< 4 ||| url.unhex h2) :: r)
        | .error e => .error e := by
  rw [url.unescape.eq_def]
  simp only [hh, if_true]
  rfl

theorem forall_byte (p : Byte → Bool) (h : (List.finRange 256).all p = true) (c : Byte) :
    p c = true :=
  List.all_eq_true.1 h c (List.mem_finRange c)

set_option maxRecDepth 1000000 in
theorem url.unhex_upperhex (c : Byte) :
    (url.ishex (url.upperhex.getD (c.val >>> 4) 0) && url.ishex (url.upperhex.getD (c.val &&& 15) 0)
      && ((Fin.ofNat (url.unhex (url.upperhex.getD (c.val >>> 4) 0) <<< 4
            ||| url.unhex (url.upperhex.getD (c.val &&& 15) 0)) : Byte) == c)) = true :=
  forall_byte
    (fun c => url.ishex (url.upperhex.getD (c.val >>> 4) 0)
      && url.ishex (url.upperhex.getD (c.val &&& 15) 0)
      && ((Fin.ofNat (url.unhex (url.upperhex.getD (c.val >>> 4) 0) <<< 4
            ||| url.unhex (url.upperhex.getD (c.val &&& 15) 0)) : Byte) == c))
    (by decide!) c

set_option maxRecDepth 1000000 in
theorem url.shouldEscape_reserved (c : Byte) :
    (url.shouldEscape c || (c.val != 0x25 && c.val != 0x2B)) = true :=
  forall_byte (fun c => url.shouldEscape c || (c.val != 0x25 && c.val != 0x2B)) (by decide!) c

theorem url.escapeByte_cases (c : Byte) :
    (c.val = 0x20 ∧ url.escapeByte c = [0x2B])
    ∨ (∃ h1 h2, url.escapeByte c = [0x25, h1, h2] ∧ (url.ishex h1 && url.ishex h2) = true
        ∧ (Fin.ofNat (url.unhex h1 <<< 4 ||| url.unhex h2) : Byte) = c)
    ∨ (url.escapeByte c = [c] ∧ c.val ≠ 0x25 ∧ c.val ≠ 0x2B) := by
  by_cases h0 : c.val = 0x20
  · exact Or.inl ⟨h0, by simp [url.escapeByte, h0]⟩
  · by_cases h1 : url.shouldEscape c = true
    · refine Or.inr (Or.inl ⟨url.upperhex.getD (c.val >>> 4) 0, url.upperhex.getD (c.val &&& 15) 0,
        by simp only [url.escapeByte, h0, h1, if_false, if_true], ?_⟩)
      have h := url.unhex_upperhex c
      simp only [Bool.and_eq_true, beq_iff_eq] at h
      exact ⟨by simp only [Bool.and_eq_true]; exact h.1, h.2⟩
    · refine Or.inr (Or.inr ⟨by simp [url.escapeByte, h0, h1], ?_⟩)
      have h := url.shouldEscape_reserved c
      simp only [h1, Bool.false_or, Bool.or_eq_true, Bool.and_eq_true, bne_iff_ne, ne_eq, false_or] at h
      exact h

/-- One escaped byte is unescaped to the byte. -/
theorem url.unescape_escapeByte (c : Byte) (t r : Bytes) (ht : url.unescape t = .ok r) :
    url.unescape (url.escapeByte c ++ t) = .ok (c :: r) := by
  rcases url.escapeByte_cases c with ⟨hc, he⟩ | ⟨h1, h2, he, hh, hv⟩ | ⟨he, h1, h2⟩
  · rw [he]
    show url.unescape (0x2B :: t) = _
    rw [url.unescape_cons_of_ne _ (by decide), ht]
    simp only [Fin.isValue]
    congr 2
    exact (Fin.ext hc).symm
  · rw [he]
    show url.unescape (0x25 :: h1 :: h2 :: t) = _
    rw [url.unescape_percent h1 h2 hh, ht, hv]
  · rw [he]
    show url.unescape (c :: t) = _
    rw [url.unescape_cons_of_ne _ h1, ht]
    simp only [h2, if_false]

/-- `QueryUnescape` inverts `QueryEscape`. -/
theorem url.unescape_QueryEscape (s : GoString) : url.unescape (url.QueryEscape s) = .ok s := by
  induction s with
  | nil => rfl
  | cons c s ih =>
    show url.unescape (url.escapeByte c ++ url.QueryEscape s) = _
    exact url.unescape_escapeByte c _ _ ih

theorem url.QueryUnescape_QueryEscape (s : GoString) :
    url.QueryUnescape (url.QueryEscape s) = (s, none) := by
  unfold url.QueryUnescape
  rw [url.unescape_QueryEscape]

set_option maxRecDepth 1000000 in
theorem url.escapeByte_clean (c : Byte) :
    ∀ x ∈ url.escapeByte c, x ≠ 0x26 ∧ x ≠ 0x3B ∧ x ≠ 0x3D := by
  have h := forall_byte
    (fun c => (url.escapeByte c).all fun x => x != 0x26 && x != 0x3B && x != 0x3D) (by decide!) c
  intro x hx
  have hx1 := List.all_eq_true.1 h x hx
  simp only [Bool.and_eq_true, bne_iff_ne, ne_eq] at hx1
  exact ⟨hx1.1.1, hx1.1.2, hx1.2⟩

/-- An escaped text holds no `&`, no `;` and no `=`. -/
theorem url.QueryEscape_clean (s : GoString) :
    ∀ x ∈ url.QueryEscape s, x ≠ 0x26 ∧ x ≠ 0x3B ∧ x ≠ 0x3D := by
  intro x hx
  unfold url.QueryEscape at hx
  rw [List.mem_flatMap] at hx
  obtain ⟨c, _, hc⟩ := hx
  exact url.escapeByte_clean c x hc

theorem url.cut_append (sep : Byte) (p : Bytes) (hp : sep ∉ p) (t : Bytes) :
    url.cut sep (p ++ sep :: t) = (p, t, true) := by
  induction p with
  | nil => simp [url.cut]
  | cons c p ih =>
    have hc : c ≠ sep := fun h => hp (by simp [h])
    have hp1 : sep ∉ p := fun h => hp (by simp [h])
    simp [url.cut, hc, ih hp1]

theorem url.pieces_ne_nil (sep : Byte) (s : Bytes) : url.pieces sep s ≠ [] := by
  cases s with
  | nil => simp [url.pieces]
  | cons c rest =>
    unfold url.pieces
    split
    · simp
    · split <;> simp

theorem url.pieces_clean (sep : Byte) (p : Bytes) (hp : sep ∉ p) : url.pieces sep p = [p] := by
  induction p with
  | nil => rfl
  | cons c p ih =>
    have hc : c ≠ sep := fun h => hp (by simp [h])
    have hp1 : sep ∉ p := fun h => hp (by simp [h])
    simp [url.pieces, hc, ih hp1]

theorem url.pieces_append (sep : Byte) (p : Bytes) (hp : sep ∉ p) (t : Bytes) :
    url.pieces sep (p ++ sep :: t) = p :: url.pieces sep t := by
  induction p with
  | nil => simp [url.pieces]
  | cons c p ih =>
    have hc : c ≠ sep := fun h => hp (by simp [h])
    have hp1 : sep ∉ p := fun h => hp (by simp [h])
    simp [url.pieces, hc, ih hp1]

/-- Cutting a joined text at the separator gives the texts joined, when none holds it. -/
theorem url.pieces_intercalate (sep : Byte) (ps : List Bytes) (hne : ps ≠ [])
    (hps : ∀ p ∈ ps, sep ∉ p) : url.pieces sep ([sep].intercalate ps) = ps := by
  induction ps with
  | nil => exact absurd rfl hne
  | cons p ps ih =>
    cases ps with
    | nil =>
      have h0 : [sep].intercalate [p] = p := by simp [List.intercalate]
      rw [h0]
      exact url.pieces_clean sep p (hps p (by simp))
    | cons p1 ps1 =>
      have h1 : [sep].intercalate (p :: p1 :: ps1) = p ++ sep :: [sep].intercalate (p1 :: ps1) := by
        simp [List.intercalate, List.intersperse]
      rw [h1, url.pieces_append sep p (hps p (by simp)), ih (by simp)
        (fun q hq => hps q (List.mem_cons_of_mem _ hq))]

/-- One round of the loop on an escaped pair adds the pair. -/
theorem url.parsePair_escaped (a : Values) (k v : GoString) :
    url.parsePair (a, none) (url.QueryEscape k ++ 0x3D :: url.QueryEscape v)
      = (Values.Add a k v, none) := by
  have h1 : (url.QueryEscape k ++ 0x3D :: url.QueryEscape v).contains 0x3B = false := by
    rw [Bool.eq_false_iff]
    intro h
    have h3 : (0x3B : Byte) ∈ url.QueryEscape k ++ 0x3D :: url.QueryEscape v := by simpa using h
    rw [List.mem_append, List.mem_cons] at h3
    rcases h3 with h | h | h
    · exact (url.QueryEscape_clean k _ h).2.1 rfl
    · exact absurd h (by decide)
    · exact (url.QueryEscape_clean v _ h).2.1 rfl
  have h2 : (0x3D : Byte) ∉ url.QueryEscape k := fun h => (url.QueryEscape_clean k _ h).2.2 rfl
  unfold url.parsePair
  rw [h1, url.cut_append _ _ h2]
  simp [url.QueryUnescape_QueryEscape]

theorem beq_false_of_ne {k k' : GoString} (h : ¬ k' = k) : (k' == k) = false := by
  simpa using h

theorem Values.lookup_Add (a : Values) (k v k' : GoString) :
    (Values.Add a k v).lookup k'
      = if k' = k then some ((a.lookup k).getD [] ++ [v]) else a.lookup k' := by
  induction a with
  | nil =>
    by_cases h : k' = k
    · simp [Values.Add, List.lookup, h]
    · simp [Values.Add, List.lookup, h, beq_false_of_ne h]
  | cons e a ih =>
    obtain ⟨k0, vs⟩ := e
    by_cases h0 : k0 = k
    · subst h0
      by_cases h : k' = k0
      · simp [Values.Add, List.lookup, h]
      · simp [Values.Add, List.lookup, h, beq_false_of_ne h]
    · by_cases h : k' = k
      · subst h
        have h1 : ¬ k' = k0 := fun e => h0 e.symm
        simp [Values.Add, List.lookup, h0, h1, ih, beq_false_of_ne h1]
      · by_cases h1 : k' = k0
        · simp [Values.Add, List.lookup, h0, h, h1]
        · simp [Values.Add, List.lookup, h0, h, h1, ih, beq_false_of_ne h1]

theorem Values.mem_keys_Add (a : Values) (k v k' : GoString) :
    k' ∈ (Values.Add a k v).map Prod.fst ↔ k' = k ∨ k' ∈ a.map Prod.fst := by
  induction a with
  | nil => simp [Values.Add]
  | cons e a ih =>
    obtain ⟨k0, vs⟩ := e
    by_cases h0 : k0 = k
    · subst h0
      simp [Values.Add]
    · simp only [Values.Add, h0, if_false, List.map_cons, List.mem_cons, ih]
      tauto

theorem Values.nodup_keys_Add (a : Values) (k v : GoString) (ha : (a.map Prod.fst).Nodup) :
    ((Values.Add a k v).map Prod.fst).Nodup := by
  induction a with
  | nil => simp [Values.Add]
  | cons e a ih =>
    obtain ⟨k0, vs⟩ := e
    rw [List.map_cons, List.nodup_cons] at ha
    by_cases h0 : k0 = k
    · subst h0
      simp only [Values.Add, if_true, List.map_cons, List.nodup_cons]
      exact ha
    · simp only [Values.Add, h0, if_false, List.map_cons, List.nodup_cons]
      refine ⟨?_, ih ha.2⟩
      rw [Values.mem_keys_Add]
      rintro (h | h)
      · exact h0 h
      · exact ha.1 h

theorem Values.mem_keys_addAll (P : List (GoString × GoString)) (a : Values) (k' : GoString) :
    k' ∈ (P.foldl (fun q kv => Values.Add q kv.1 kv.2) a).map Prod.fst
      ↔ k' ∈ P.map Prod.fst ∨ k' ∈ a.map Prod.fst := by
  induction P generalizing a with
  | nil => simp
  | cons e P ih =>
    rw [List.foldl_cons, ih, Values.mem_keys_Add, List.map_cons, List.mem_cons]
    tauto

theorem Values.nodup_keys_addAll (P : List (GoString × GoString)) (a : Values)
    (ha : (a.map Prod.fst).Nodup) :
    ((P.foldl (fun q kv => Values.Add q kv.1 kv.2) a).map Prod.fst).Nodup := by
  induction P generalizing a with
  | nil => exact ha
  | cons e P ih => exact ih _ (Values.nodup_keys_Add a _ _ ha)

theorem lookup_eq_none_of_not_mem {α : Type} (P : List (GoString × α)) (k : GoString)
    (h : k ∉ P.map Prod.fst) : P.lookup k = none := by
  induction P with
  | nil => rfl
  | cons e P ih =>
    obtain ⟨k0, v0⟩ := e
    rw [List.map_cons, List.mem_cons, not_or] at h
    have h1 : (k == k0) = false := by simpa using h.1
    simp only [List.lookup, h1]
    exact ih h.2

theorem lookup_of_mem_nodup {α : Type} (P : List (GoString × α)) (k : GoString) (v : α)
    (hP : (P.map Prod.fst).Nodup) (h : (k, v) ∈ P) : P.lookup k = some v := by
  induction P with
  | nil => simp at h
  | cons e P ih =>
    obtain ⟨k0, v0⟩ := e
    rw [List.map_cons, List.nodup_cons] at hP
    rcases List.mem_cons.1 h with h1 | h1
    · simp only [Prod.mk.injEq] at h1
      obtain ⟨rfl, rfl⟩ := h1
      simp [List.lookup]
    · have hk : k ∈ P.map Prod.fst := List.mem_map.2 ⟨(k, v), h1, rfl⟩
      have h2 : (k == k0) = false := by
        simp only [beq_eq_false_iff_ne, ne_eq]
        rintro rfl
        exact hP.1 hk
      simp only [List.lookup, h2]
      exact ih hP.2 h1

/-- The values under a key after pairs with distinct keys were added. -/
theorem Values.lookup_addAll (P : List (GoString × GoString)) (hP : (P.map Prod.fst).Nodup)
    (a : Values) (k' : GoString) :
    (P.foldl (fun q kv => Values.Add q kv.1 kv.2) a).lookup k'
      = match P.lookup k' with
        | some v => some ((a.lookup k').getD [] ++ [v])
        | none => a.lookup k' := by
  induction P generalizing a with
  | nil => rfl
  | cons e P ih =>
    obtain ⟨k, v⟩ := e
    rw [List.map_cons, List.nodup_cons] at hP
    rw [List.foldl_cons, ih hP.2]
    by_cases h : k' = k
    · subst h
      rw [lookup_eq_none_of_not_mem P k' hP.1, Values.lookup_Add]
      simp [List.lookup]
    · have h1 : (k' == k) = false := by simpa using h
      simp only [List.lookup, h1, Values.lookup_Add, h, if_false]

theorem url.foldl_parsePair_values (a : Values) (k : GoString) (vs : List GoString) :
    (vs.map fun x => url.QueryEscape k ++ 0x3D :: url.QueryEscape x).foldl url.parsePair (a, none)
      = (vs.foldl (fun q x => Values.Add q k x) a, none) := by
  induction vs generalizing a with
  | nil => rfl
  | cons x vs ih => rw [List.map_cons, List.foldl_cons, url.parsePair_escaped, ih, List.foldl_cons]

theorem url.foldl_parsePair_keys (f : GoString → List GoString) (S : List GoString) (a : Values) :
    (S.flatMap fun k => (f k).map fun x => url.QueryEscape k ++ 0x3D :: url.QueryEscape x).foldl
        url.parsePair (a, none)
      = (S.foldl (fun q k => (f k).foldl (fun q x => Values.Add q k x) q) a, none) := by
  induction S generalizing a with
  | nil => rfl
  | cons k S ih =>
    rw [List.flatMap_cons, List.foldl_append, url.foldl_parsePair_values, ih, List.foldl_cons]

/-- Parsing an encoded map: every pair is decoded without error, in the increasing order of
the keys. -/
theorem url.ParseQuery_Encode (q : Values) :
    url.ParseQuery (Values.Encode q)
      = ((sort.Strings (q.map Prod.fst)).foldl
          (fun r k => ((q.lookup k).getD []).foldl (fun r x => Values.Add r k x) r) [], none) := by
  rw [← url.foldl_parsePair_keys (fun k => (q.lookup k).getD [])]
  unfold url.ParseQuery Values.Encode
  have hs : str "&" = [0x26] := by decide
  rw [hs]
  generalize hps : ((sort.Strings (q.map Prod.fst)).flatMap fun k =>
    ((q.lookup k).getD []).map fun x => url.QueryEscape k ++ 0x3D :: url.QueryEscape x) = ps
  by_cases hne : ps = []
  · subst hne
    rfl
  · rw [url.pieces_intercalate 0x26 ps hne]
    intro p hp
    rw [← hps, List.mem_flatMap] at hp
    obtain ⟨k, _, hp⟩ := hp
    rw [List.mem_map] at hp
    obtain ⟨x, _, rfl⟩ := hp
    intro h
    rw [List.mem_append, List.mem_cons] at h
    rcases h with h | h | h
    · exact (url.QueryEscape_clean k _ h).1 rfl
    · exact absurd h (by decide)
    · exact (url.QueryEscape_clean x _ h).1 rfl

theorem foldl_congr_mem {α β : Type} (f g : β → α → β) (l : List α) (b : β)
    (h : ∀ x ∈ l, ∀ b, f b x = g b x) : l.foldl f b = l.foldl g b := by
  induction l generalizing b with
  | nil => rfl
  | cons x l ih =>
    rw [List.foldl_cons, List.foldl_cons, h x (List.mem_cons_self _ _),
      ih _ (fun y hy => h y (List.mem_cons_of_mem _ hy))]

theorem sort.Strings_perm (keys : List GoString) : (sort.Strings keys).Perm keys :=
  List.perm_insertionSort _ keys

/-- Parsing the encoding of a map built from pairs with distinct keys gives each key its value
and nothing else. -/
theorem url.ParseQuery_Encode_addAll (P : List (GoString × GoString))
    (hP : (P.map Prod.fst).Nodup) :
    (url.ParseQuery (Values.Encode (P.foldl (fun q kv => Values.Add q kv.1 kv.2) []))).2 = none
    ∧ ∀ k, (url.ParseQuery
        (Values.Encode (P.foldl (fun q kv => Values.Add q kv.1 kv.2) []))).1.lookup k
          = (P.lookup k).map fun v => [v] := by
  rw [url.ParseQuery_Encode]
  refine ⟨rfl, fun k => ?_⟩
  generalize hq : P.foldl (fun q kv => Values.Add q kv.1 kv.2) [] = q
  have hlook : ∀ k, q.lookup k = (P.lookup k).map fun v => [v] := by
    intro k
    rw [← hq, Values.lookup_addAll P hP]
    cases P.lookup k <;> rfl
  have hmem : ∀ k, k ∈ sort.Strings (q.map Prod.fst) ↔ k ∈ P.map Prod.fst := by
    intro k
    rw [(sort.Strings_perm _).mem_iff, ← hq, Values.mem_keys_addAll]
    simp
  have hnd : (sort.Strings (q.map Prod.fst)).Nodup := by
    rw [(sort.Strings_perm _).nodup_iff, ← hq]
    exact Values.nodup_keys_addAll P [] List.nodup_nil
  generalize sort.Strings (q.map Prod.fst) = S at hmem hnd
  show (S.foldl (fun r k => ((q.lookup k).getD []).foldl (fun r x => Values.Add r k x) r)
    []).lookup k = _
  have h1 : S.foldl (fun r k => ((q.lookup k).getD []).foldl (fun r x => Values.Add r k x) r) []
      = (S.map fun k => (k, (P.lookup k).getD [])).foldl
          (fun r kv => Values.Add r kv.1 kv.2) [] := by
    rw [List.foldl_map]
    apply foldl_congr_mem
    intro x hx b
    obtain ⟨kv, hkv, rfl⟩ := List.mem_map.1 ((hmem x).1 hx)
    rw [hlook, lookup_of_mem_nodup P kv.1 kv.2 hP hkv]
    rfl
  have hkeys : (S.map fun k => (k, (P.lookup k).getD [])).map Prod.fst = S := by
    rw [List.map_map]
    exact List.map_id _
  rw [h1, Values.lookup_addAll _ (by rw [hkeys]; exact hnd)]
  by_cases hk : k ∈ P.map Prod.fst
  · obtain ⟨kv, hkv, rfl⟩ := List.mem_map.1 hk
    have h2 : (kv.1, (P.lookup kv.1).getD []) ∈ S.map fun k => (k, (P.lookup k).getD []) :=
      List.mem_map.2 ⟨kv.1, (hmem _).2 hk, rfl⟩
    rw [lookup_of_mem_nodup _ _ _ (by rw [hkeys]; exact hnd) h2,
      lookup_of_mem_nodup P kv.1 kv.2 hP hkv]
    rfl
  · rw [lookup_eq_none_of_not_mem _ k (by rw [hkeys, hmem]; exact hk),
      lookup_eq_none_of_not_mem P k hk]
    rfl

/-! ## Lemmas on the JSON decoder -/

theorem json.skipSpace_length (s : Bytes) : (json.skipSpace s).length ≤ s.length := by
  induction s with
  | nil => simp [json.skipSpace]
  | cons c rest ih =>
    unfold json.skipSpace
    split
    · exact Nat.le_succ_of_le ih
    · exact Nat.le_refl _

theorem json.scanString_length_aux (n : Nat) :
    ∀ s : Bytes, s.length ≤ n → ∀ raw r, json.scanString s = some (raw, r) →
      r.length ≤ s.length := by
  induction n with
  | zero =>
    intro s hs raw r h
    have : s = [] := List.length_eq_zero.1 (Nat.le_zero.1 hs)
    subst this
    simp [json.scanString] at h
  | succ n ih =>
    intro s hs raw r h
    rw [json.scanString.eq_def] at h
    split at h
    · simp at h
    · next c rest =>
      simp only [List.length_cons] at hs ⊢
      split at h
      · simp only [Option.some.injEq, Prod.mk.injEq] at h
        rw [← h.2]
        omega
      · split at h
        · split at h
          · simp at h
          · next e rest1 =>
            simp only [List.length_cons] at hs ⊢
            split at h
            · simp only [Option.map_eq_some'] at h
              obtain ⟨⟨raw1, r1⟩, h1, h2⟩ := h
              simp only [Prod.mk.injEq] at h2
              rw [← h2.2]
              have := ih rest1 (by omega) raw1 r1 h1
              omega
            · split at h
              · split at h
                · next h1 h2 h3 h4 rest2 =>
                  simp only [List.length_cons] at hs ⊢
                  split at h
                  · simp only [Option.map_eq_some'] at h
                    obtain ⟨⟨raw1, r1⟩, h1, h2⟩ := h
                    simp only [Prod.mk.injEq] at h2
                    rw [← h2.2]
                    have := ih rest2 (by omega) raw1 r1 h1
                    omega
                  · simp at h
                · simp at h
              · simp at h
        · split at h
          · simp at h
          · simp only [Option.map_eq_some'] at h
            obtain ⟨⟨raw1, r1⟩, h1, h2⟩ := h
            simp only [Prod.mk.injEq] at h2
            rw [← h2.2]
            have := ih rest (by omega) raw1 r1 h1
            omega

theorem json.scanString_length (s raw r : Bytes) (h : json.scanString s = some (raw, r)) :
    r.length ≤ s.length :=
  json.scanString_length_aux s.length s (Nat.le_refl _) raw r h

theorem json.spanDigits_length (s : Bytes) : (json.spanDigits s).2.length ≤ s.length := by
  induction s with
  | nil => simp [json.spanDigits]
  | cons c rest ih =>
    unfold json.spanDigits
    split
    · exact Nat.le_succ_of_le ih
    · exact Nat.le_refl _

theorem json.scanUnsigned_length (s t r : Bytes) (h : json.scanUnsigned s = some (t, r)) :
    r.length ≤ s.length := by
  unfold json.scanUnsigned at h
  simp only at h
  split at h
  · simp at h
  · next i r0 hint =>
    have h0 : r0.length ≤ s.length := by
      split at hint
      · simp at hint
      · next c rest =>
        split at hint
        · simp only [Option.some.injEq, Prod.mk.injEq] at hint
          rw [← hint.2]
          simp
        · split at hint
          · simp only [Option.some.injEq, Prod.mk.injEq] at hint
            rw [← hint.2]
            have := json.spanDigits_length rest
            simp only [List.length_cons]
            omega
          · simp at hint
    split at h
    · simp at h
    · next f r2 hfrac =>
      have h2 : r2.length ≤ r0.length := by
        split at hfrac
        · next c r1 =>
          split at hfrac
          · split at hfrac
            · simp at hfrac
            · simp only [Option.some.injEq, Prod.mk.injEq] at hfrac
              rw [← hfrac.2]
              have := json.spanDigits_length r1
              simp only [List.length_cons]
              omega
          · simp only [Option.some.injEq, Prod.mk.injEq] at hfrac
            rw [← hfrac.2]
        · simp only [Option.some.injEq, Prod.mk.injEq] at hfrac
          rw [← hfrac.2]
      have h3 : r.length ≤ r2.length := by
        split at h
        · next c r3 =>
          split at h
          · split at h
            · simp at h
            · simp only [Option.some.injEq, Prod.mk.injEq] at h
              rw [← h.2]
              have h5 : ∀ sign : Bytes × Bytes, sign.2.length ≤ r3.length →
                  (json.spanDigits sign.2).2.length ≤ (c :: r3).length := by
                intro sign hs
                have := json.spanDigits_length sign.2
                simp only [List.length_cons]
                omega
              apply h5
              split
              · next d r4 =>
                split
                · simp
                · simp
              · simp
          · simp only [Option.some.injEq, Prod.mk.injEq] at h
            rw [← h.2]
        · simp only [Option.some.injEq, Prod.mk.injEq] at h
          rw [← h.2]
      omega

theorem json.scanNumber_length (s t r : Bytes) (h : json.scanNumber s = some (t, r)) :
    r.length ≤ s.length := by
  unfold json.scanNumber at h
  split at h
  · next c rest =>
    split at h
    · simp only [Option.map_eq_some'] at h
      obtain ⟨⟨t1, r1⟩, h1, h2⟩ := h
      simp only [Prod.mk.injEq] at h2
      rw [← h2.2]
      have := json.scanUnsigned_length rest t1 r1 h1
      simp only [List.length_cons]
      omega
    · exact json.scanUnsigned_length _ t r h
  · simp at h

theorem json.after_length (lit s r : Bytes) (h : json.after lit s = some r) :
    r.length ≤ s.length := by
  unfold json.after at h
  split at h
  · simp only [Option.some.injEq] at h
    rw [← h]
    simp
  · simp at h

/-- A value, the members of an object and the items of an array leave a text that is no
longer than the text they were read from. -/
theorem json.parse_length (n : Nat) :
    (∀ k s v r, json.parseValue n k s = .ok (v, r) → r.length ≤ s.length)
    ∧ (∀ k s ms r, json.parseMembers n k s = .ok (ms, r) → r.length ≤ s.length)
    ∧ (∀ k s vs r, json.parseItems n k s = .ok (vs, r) → r.length ≤ s.length) := by
  induction n with
  | zero =>
    refine ⟨fun k s v r h => ?_, fun k s ms r h => ?_, fun k s vs r h => ?_⟩
    · simp [json.parseValue] at h
    · simp [json.parseMembers] at h
    · simp [json.parseItems] at h
  | succ n ih =>
    obtain ⟨ihV, ihM, ihI⟩ := ih
    refine ⟨fun k s v r h => ?_, fun k s ms r h => ?_, fun k s vs r h => ?_⟩
    · rw [json.parseValue] at h
      have hs := json.skipSpace_length s
      split at h
      · simp at h
      · next c rest hsk =>
        rw [hsk] at hs
        simp only [List.length_cons] at hs
        split at h
        · have hs1 := json.skipSpace_length rest
          split at h
          · simp at h
          split at h
          · simp at h
          · next d rest1 hsk1 =>
            rw [hsk1] at hs1
            simp only [List.length_cons] at hs1
            split at h
            · simp only [Except.ok.injEq, Prod.mk.injEq] at h
              rw [← h.2]
              omega
            · split at h
              · next ms r1 hm =>
                simp only [Except.ok.injEq, Prod.mk.injEq] at h
                rw [← h.2]
                have := ihM _ _ _ _ hm
                simp only [List.length_cons] at this
                omega
              · simp at h
        · split at h
          · have hs1 := json.skipSpace_length rest
            split at h
            · simp at h
            split at h
            · simp at h
            · next d rest1 hsk1 =>
              rw [hsk1] at hs1
              simp only [List.length_cons] at hs1
              split at h
              · simp only [Except.ok.injEq, Prod.mk.injEq] at h
                rw [← h.2]
                omega
              · split at h
                · next vs r1 hm =>
                  simp only [Except.ok.injEq, Prod.mk.injEq] at h
                  rw [← h.2]
                  have := ihI _ _ _ _ hm
                  simp only [List.length_cons] at this
                  omega
                · simp at h
          · split at h
            · split at h
              · next raw r1 hstr =>
                simp only [Except.ok.injEq, Prod.mk.injEq] at h
                rw [← h.2]
                have := json.scanString_length _ _ _ hstr
                omega
              · simp at h
            · split at h
              · split at h
                · next t r1 hnum =>
                  simp only [Except.ok.injEq, Prod.mk.injEq] at h
                  rw [← h.2]
                  have := json.scanNumber_length _ _ _ hnum
                  simp only [List.length_cons] at this
                  omega
                · simp at h
              · split at h
                · simp only [Except.ok.injEq, Prod.mk.injEq] at h
                  rw [← h.2]
                  have := json.after_length _ _ _ (by assumption)
                  simp only [List.length_cons] at this
                  omega
                · simp only [Except.ok.injEq, Prod.mk.injEq] at h
                  rw [← h.2]
                  have := json.after_length _ _ _ (by assumption)
                  simp only [List.length_cons] at this
                  omega
                · simp only [Except.ok.injEq, Prod.mk.injEq] at h
                  rw [← h.2]
                  have := json.after_length _ _ _ (by assumption)
                  simp only [List.length_cons] at this
                  omega
                · simp at h
    · rw [json.parseMembers.eq_def] at h
      simp only at h
      split at h
      · simp at h
      · next q rest =>
        simp only [List.length_cons]
        split at h
        · split at h
          · simp at h
          · next key r1 hstr =>
            have h1 := json.scanString_length _ _ _ hstr
            have hs1 := json.skipSpace_length r1
            split at h
            · simp at h
            · next c r2 hsk =>
              rw [hsk] at hs1
              simp only [List.length_cons] at hs1
              split at h
              · split at h
                · simp at h
                · next v r3 hv =>
                  have h3 := ihV _ _ _ _ hv
                  have hs3 := json.skipSpace_length r3
                  split at h
                  · simp at h
                  · next d r4 hsk3 =>
                    rw [hsk3] at hs3
                    simp only [List.length_cons] at hs3
                    split at h
                    · simp only [Except.ok.injEq, Prod.mk.injEq] at h
                      rw [← h.2]
                      omega
                    · split at h
                      · split at h
                        · next ms r5 hm =>
                          simp only [Except.ok.injEq, Prod.mk.injEq] at h
                          rw [← h.2]
                          have := ihM _ _ _ _ hm
                          have := json.skipSpace_length r4
                          omega
                        · simp at h
                      · simp at h
              · simp at h
        · simp at h
    · rw [json.parseItems] at h
      split at h
      · simp at h
      · next v r1 hv =>
        have h1 := ihV _ _ _ _ hv
        have hs1 := json.skipSpace_length r1
        split at h
        · simp at h
        · next d r2 hsk =>
          rw [hsk] at hs1
          simp only [List.length_cons] at hs1
          split at h
          · simp only [Except.ok.injEq, Prod.mk.injEq] at h
            rw [← h.2]
            omega
          · split at h
            · split at h
              · next vs r3 hi =>
                simp only [Except.ok.injEq, Prod.mk.injEq] at h
                rw [← h.2]
                have := ihI _ _ _ _ hi
                omega
              · simp at h
            · simp at h

/-- The recursion of the syntax check does not run out of a fuel that is more than twice the
length of the text. -/
theorem json.parse_fuel_aux (n : Nat) :
    (∀ k (s : Bytes), 2 * s.length + 1 ≤ n → json.parseValue n k s ≠ .error json.Fail.fuel)
    ∧ (∀ k (s : Bytes), 2 * s.length + 1 ≤ n →
        json.parseMembers n k s ≠ .error json.Fail.fuel)
    ∧ (∀ k (s : Bytes), 2 * s.length + 2 ≤ n →
        json.parseItems n k s ≠ .error json.Fail.fuel) := by
  induction n with
  | zero =>
    refine ⟨fun k s hs => ?_, fun k s hs => ?_, fun k s hs => ?_⟩ <;> omega
  | succ n ih =>
    obtain ⟨ihV, ihM, ihI⟩ := ih
    refine ⟨fun k s hn h => ?_, fun k s hn h => ?_, fun k s hn h => ?_⟩
    · rw [json.parseValue] at h
      have hs := json.skipSpace_length s
      split at h
      · simp at h
      · next c rest hsk =>
        rw [hsk] at hs
        simp only [List.length_cons] at hs
        split at h
        · have hs1 := json.skipSpace_length rest
          split at h
          · simp at h
          split at h
          · simp at h
          · next d rest1 hsk1 =>
            rw [hsk1] at hs1
            simp only [List.length_cons] at hs1
            split at h
            · simp at h
            · split at h
              · simp at h
              · next f hm =>
                simp only [Except.error.injEq] at h
                subst h
                exact ihM _ _ (by simp only [List.length_cons]; omega) hm
        · split at h
          · have hs1 := json.skipSpace_length rest
            split at h
            · simp at h
            split at h
            · simp at h
            · next d rest1 hsk1 =>
              rw [hsk1] at hs1
              simp only [List.length_cons] at hs1
              split at h
              · simp at h
              · split at h
                · simp at h
                · next f hm =>
                  simp only [Except.error.injEq] at h
                  subst h
                  exact ihI _ _ (by simp only [List.length_cons]; omega) hm
          · split at h
            · split at h <;> simp at h
            · split at h
              · split at h <;> simp at h
              · split at h <;> simp at h
    · rw [json.parseMembers.eq_def] at h
      simp only at h
      split at h
      · simp at h
      · next q rest =>
        simp only [List.length_cons] at hn
        split at h
        · split at h
          · simp at h
          · next key r1 hstr =>
            have h1 := json.scanString_length _ _ _ hstr
            have hs1 := json.skipSpace_length r1
            split at h
            · simp at h
            · next c r2 hsk =>
              rw [hsk] at hs1
              simp only [List.length_cons] at hs1
              split at h
              · split at h
                · next f hv =>
                  simp only [Except.error.injEq] at h
                  subst h
                  exact ihV _ _ (by omega) hv
                · next v r3 hv =>
                  have h3 := (json.parse_length n).1 _ _ _ _ hv
                  have hs3 := json.skipSpace_length r3
                  split at h
                  · simp at h
                  · next d r4 hsk3 =>
                    rw [hsk3] at hs3
                    simp only [List.length_cons] at hs3
                    split at h
                    · simp at h
                    · split at h
                      · split at h
                        · simp at h
                        · next f hm =>
                          simp only [Except.error.injEq] at h
                          subst h
                          have := json.skipSpace_length r4
                          exact ihM _ _ (by omega) hm
                      · simp at h
              · simp at h
        · simp at h
    · rw [json.parseItems] at h
      split at h
      · next f hv =>
        simp only [Except.error.injEq] at h
        subst h
        exact ihV _ _ (by omega) hv
      · next v r1 hv =>
        have h1 := (json.parse_length n).1 _ _ _ _ hv
        have hs1 := json.skipSpace_length r1
        split at h
        · simp at h
        · next d r2 hsk =>
          rw [hsk] at hs1
          simp only [List.length_cons] at hs1
          split at h
          · simp at h
          · split at h
            · split at h
              · simp at h
              · next f hi =>
                simp only [Except.error.injEq] at h
                subst h
                exact ihI _ _ (by omega) hi
            · simp at h

/-- The syntax check of `json.parse` never stops for lack of fuel: it accepts the text or
finds it is not JSON. -/
theorem json.parse_fuel (data : Bytes) : json.parse data ≠ .error json.Fail.fuel := by
  unfold json.parse
  have h := (json.parse_fuel_aux (2 * data.length + 1)).1 0 data (Nat.le_refl _)
  split
  · next f hf =>
    intro hc
    simp only [Except.error.injEq] at hc
    subst hc
    exact h hf
  · split <;> simp

theorem json.after_eq_some (lit s r : Bytes) : json.after lit s = some r ↔ s = lit ++ r := by
  unfold json.after
  constructor
  · intro h
    split at h
    · next hp =>
      simp only [Option.some.injEq] at h
      obtain ⟨t, ht⟩ := List.isPrefixOf_iff_prefix.1 hp
      rw [← h, ← ht]
      simp
    · simp at h
  · intro h
    have hp : lit.isPrefixOf s = true := List.isPrefixOf_iff_prefix.2 ⟨r, h.symm⟩
    rw [if_pos hp, h]
    simp

/-- The syntax check finds the value `null` exactly in the texts that are the literal `null`
between optional white space. -/
theorem json.parse_null_iff (data : Bytes) :
    json.parse data = .ok json.Value.null
      ↔ ∃ ws, json.skipSpace data = str "null" ++ ws ∧ json.skipSpace ws = [] := by
  have hnull : str "null" = [0x6E, 0x75, 0x6C, 0x6C] := by decide
  have htrue : str "true" = [0x74, 0x72, 0x75, 0x65] := by decide
  have hfalse : str "false" = [0x66, 0x61, 0x6C, 0x73, 0x65] := by decide
  unfold json.parse
  rw [json.parseValue]
  constructor
  · intro h
    split at h
    · simp at h
    · next v r hv =>
      split at h
      · next hws =>
        simp only [Except.ok.injEq] at h
        subst h
        refine ⟨r, ?_, hws⟩
        split at hv
        · simp at hv
        · next c rest hsk =>
          rw [hsk]
          split at hv
          · (repeat' split at hv) <;> simp at hv
          · split at hv
            · (repeat' split at hv) <;> simp at hv
            · split at hv
              · split at hv <;> simp at hv
              · split at hv
                · split at hv <;> simp at hv
                · split at hv
                  · simp at hv
                  · simp at hv
                  · simp only [Except.ok.injEq, Prod.mk.injEq, true_and] at hv
                    subst hv
                    exact (json.after_eq_some _ _ _).1 (by assumption)
                  · simp at hv
      · simp at h
  · rintro ⟨ws, hsk, hws⟩
    rw [hsk, hnull]
    have h1 : json.after (str "true") ([0x6E, 0x75, 0x6C, 0x6C] ++ ws) = none := by
      rw [htrue]
      rfl
    have h2 : json.after (str "false") ([0x6E, 0x75, 0x6C, 0x6C] ++ ws) = none := by
      rw [hfalse]
      rfl
    have h3 : json.after [0x6E, 0x75, 0x6C, 0x6C] ([0x6E, 0x75, 0x6C, 0x6C] ++ ws) = some ws :=
      (json.after_eq_some _ _ _).2 rfl
    simp only [List.cons_append, List.nil_append] at h1 h2 h3 ⊢
    have e1 : ((0x6E : Byte).val == 123) = false := by decide
    have e2 : ((0x6E : Byte).val == 91) = false := by decide
    have e3 : ((0x6E : Byte).val == 34) = false := by decide
    have e4 : ((0x6E : Byte).val == 45 || json.isDigit 0x6E) = false := by decide
    simp only [e1, e2, e3, e4, Bool.false_eq_true, if_false, h1, h2, h3, hws, if_true]

/-- The decoder leaves the pointer nil without an error for the literal `null` only. -/
theorem json.unmarshalEvent_nil (body : Bytes) (e : Option PaymentUpdateEvent)
    (h : json.unmarshalEvent body = (e, none)) :
    e = none ↔ ∃ ws, json.skipSpace body = str "null" ++ ws ∧ json.skipSpace ws = [] := by
  rw [← json.parse_null_iff]
  unfold json.unmarshalEvent at h
  split at h
  · simp at h
  · next hp =>
    simp only [Prod.mk.injEq, and_true] at h
    subst h
    simp [hp]
  · next ms hp =>
    simp only [Prod.mk.injEq] at h
    rw [← h.1, hp]
    simp
  · simp at h

/-! ## The models of SHA-256 and HMAC on published test vectors -/

set_option maxRecDepth 1000000 in
/-- The model of `crypto/sha256` on the test vector `abc` of FIPS 180-2. -/
theorem sha256.Sum256_abc :
    hex.EncodeToString (sha256.Sum256 (str "abc"))
      = str "ba7816bf8f01cfea414140de5dae2223b00361a396177a9cb410ff61f20015ad" := by
  decide!

set_option maxRecDepth 1000000 in
/-- The model of `signMessage` on test case 2 of RFC 4231. -/
theorem signMessage_rfc4231_case2 :
    signMessage (str "what do ya want for nothing?") (str "Jefe")
      = ((hex.DecodeString
          (str "5bdcc146bf60754e6a042426089575c75a003f089d2739839dec58b964ec3843")).1, none) := by
  decide!

set_option maxRecDepth 1000000 in
/-- The model of `signMessage` on test case 6 of RFC 4231, a key longer than a block. -/
theorem signMessage_rfc4231_case6 :
    signMessage (str "Test Using Larger Than Block-Size Key - Hash Key First")
        (List.replicate 131 0xaa)
      = ((hex.DecodeString
          (str "60e431591ee0b67f0d8a26aacbf5b77f8e0bc6213728c5140546040f0ee37f54")).1, none) := by
  decide!

/-! ## Theorems on `cryptoutil.go` -/

/-- C1. Round-trip signing: for every message and every key, the empty ones included,
`validMAC` accepts the digest `signMessage` made of the message under the key, and returns no
error. -/
theorem validMAC_signMessage (P K : Bytes) :
    validMAC P (signMessage P K).1 K = (true, none) := by
  rw [validMAC_eq, (hmac.Equal_iff _ _).2 rfl]

/-- C8, as amended. Wrong-key rejection: for every message `P` and keys `K1`, `K2` whose
HMAC-SHA256 digests of `P` differ, `validMAC(P, signMessage(P, K1), K2)` returns
`(false, nil)`. Distinct keys do not suffice: keys with the same key block `K0` give the same
digest. -/
theorem validMAC_wrong_key (P K1 K2 : Bytes)
    (h : HMAC_SHA256 K1 P ≠ HMAC_SHA256 K2 P) :
    validMAC P (signMessage P K1).1 K2 = (false, none) := by
  rw [validMAC_eq, signMessage_eq_HMAC, signMessage_eq_HMAC]
  have : hmac.Equal (HMAC_SHA256 K1 P) (HMAC_SHA256 K2 P) = false := by
    rw [Bool.eq_false_iff]
    intro he
    exact h ((hmac.Equal_iff _ _).1 he)
  rw [this]

set_option maxRecDepth 1000000 in
/-- C8 as amended, at the body of scenario 5 and the keys `aa 11` and `aa 12`. -/
theorem validMAC_wrong_key_witness :
    HMAC_SHA256 [0xaa, 0x11] Example.createPaymentBody
      ≠ HMAC_SHA256 [0xaa, 0x12] Example.createPaymentBody
    ∧ validMAC Example.createPaymentBody
        (signMessage Example.createPaymentBody [0xaa, 0x11]).1 [0xaa, 0x12] = (false, none) :=
  ⟨by decide!,
    validMAC_wrong_key Example.createPaymentBody [0xaa, 0x11] [0xaa, 0x12] (by decide!)⟩

/-- C8, the claim as stated fails: the two-byte key `aa 11` and the three-byte key
`aa 11 00` are distinct, and `validMAC` accepts under the second the digest `signMessage`
made under the first. -/
theorem validMAC_wrong_key_counterexample :
    ([0xaa, 0x11] : Bytes) ≠ [0xaa, 0x11, 0x00]
    ∧ validMAC (str "\x7b\"currency\":\"DERO\",\"amount\":10\x7d")
        (signMessage (str "\x7b\"currency\":\"DERO\",\"amount\":10\x7d") [0xaa, 0x11]).1
        [0xaa, 0x11, 0x00] = (true, none) := by
  refine ⟨by decide, ?_⟩
  have hk : HMAC_SHA256.K0 [0xaa, 0x11] = HMAC_SHA256.K0 [0xaa, 0x11, 0x00] := by decide
  rw [validMAC_eq, signMessage_eq_HMAC, signMessage_eq_HMAC]
  unfold HMAC_SHA256
  rw [hk, (hmac.Equal_iff _ _).2 rfl]

/-! ## Theorems on `webhook.go` -/

/-- C2. A correctly signed webhook is accepted: for every body `B` and every valid
hexadecimal key string `K`, a request whose body is `B` and whose X-Signature header is the
hexadecimal encoding of `signMessage(B, hexdecode(K))` makes `VerifyWebhookSignature` return
`(true, nil)`. -/
theorem VerifyWebhookSignature_accepts (req : Request) (B : Bytes) (K : GoString)
    (hK : hex.Valid K)
    (hbody : req.Body = some (bytes.NewBuffer B))
    (hsig : req.Header.Get (str "X-Signature")
      = hex.EncodeToString (signMessage B (hex.DecodeString K).1).1) :
    VerifyWebhookSignature req K = .ok ((true, none), req) := by
  have hne : req.Header.Get (str "X-Signature") ≠ [] := by
    intro h0
    have hl := congrArg List.length h0
    rw [hsig, hex.EncodeToString, hex.Encode_length, signMessage_length] at hl
    simp at hl
  have hd : hex.DecodeString (req.Header.Get (str "X-Signature"))
      = ((signMessage B (hex.DecodeString K).1).1, none) := by
    rw [hsig, hex.DecodeString_EncodeToString]
  rw [VerifyWebhookSignature_decoded req K B hne (by rw [hd]) ((hex.Decode_ok_iff K).2 hK) hbody,
    hd, if_pos rfl]

set_option maxRecDepth 1000000 in
/-- C2 at the first case of `TestVerifyAndParseWebhookRequest`: the request signed under
`validWebhookSecretKey` is accepted under that key. -/
theorem VerifyWebhookSignature_accepts_witness :
    hex.Valid Example.validWebhookSecretKey
    ∧ Example.signedRequest.Header.Get (str "X-Signature")
      = hex.EncodeToString
          (signMessage Example.paidBody (hex.DecodeString Example.validWebhookSecretKey).1).1
    ∧ VerifyWebhookSignature Example.signedRequest Example.validWebhookSecretKey
      = .ok ((true, none), Example.signedRequest) :=
  ⟨by decide!, by decide!,
    VerifyWebhookSignature_accepts Example.signedRequest Example.paidBody
      Example.validWebhookSecretKey (by decide!) rfl (by decide!)⟩

/-- C3. Signature mismatch is reported as its own error kind: for every request whose
X-Signature header is non-empty valid hexadecimal, every valid hexadecimal key string `K` and
every body `B`, if the decoded header differs from HMAC-SHA256 of `B` under `hexdecode(K)` then
`VerifyWebhookSignature` returns exactly `(false, ErrInvalidSignature)`, and
`ErrInvalidSignature` is a different error value from `ErrNoWebhookSignature`. -/
theorem VerifyWebhookSignature_mismatch (req : Request) (B : Bytes) (K : GoString)
    (hne : req.Header.Get (str "X-Signature") ≠ [])
    (hh : hex.Valid (req.Header.Get (str "X-Signature")))
    (hK : hex.Valid K)
    (hbody : req.Body = some (bytes.NewBuffer B))
    (hdiff : (hex.DecodeString (req.Header.Get (str "X-Signature"))).1
      ≠ HMAC_SHA256 (hex.DecodeString K).1 B) :
    VerifyWebhookSignature req K = .ok ((false, some ErrInvalidSignature), req)
      ∧ ErrInvalidSignature ≠ ErrNoWebhookSignature := by
  refine ⟨?_, by decide⟩
  rw [VerifyWebhookSignature_decoded req K B hne ((hex.Decode_ok_iff _).2 hh)
    ((hex.Decode_ok_iff K).2 hK) hbody, signMessage_eq_HMAC, if_neg hdiff]

set_option maxRecDepth 1000000 in
/-- C3 at the second case of `TestVerifyAndParseWebhookRequest`: the request signed under
`invalidWebhookSecretKey` is rejected under `validWebhookSecretKey` as an invalid
signature. -/
theorem VerifyWebhookSignature_mismatch_witness :
    (hex.DecodeString (Example.wrongKeyRequest.Header.Get (str "X-Signature"))).1
      ≠ HMAC_SHA256 (hex.DecodeString Example.validWebhookSecretKey).1 Example.paidBody
    ∧ VerifyWebhookSignature Example.wrongKeyRequest Example.validWebhookSecretKey
      = .ok ((false, some ErrInvalidSignature), Example.wrongKeyRequest) :=
  ⟨by decide!,
    (VerifyWebhookSignature_mismatch Example.wrongKeyRequest Example.paidBody
      Example.validWebhookSecretKey (by decide!) (by decide!) (by decide!) rfl (by decide!)).1⟩

/-- C4. Missing signature header: for every request with no X-Signature header, or an empty
one, every body and every key string, valid hexadecimal or not, `VerifyWebhookSignature`
returns exactly `(false, ErrNoWebhookSignature)` and leaves the request as it was. -/
theorem VerifyWebhookSignature_no_signature (req : Request) (K : GoString)
    (h : req.Header.lookup (str "X-Signature") = none
      ∨ req.Header.Get (str "X-Signature") = []) :
    VerifyWebhookSignature req K = .ok ((false, some ErrNoWebhookSignature), req) := by
  apply VerifyWebhookSignature_empty
  rcases h with h | h
  · exact Header.Get_of_lookup_none _ h
  · exact h

set_option maxRecDepth 1000000 in
/-- C4 at a request without the header, under a key that is not hexadecimal. -/
theorem VerifyWebhookSignature_no_signature_witness :
    Example.unsignedRequest.Header.lookup (str "X-Signature") = none
    ∧ ¬ hex.Valid (str "not a key")
    ∧ VerifyWebhookSignature Example.unsignedRequest (str "not a key")
      = .ok ((false, some ErrNoWebhookSignature), Example.unsignedRequest) :=
  ⟨by decide!, by decide!,
    VerifyWebhookSignature_no_signature Example.unsignedRequest (str "not a key")
      (Or.inl (by decide!))⟩

/-- C5. Decode errors: for every request whose X-Signature header is non-empty but not valid
hexadecimal, with any key, and for every request whose header is valid hexadecimal combined
with a key string that is not, `VerifyWebhookSignature` returns `(false, e)` where `e` is the
error of `hex.DecodeString` on the header in the first case and on the key in the second;
`e` is neither `ErrNoWebhookSignature` nor `ErrInvalidSignature`, whatever the body. -/
theorem VerifyWebhookSignature_decode_error (req : Request) (K : GoString)
    (hne : req.Header.Get (str "X-Signature") ≠ [])
    (hbad : ¬ hex.Valid (req.Header.Get (str "X-Signature")) ∨ ¬ hex.Valid K) :
    ∃ e, (if hex.Valid (req.Header.Get (str "X-Signature")) then (hex.DecodeString K).2
          else (hex.DecodeString (req.Header.Get (str "X-Signature"))).2) = some e
      ∧ VerifyWebhookSignature req K = .ok ((false, some e), req)
      ∧ e ≠ ErrNoWebhookSignature ∧ e ≠ ErrInvalidSignature := by
  by_cases hh : hex.Valid (req.Header.Get (str "X-Signature"))
  · have hK : ¬ hex.Valid K := by
      rcases hbad with h | h
      · exact absurd hh h
      · exact h
    rw [if_pos hh]
    cases hk : (hex.DecodeString K).2 with
    | none => exact absurd ((hex.Decode_ok_iff K).1 hk) hK
    | some e =>
      exact ⟨e, rfl, VerifyWebhookSignature_bad_key req K e hne ((hex.Decode_ok_iff _).2 hh) hk,
        hex.Decode_err_ne K e hk⟩
  · rw [if_neg hh]
    cases hd : (hex.DecodeString (req.Header.Get (str "X-Signature"))).2 with
    | none => exact absurd ((hex.Decode_ok_iff _).1 hd) hh
    | some e =>
      exact ⟨e, rfl, VerifyWebhookSignature_bad_header req K e hne hd,
        hex.Decode_err_ne _ e hd⟩

set_option maxRecDepth 1000000 in
/-- C5 at a header that is not hexadecimal: the error is the bad byte `n`. -/
theorem VerifyWebhookSignature_decode_error_witness :
    ¬ hex.Valid (Example.garbledRequest.Header.Get (str "X-Signature"))
    ∧ ∃ e, (if hex.Valid (Example.garbledRequest.Header.Get (str "X-Signature"))
          then (hex.DecodeString Example.validWebhookSecretKey).2
          else (hex.DecodeString (Example.garbledRequest.Header.Get (str "X-Signature"))).2)
        = some e
      ∧ VerifyWebhookSignature Example.garbledRequest Example.validWebhookSecretKey
        = .ok ((false, some e), Example.garbledRequest)
      ∧ e ≠ ErrNoWebhookSignature ∧ e ≠ ErrInvalidSignature :=
  ⟨by decide!,
    VerifyWebhookSignature_decode_error Example.garbledRequest Example.validWebhookSecretKey
      (by decide!) (Or.inl (by decide!))⟩

/-- C6. Body preservation: for every request and every key string, when
`VerifyWebhookSignature` returns and what it returns is not a read error of the body (the
outcome is verified, no signature, a decode error or invalid signature), reading the request
body to the end afterwards yields exactly what reading the original body yields, and a
following `ParseWebhookRequest` does what it does on the original request. -/
theorem VerifyWebhookSignature_body_preserved (req : Request) (K : GoString)
    (r : Bool × Option Error) (req' : Request)
    (h : VerifyWebhookSignature req K = .ok (r, req'))
    (hread : ∀ rc, req.Body = some rc → rc.err = none ∨ r.2 ≠ rc.err) :
    (r = (true, none) ∨ r = (false, some ErrNoWebhookSignature)
      ∨ r = (false, some ErrInvalidSignature)
      ∨ ∃ e, r = (false, some e)
        ∧ ((hex.DecodeString (req.Header.Get (str "X-Signature"))).2 = some e
          ∨ (hex.DecodeString K).2 = some e))
    ∧ req'.Body.map (fun rc => (ioutil.ReadAll rc).1)
      = req.Body.map (fun rc => (ioutil.ReadAll rc).1)
    ∧ ∀ E, ParseWebhookRequest E req' = ParseWebhookRequest E req := by
  rcases VerifyWebhookSignature_paths req K with
    ⟨_, h1⟩ | ⟨e, he, h1⟩ | ⟨e, he, h1⟩ | ⟨_, h1⟩ | ⟨rc, e, hb, hrc, h1⟩ | ⟨B, _, h1⟩ | ⟨B, _, h1⟩
  · rw [h1] at h
    simp only [Except.ok.injEq, Prod.mk.injEq] at h
    obtain ⟨rfl, rfl⟩ := h
    exact ⟨Or.inr (Or.inl rfl), rfl, fun _ => rfl⟩
  · rw [h1] at h
    simp only [Except.ok.injEq, Prod.mk.injEq] at h
    obtain ⟨rfl, rfl⟩ := h
    exact ⟨Or.inr (Or.inr (Or.inr ⟨e, rfl, Or.inl he⟩)), rfl, fun _ => rfl⟩
  · rw [h1] at h
    simp only [Except.ok.injEq, Prod.mk.injEq] at h
    obtain ⟨rfl, rfl⟩ := h
    exact ⟨Or.inr (Or.inr (Or.inr ⟨e, rfl, Or.inr he⟩)), rfl, fun _ => rfl⟩
  · rw [h1] at h
    simp at h
  · rw [h1] at h
    simp only [Except.ok.injEq, Prod.mk.injEq] at h
    obtain ⟨rfl, rfl⟩ := h
    rcases hread rc hb with h0 | h0
    · rw [hrc] at h0
      simp at h0
    · exact absurd hrc.symm h0
  · rw [h1] at h
    simp only [Except.ok.injEq, Prod.mk.injEq] at h
    obtain ⟨rfl, rfl⟩ := h
    exact ⟨Or.inl rfl, rfl, fun _ => rfl⟩
  · rw [h1] at h
    simp only [Except.ok.injEq, Prod.mk.injEq] at h
    obtain ⟨rfl, rfl⟩ := h
    exact ⟨Or.inr (Or.inr (Or.inl rfl)), rfl, fun _ => rfl⟩

set_option maxRecDepth 1000000 in
/-- C6 at the request signed under the wrong key: rejected, and the body still reads as
the bytes sent. -/
theorem VerifyWebhookSignature_body_preserved_witness :
    VerifyWebhookSignature Example.wrongKeyRequest Example.validWebhookSecretKey
      = .ok ((false, some ErrInvalidSignature), Example.wrongKeyRequest)
    ∧ Example.wrongKeyRequest.Body.map (fun rc => (ioutil.ReadAll rc).1)
      = some (Example.paidBody, none) :=
  ⟨by decide!,
    (VerifyWebhookSignature_body_preserved Example.wrongKeyRequest
      Example.validWebhookSecretKey (false, some ErrInvalidSignature) Example.wrongKeyRequest
      (by decide!) (fun _ h => Or.inl (by
        have h2 : Example.wrongKeyRequest.Body = some (bytes.NewBuffer Example.paidBody) := rfl
        rw [h2] at h
        cases h
        rfl))).2.1⟩

/-- C7. Verify-then-parse short-circuits: for every request and key for which
`VerifyWebhookSignature` returns an error `e`, `VerifyAndParseWebhookRequest` returns
`(false, nil, e)`, whatever the JSON decoder would make of the body, and leaves the request
as `VerifyWebhookSignature` left it; hence whenever `VerifyAndParseWebhookRequest` returns a
non-nil event, `VerifyWebhookSignature` returns `(true, nil)` on that request and key. -/
theorem VerifyAndParseWebhookRequest_short_circuit (E : Env) (req : Request) (K : GoString) :
    (∀ v e req', VerifyWebhookSignature req K = .ok ((v, some e), req') →
      VerifyAndParseWebhookRequest E req K = .ok ((false, none, some e), req'))
    ∧ (∀ v ev err req', VerifyAndParseWebhookRequest E req K = .ok ((v, some ev, err), req') →
      v = true ∧ err = none ∧ VerifyWebhookSignature req K = .ok ((true, none), req)) := by
  constructor
  · intro v e req' h
    have hv : v = false := by
      rcases VerifyWebhookSignature_paths req K with
        ⟨_, h1⟩ | ⟨e, he, h1⟩ | ⟨e, he, h1⟩ | ⟨_, h1⟩ | ⟨rc, e, hb, hrc, h1⟩ | ⟨B, _, h1⟩
          | ⟨B, _, h1⟩ <;> rw [h1] at h <;> simp at h <;> exact h.1.1
    subst hv
    unfold VerifyAndParseWebhookRequest
    rw [h]
  · intro v ev err req' h
    unfold VerifyAndParseWebhookRequest at h
    rcases VerifyWebhookSignature_paths req K with
      ⟨_, h1⟩ | ⟨e, he, h1⟩ | ⟨e, he, h1⟩ | ⟨_, h1⟩ | ⟨rc, e, hb, hrc, h1⟩ | ⟨B, _, h1⟩
        | ⟨B, _, h1⟩ <;> rw [h1] at h <;> simp only at h
    · simp at h
    · simp at h
    · simp at h
    · simp at h
    · simp at h
    · split at h
      · simp at h
      · simp at h
      · simp only [Except.ok.injEq, Prod.mk.injEq] at h
        exact ⟨h.1.1.symm, h.1.2.2.symm, h1⟩
    · simp at h

set_option maxRecDepth 1000000 in
/-- C7 at the request without a signature, whose body is a well-formed event that the decoder
of `Example.env` accepts: no event comes back. -/
theorem VerifyAndParseWebhookRequest_short_circuit_witness :
    Example.env.unmarshalEvent Example.paidBody = (some Example.paidEvent, none)
    ∧ VerifyWebhookSignature Example.unsignedRequest Example.validWebhookSecretKey
      = .ok ((false, some ErrNoWebhookSignature), Example.unsignedRequest)
    ∧ VerifyAndParseWebhookRequest Example.env Example.unsignedRequest
        Example.validWebhookSecretKey
      = .ok ((false, none, some ErrNoWebhookSignature), Example.unsignedRequest) :=
  ⟨by decide!, by decide!,
    (VerifyAndParseWebhookRequest_short_circuit Example.env Example.unsignedRequest
      Example.validWebhookSecretKey).1 false ErrNoWebhookSignature Example.unsignedRequest
      (by decide!)⟩

/-! ## Theorems on `client.go` -/

/-- C10. Signed request: for every client whose secret key is a valid hexadecimal string
and every request `NewRequest` built from a non-nil payload, `SendSignedRequest` hands to
the HTTP client, once, the request with the header X-Signature set to the hexadecimal
encoding of HMAC-SHA256 under the decoded secret key of the payload's one JSON
serialization; that header has 64 characters, all lower-case hexadecimal digits; the body
handed over is untouched and reads, to the end and without error, as those same bytes. -/
theorem SendSignedRequest_signs {ρ : Type} (E : Env) (c : Client)
    (method endpoint : GoString) (queryParams : List (GoString × GoString)) (p : Payload)
    (req : Request) (respBody : Option (Target ρ))
    (hkey : hex.Valid c.secretKey)
    (hreq : c.NewRequest E method endpoint queryParams (some p) = (some req, none)) :
    ∃ req1 : Request,
      c.SendSignedRequest E req respBody = .ok (c.SendRequest E req1 respBody, req1)
      ∧ (c.SendRequest E req1 respBody).done = [req1]
      ∧ req1 = { req with
          Header := req.Header.Set (str "X-Signature")
            (hex.EncodeToString (HMAC_SHA256 (hex.DecodeString c.secretKey).1 p.Marshal.1)) }
      ∧ req1.Header.Get (str "X-Signature")
        = hex.EncodeToString (HMAC_SHA256 (hex.DecodeString c.secretKey).1 p.Marshal.1)
      ∧ (req1.Header.Get (str "X-Signature")).length = 64
      ∧ (∀ ch ∈ req1.Header.Get (str "X-Signature"), ch ∈ str "0123456789abcdef")
      ∧ req1.Body = req.Body
      ∧ req1.Body.map (fun rc => (ioutil.ReadAll rc).1) = some (p.Marshal.1, none) := by
  obtain ⟨_, hbody, hget⟩ := Client.NewRequest_body E c method endpoint queryParams p req hreq
  have hk : (hex.DecodeString c.secretKey).2 = none := (hex.Decode_ok_iff _).2 hkey
  rcases hdk : hex.DecodeString c.secretKey with ⟨key, err⟩
  rw [hdk] at hk
  simp only at hk
  subst hk
  have hlen : (HMAC_SHA256 key p.Marshal.1).length = 32 := by
    have := signMessage_length p.Marshal.1 key
    rw [signMessage_eq_HMAC] at this
    exact this
  refine ⟨_, ?_, Client.SendRequest_done E c _ respBody, rfl, ?_, ?_, ?_, rfl, ?_⟩
  · unfold Client.SendSignedRequest
    simp only [hbody, hget, bytes.NewBuffer, ioutil.ReadAll, hdk, signMessage_eq_HMAC]
  · exact Header.Get_Set _ _ _
  · rw [Header.Get_Set, hex.EncodeToString, hex.Encode_length, hlen]
  · rw [Header.Get_Set]
    exact hex.Encode_mem _
  · simp only [hbody, bytes.NewBuffer, ioutil.ReadAll, Option.map_some']

set_option maxRecDepth 1000000 in
/-- C10 at `TestSendSignedRequest`: the client of the test, the request `NewRequest` builds
for its payload. -/
theorem SendSignedRequest_signs_witness :
    hex.Valid Example.client.secretKey
    ∧ Example.client.NewRequest Example.env (str "POST") (str "/") [] (some Example.payload)
      = (some Example.postRequest, none)
    ∧ ∃ req1 : Request,
      Example.client.SendSignedRequest Example.env Example.postRequest (none : Option (Target Unit))
        = .ok (Example.client.SendRequest Example.env req1 none, req1)
      ∧ (Example.client.SendRequest Example.env req1 (none : Option (Target Unit))).done = [req1]
      ∧ req1 = { Example.postRequest with
          Header := Example.postRequest.Header.Set (str "X-Signature")
            (hex.EncodeToString (HMAC_SHA256 (hex.DecodeString Example.client.secretKey).1
              Example.payload.Marshal.1)) }
      ∧ req1.Header.Get (str "X-Signature")
        = hex.EncodeToString (HMAC_SHA256 (hex.DecodeString Example.client.secretKey).1
            Example.payload.Marshal.1)
      ∧ (req1.Header.Get (str "X-Signature")).length = 64
      ∧ (∀ ch ∈ req1.Header.Get (str "X-Signature"), ch ∈ str "0123456789abcdef")
      ∧ req1.Body = Example.postRequest.Body
      ∧ req1.Body.map (fun rc => (ioutil.ReadAll rc).1) = some (Example.payload.Marshal.1, none) :=
  ⟨by decide!, by decide!,
    SendSignedRequest_signs Example.env Example.client (str "POST") (str "/") []
      Example.payload Example.postRequest none (by decide!) (by decide!)⟩

/-- C11. Requests without a body are sent unsigned: for every request with a nil body and
every secret key string, `SendSignedRequest` leaves the request as it is, X-Signature
included, hands that request to `SendRequest` and returns what `SendRequest` returns; the
secret key has no part in it. -/
theorem SendSignedRequest_nil_body {ρ : Type} (E : Env) (c : Client) (req : Request)
    (respBody : Option (Target ρ)) (hbody : req.Body = none) :
    c.SendSignedRequest E req respBody = .ok (c.SendRequest E req respBody, req)
    ∧ (c.SendRequest E req respBody).done = [req]
    ∧ ∀ key : GoString,
      Client.SendSignedRequest E { c with secretKey := key } req respBody
        = c.SendSignedRequest E req respBody := by
  refine ⟨?_, Client.SendRequest_done E c req respBody, fun key => ?_⟩
  · unfold Client.SendSignedRequest
    simp only [hbody]
  · unfold Client.SendSignedRequest
    simp only [hbody]
    rfl

set_option maxRecDepth 1000000 in
/-- C11 at the first case of `TestNewRequest`: the request `NewRequest` builds for a nil
payload has a nil body. -/
theorem SendSignedRequest_nil_body_witness :
    Example.client.NewRequest (Example.stdEnv (Example.answer 200 [])) (str "GET") (str "/test")
        Example.queryParams none = (some Example.getRequest, none)
    ∧ Example.getRequest.Body = none
    ∧ (Example.client.SendSignedRequest (Example.stdEnv (Example.answer 200 []))
          Example.getRequest (none : Option (Target Unit))
        = .ok (Example.client.SendRequest (Example.stdEnv (Example.answer 200 []))
            Example.getRequest none, Example.getRequest)
      ∧ (Example.client.SendRequest (Example.stdEnv (Example.answer 200 []))
          Example.getRequest (none : Option (Target Unit))).done = [Example.getRequest]
      ∧ ∀ key : GoString,
        Client.SendSignedRequest (Example.stdEnv (Example.answer 200 []))
            { Example.client with secretKey := key } Example.getRequest
            (none : Option (Target Unit))
          = Example.client.SendSignedRequest (Example.stdEnv (Example.answer 200 []))
            Example.getRequest none) :=
  ⟨by decide!, rfl,
    SendSignedRequest_nil_body (Example.stdEnv (Example.answer 200 [])) Example.client
      Example.getRequest none rfl⟩

/-- C12. Error envelope becomes an APIError: for every response whose status is outside
[200,299], 404 included, and whose body decodes as the envelope with code `code` and message
`msg`, `SendRequest` returns the `*APIError` with that code and message, whatever the status;
its text is `DeroMerchant Client: API Error code: msg`; and the value behind `respBody` is not
written. -/
theorem SendRequest_error_envelope {ρ : Type} (E : Env) (c : Client) (req : Request)
    (respBody : Option (Target ρ)) (resp : Response) (b : Bytes) (code : Int) (msg : GoString)
    (hdo : E.Do c.HTTPClient req = .ok resp)
    (hread : resp.Body = bytes.NewBuffer b)
    (hstatus : resp.StatusCode < 200 ∨ resp.StatusCode > 299)
    (henv : E.unmarshalErrorResponse b = (⟨some ⟨code, msg⟩⟩, none)) :
    c.SendRequest E req respBody
      = ⟨some (Error.APIError (some ⟨code, msg⟩)), respBody.map (fun t => t.value), [req]⟩
    ∧ APIError.Error (some ⟨code, msg⟩)
      = .ok (str "DeroMerchant Client: API Error " ++ itoa code ++ str ": " ++ msg) := by
  refine ⟨?_, rfl⟩
  unfold Client.SendRequest
  simp only [hdo, hread, bytes.NewBuffer, ioutil.ReadAll, hstatus, if_true, henv]

set_option maxRecDepth 1000000 in
/-- C12 at `TestSendRequest`: status 400 with the body `sendErrorResponse` writes. -/
theorem SendRequest_error_envelope_witness :
    json.unmarshalErrorResponse Example.errorBody = (⟨some ⟨400, str "Bad Request"⟩⟩, none)
    ∧ (Example.client.SendRequest (Example.stdEnv (Example.answer 400 Example.errorBody))
          Example.getRequest (some Example.eventTarget)
        = ⟨some (Error.APIError (some ⟨400, str "Bad Request"⟩)),
            (some Example.eventTarget).map (fun t => t.value), [Example.getRequest]⟩
      ∧ APIError.Error (some ⟨400, str "Bad Request"⟩)
        = .ok (str "DeroMerchant Client: API Error " ++ itoa 400 ++ str ": "
            ++ str "Bad Request"))
    ∧ APIError.Error (some ⟨400, str "Bad Request"⟩)
      = .ok (str "DeroMerchant Client: API Error 400: Bad Request") :=
  ⟨by decide!,
    SendRequest_error_envelope (Example.stdEnv (Example.answer 400 Example.errorBody))
      Example.client Example.getRequest (some Example.eventTarget)
      ⟨400, bytes.NewBuffer Example.errorBody⟩ Example.errorBody 400 (str "Bad Request")
      rfl rfl (by decide) (by decide!),
    by decide!⟩

/-- C13. Fallback on an unparseable error body: for every response whose status `s` is
outside [200,299] and whose body the JSON decoder rejects, `SendRequest` returns an error that
is no `*APIError` and whose text is `DeroMerchant Client: error 404: page URL not found` when
`s` is 404 and `DeroMerchant Client: error s returned by URL` otherwise, `URL` being
`req.URL.String()`; the value behind `respBody` is not written. -/
theorem SendRequest_fallback {ρ : Type} (E : Env) (c : Client) (req : Request)
    (respBody : Option (Target ρ)) (resp : Response) (b : Bytes) (e : Error)
    (hdo : E.Do c.HTTPClient req = .ok resp)
    (hread : resp.Body = bytes.NewBuffer b)
    (hstatus : resp.StatusCode < 200 ∨ resp.StatusCode > 299)
    (herr : (E.unmarshalErrorResponse b).2 = some e) :
    c.SendRequest E req respBody
      = ⟨some (Error.errorString
          (if resp.StatusCode = 404 then
            str "DeroMerchant Client: error 404: page " ++ E.URLString req.URL
              ++ str " not found"
          else
            str "DeroMerchant Client: error " ++ itoa resp.StatusCode ++ str " returned by "
              ++ E.URLString req.URL)),
        respBody.map (fun t => t.value), [req]⟩
    ∧ ∀ p, (c.SendRequest E req respBody).err ≠ some (Error.APIError p) := by
  have h : c.SendRequest E req respBody
      = ⟨some (Error.errorString
          (if resp.StatusCode = 404 then
            str "DeroMerchant Client: error 404: page " ++ E.URLString req.URL
              ++ str " not found"
          else
            str "DeroMerchant Client: error " ++ itoa resp.StatusCode ++ str " returned by "
              ++ E.URLString req.URL)),
        respBody.map (fun t => t.value), [req]⟩ := by
    unfold Client.SendRequest
    simp only [hdo, hread, bytes.NewBuffer, ioutil.ReadAll, hstatus, if_true]
    rcases hd : E.unmarshalErrorResponse b with ⟨er, err⟩
    rw [hd] at herr
    simp only at herr
    subst herr
    simp only
    split <;> rfl
  refine ⟨h, fun p hp => ?_⟩
  rw [h] at hp
  simp at hp

set_option maxRecDepth 1000000 in
/-- C13 at status 404 with an empty body, which is no JSON text. -/
theorem SendRequest_fallback_witness :
    (json.unmarshalErrorResponse []).2 = some json.SyntaxError
    ∧ (Example.client.SendRequest (Example.stdEnv (Example.answer 404 []))
          Example.getRequest (none : Option (Target Unit))
        = ⟨some (Error.errorString
            (if (404 : Int) = 404 then
              str "DeroMerchant Client: error 404: page "
                ++ (Example.stdEnv (Example.answer 404 [])).URLString Example.getRequest.URL
                ++ str " not found"
            else
              str "DeroMerchant Client: error " ++ itoa 404 ++ str " returned by "
                ++ (Example.stdEnv (Example.answer 404 [])).URLString Example.getRequest.URL)),
          none, [Example.getRequest]⟩
      ∧ ∀ p, (Example.client.SendRequest (Example.stdEnv (Example.answer 404 []))
          Example.getRequest (none : Option (Target Unit))).err ≠ some (Error.APIError p))
    ∧ (Example.client.SendRequest (Example.stdEnv (Example.answer 404 []))
          Example.getRequest (none : Option (Target Unit))).err
      = some (Error.errorString (str ("DeroMerchant Client: error 404: page "
          ++ "http://localhost:8080/api/v1/test?one=1&two=two not found")))
    ∧ (Example.client.SendRequest (Example.stdEnv (Example.answer 405 []))
          Example.getRequest (none : Option (Target Unit))).err
      = some (Error.errorString (str ("DeroMerchant Client: error 405 returned by "
          ++ "http://localhost:8080/api/v1/test?one=1&two=two"))) :=
  ⟨by decide!,
    SendRequest_fallback (Example.stdEnv (Example.answer 404 [])) Example.client
      Example.getRequest none ⟨404, bytes.NewBuffer []⟩ [] json.SyntaxError
      rfl rfl (by decide) (by decide!),
    by decide!, by decide!⟩

/-- C14, at the failing inputs. For a response with status 403 whose body is `{}`, `null` or
`{"status":"down"}`, none of them the error envelope, the decoder reports no error and leaves
`errResp.Error` nil, and `SendRequest` returns that nil `*APIError` as its error: an error of
type `*APIError` that holds no code and no message, whose method `Error` panics. -/
theorem SendRequest_no_envelope :
    (Example.client.SendRequest (Example.stdEnv (Example.answer 403 (str "\x7b\x7d")))
        Example.getRequest (none : Option (Target Unit))).err = some (Error.APIError none)
    ∧ (Example.client.SendRequest (Example.stdEnv (Example.answer 403 (str "null")))
        Example.getRequest (none : Option (Target Unit))).err = some (Error.APIError none)
    ∧ (Example.client.SendRequest
        (Example.stdEnv (Example.answer 403 (str "\x7b\"status\":\"down\"\x7d")))
        Example.getRequest (none : Option (Target Unit))).err = some (Error.APIError none)
    ∧ APIError.Error none = .error Panic.nilDereference := by
  decide!

/-- C15. Success range: for every response read without error, `SendRequest` takes the
success path exactly when the status is in [200,299]. There it returns, for a non-nil
`respBody`, what `json.Unmarshal` into it returns, nil or its error, and nil for a nil
`respBody`; the error decoder and the status texts have no part in it. For every other
status, 199 and 300 included, it returns an error of the error path, the `*APIError` of the
envelope or one of the two status texts, and does not write the value behind `respBody`. -/
theorem SendRequest_success_range {ρ : Type} (E : Env) (c : Client) (req : Request)
    (respBody : Option (Target ρ)) (resp : Response) (b : Bytes)
    (hdo : E.Do c.HTTPClient req = .ok resp)
    (hread : resp.Body = bytes.NewBuffer b) :
    ((200 ≤ resp.StatusCode ∧ resp.StatusCode ≤ 299) →
      c.SendRequest E req respBody
        = match respBody with
          | some t => ⟨(t.Unmarshal b).2, some (t.Unmarshal b).1, [req]⟩
          | none => ⟨none, none, [req]⟩)
    ∧ (¬ (200 ≤ resp.StatusCode ∧ resp.StatusCode ≤ 299) →
      ∃ e, c.SendRequest E req respBody = ⟨some e, respBody.map (fun t => t.value), [req]⟩
        ∧ (e = Error.APIError (E.unmarshalErrorResponse b).1.Error
          ∨ e = Error.errorString (str "DeroMerchant Client: error 404: page "
              ++ E.URLString req.URL ++ str " not found")
          ∨ e = Error.errorString (str "DeroMerchant Client: error "
              ++ itoa resp.StatusCode ++ str " returned by " ++ E.URLString req.URL))) := by
  constructor
  · intro hs
    have hn : ¬ (resp.StatusCode < 200 ∨ resp.StatusCode > 299) := by omega
    unfold Client.SendRequest
    simp only [hdo, hread, bytes.NewBuffer, ioutil.ReadAll, hn, if_false]
    cases respBody with
    | none => rfl
    | some t =>
      simp only
      rcases ht : t.Unmarshal b with ⟨v, err⟩
      cases err <;> rfl
  · intro hs
    have hn : resp.StatusCode < 200 ∨ resp.StatusCode > 299 := by omega
    unfold Client.SendRequest
    simp only [hdo, hread, bytes.NewBuffer, ioutil.ReadAll, hn, if_true]
    rcases hd : E.unmarshalErrorResponse b with ⟨er, err⟩
    cases err with
    | none => exact ⟨_, rfl, Or.inl rfl⟩
    | some e0 =>
      simp only
      by_cases h404 : resp.StatusCode = 404
      · simp only [h404, if_true]
        exact ⟨_, rfl, Or.inr (Or.inl rfl)⟩
      · simp only [h404, if_false]
        exact ⟨_, rfl, Or.inr (Or.inr rfl)⟩

set_option maxRecDepth 1000000 in
/-- C15 at the statuses 200, 199 and 300 with the body of a payment update. -/
theorem SendRequest_success_range_witness :
    (((200 : Int) ≤ 200 ∧ (200 : Int) ≤ 299) →
      Example.client.SendRequest (Example.stdEnv (Example.answer 200 Example.paidBody))
          Example.getRequest (some Example.eventTarget)
        = ⟨(Example.eventTarget.Unmarshal Example.paidBody).2,
            some (Example.eventTarget.Unmarshal Example.paidBody).1, [Example.getRequest]⟩)
    ∧ (Example.client.SendRequest (Example.stdEnv (Example.answer 200 Example.paidBody))
          Example.getRequest (some Example.eventTarget)).err = none
    ∧ (Example.client.SendRequest (Example.stdEnv (Example.answer 200 Example.paidBody))
          Example.getRequest (some Example.eventTarget)).respBody
        = some (some Example.paidEvent)
    ∧ (Example.client.SendRequest (Example.stdEnv (Example.answer 200 (str "\x7b")))
          Example.getRequest (some Example.eventTarget)).err = some json.SyntaxError
    ∧ (Example.client.SendRequest (Example.stdEnv (Example.answer 199 Example.paidBody))
          Example.getRequest (some Example.eventTarget)).err = some (Error.APIError none)
    ∧ (Example.client.SendRequest (Example.stdEnv (Example.answer 300 [])) Example.getRequest
          (some Example.eventTarget)).err
        = some (Error.errorString (str ("DeroMerchant Client: error 300 returned by "
            ++ "http://localhost:8080/api/v1/test?one=1&two=two"))) :=
  ⟨(SendRequest_success_range (Example.stdEnv (Example.answer 200 Example.paidBody))
      Example.client Example.getRequest (some Example.eventTarget)
      ⟨200, bytes.NewBuffer Example.paidBody⟩ Example.paidBody rfl rfl).1,
    by decide!, by decide!, by decide!, by decide!, by decide!⟩

/-- C16. Header and body conventions of `NewRequest`: for every call that returns a request,
the request carries X-API-Key equal to the client's API key, User-Agent equal to
`DeroMerchant_Client_Golang/1.0` and no X-Signature header; it has a body exactly when the
payload is non-nil, and then the payload was serialized without error and the body is that
serialization; Content-Type and Accept are `application/json` when the payload is non-nil and
are not set when it is nil. -/
theorem NewRequest_conventions (E : Env) (c : Client) (method endpoint : GoString)
    (queryParams : List (GoString × GoString)) (payload : Option Payload) (req : Request)
    (h : c.NewRequest E method endpoint queryParams payload = (some req, none)) :
    req.Header.Get (str "X-API-Key") = c.apiKey
    ∧ req.Header.Get (str "User-Agent") = str "DeroMerchant_Client_Golang/1.0"
    ∧ req.Header.lookup (str "X-Signature") = none
    ∧ (req.Body.isSome ↔ payload.isSome)
    ∧ (∀ p, payload = some p →
        p.Marshal.2 = none ∧ req.Body = some (bytes.NewBuffer p.Marshal.1))
    ∧ (payload.isSome → req.Header.Get (str "Content-Type") = str "application/json"
        ∧ req.Header.Get (str "Accept") = str "application/json")
    ∧ (payload = none → req.Header.lookup (str "Content-Type") = none
        ∧ req.Header.lookup (str "Accept") = none) := by
  obtain ⟨r, hr, hm, _, hb, _, _, hh⟩ :=
    Client.NewRequest_built E c method endpoint queryParams payload req h
  obtain ⟨hr0, hrb, _, _⟩ := http.NewRequest_ok E _ _ _ r hr
  rw [hr0] at hh
  rw [hrb] at hb
  have c1 : CanonicalMIMEHeaderKey (str "User-Agent") = str "User-Agent" := by decide
  have c2 : CanonicalMIMEHeaderKey (str "X-API-Key") = str "X-Api-Key" := by decide
  have c3 : CanonicalMIMEHeaderKey (str "Content-Type") = str "Content-Type" := by decide
  have c4 : CanonicalMIMEHeaderKey (str "Accept") = str "Accept" := by decide
  have n12 : CanonicalMIMEHeaderKey (str "User-Agent") ≠ CanonicalMIMEHeaderKey (str "X-API-Key") := by
    decide
  have n31 : CanonicalMIMEHeaderKey (str "Content-Type")
      ≠ CanonicalMIMEHeaderKey (str "User-Agent") := by decide
  have n32 : CanonicalMIMEHeaderKey (str "Content-Type")
      ≠ CanonicalMIMEHeaderKey (str "X-API-Key") := by decide
  have n41 : CanonicalMIMEHeaderKey (str "Accept")
      ≠ CanonicalMIMEHeaderKey (str "User-Agent") := by decide
  have n42 : CanonicalMIMEHeaderKey (str "Accept")
      ≠ CanonicalMIMEHeaderKey (str "X-API-Key") := by decide
  have n43 : CanonicalMIMEHeaderKey (str "Accept")
      ≠ CanonicalMIMEHeaderKey (str "Content-Type") := by decide
  have n21 : CanonicalMIMEHeaderKey (str "X-API-Key")
      ≠ CanonicalMIMEHeaderKey (str "User-Agent") := by decide
  have s1 : CanonicalMIMEHeaderKey (str "User-Agent") ≠ str "X-Signature" := by decide
  have s2 : CanonicalMIMEHeaderKey (str "X-API-Key") ≠ str "X-Signature" := by decide
  have s3 : CanonicalMIMEHeaderKey (str "Content-Type") ≠ str "X-Signature" := by decide
  have s4 : CanonicalMIMEHeaderKey (str "Accept") ≠ str "X-Signature" := by decide
  have t1 : CanonicalMIMEHeaderKey (str "User-Agent") ≠ str "Content-Type" := by decide
  have t2 : CanonicalMIMEHeaderKey (str "X-API-Key") ≠ str "Content-Type" := by decide
  have a1 : CanonicalMIMEHeaderKey (str "User-Agent") ≠ str "Accept" := by decide
  have a2 : CanonicalMIMEHeaderKey (str "X-API-Key") ≠ str "Accept" := by decide
  cases payload with
  | none =>
    simp only [Option.isSome_none, Bool.false_eq_true, if_false] at hh
    simp only [Option.map_none'] at hb
    rw [hh]
    refine ⟨Header.Get_Set _ _ _, ?_, ?_, ?_, ?_, ?_, ?_⟩
    · rw [Header.Get_Set_ne _ _ _ _ n21, Header.Get_Set]
    · rw [Header.lookup_Set_ne _ _ _ _ s2, Header.lookup_Set_ne _ _ _ _ s1]
      rfl
    · rw [hb]
      simp
    · intro p hp
      simp at hp
    · intro hp
      simp at hp
    · intro _
      rw [Header.lookup_Set_ne _ _ _ _ t2, Header.lookup_Set_ne _ _ _ _ t1,
        Header.lookup_Set_ne _ _ _ _ a2, Header.lookup_Set_ne _ _ _ _ a1]
      exact ⟨rfl, rfl⟩
  | some p =>
    simp only [Option.isSome_some, if_true] at hh
    simp only [Option.map_some'] at hb
    rw [hh]
    refine ⟨?_, ?_, ?_, ?_, ?_, ?_, ?_⟩
    · rw [Header.Get_Set_ne _ _ _ _ n42, Header.Get_Set_ne _ _ _ _ n32, Header.Get_Set]
    · rw [Header.Get_Set_ne _ _ _ _ n41, Header.Get_Set_ne _ _ _ _ n31,
        Header.Get_Set_ne _ _ _ _ n21, Header.Get_Set]
    · rw [Header.lookup_Set_ne _ _ _ _ s4, Header.lookup_Set_ne _ _ _ _ s3,
        Header.lookup_Set_ne _ _ _ _ s2, Header.lookup_Set_ne _ _ _ _ s1]
      rfl
    · rw [hb]
      simp
    · intro p' hp
      simp only [Option.some.injEq] at hp
      subst hp
      exact ⟨hm _ rfl, hb⟩
    · intro _
      exact ⟨by rw [Header.Get_Set_ne _ _ _ _ n43, Header.Get_Set], Header.Get_Set _ _ _⟩
    · intro hp
      simp at hp

set_option maxRecDepth 1000000 in
/-- C16 at the requests `NewRequest` builds without and with a payload. -/
theorem NewRequest_conventions_witness :
    Example.client.NewRequest (Example.stdEnv (Example.answer 200 [])) (str "post") (str "/") []
        (some Example.payload) = (some Example.postRequest, none)
    ∧ Example.postRequest.Header.Get (str "X-API-Key") = Example.client.apiKey
    ∧ Example.postRequest.Header.Get (str "User-Agent") = str "DeroMerchant_Client_Golang/1.0"
    ∧ Example.postRequest.Header.lookup (str "X-Signature") = none
    ∧ (Example.postRequest.Body.isSome ↔ (some Example.payload).isSome)
    ∧ (∀ p, some Example.payload = some p →
        p.Marshal.2 = none ∧ Example.postRequest.Body = some (bytes.NewBuffer p.Marshal.1))
    ∧ ((some Example.payload).isSome →
        Example.postRequest.Header.Get (str "Content-Type") = str "application/json"
        ∧ Example.postRequest.Header.Get (str "Accept") = str "application/json")
    ∧ (some Example.payload = none →
        Example.postRequest.Header.lookup (str "Content-Type") = none
        ∧ Example.postRequest.Header.lookup (str "Accept") = none) :=
  ⟨by decide!,
    NewRequest_conventions (Example.stdEnv (Example.answer 200 [])) Example.client (str "post")
      (str "/") [] (some Example.payload) Example.postRequest (by decide!)⟩

/-- C17. Query parameters round-trip through `NewRequest`: for every map of query parameters,
given as the list of its entries with distinct keys and each value by its text under `%v`,
and every URL that has no query of its own, `url.ParseQuery` decodes the query of the
request without error and gives each key of the map exactly its value and no other key.
`Values.Encode` and `url.ParseQuery` are the library functions. -/
theorem NewRequest_query_roundtrip (E : Env) (c : Client) (method endpoint : GoString)
    (queryParams : List (GoString × GoString)) (payload : Option Payload) (req : Request)
    (hEncode : E.Encode = Values.Encode)
    (hParseQuery : ∀ s, E.ParseQuery s = (url.ParseQuery s).1)
    (hmap : (queryParams.map Prod.fst).Nodup)
    (hendpoint : ∀ u, E.Parse (c.baseURL ++ endpoint) = .ok u → u.RawQuery = [])
    (h : c.NewRequest E method endpoint queryParams payload = (some req, none)) :
    (url.ParseQuery req.URL.RawQuery).2 = none
    ∧ (∀ k v, (k, v) ∈ queryParams → (url.ParseQuery req.URL.RawQuery).1.lookup k = some [v])
    ∧ (∀ k, k ∉ queryParams.map Prod.fst →
        (url.ParseQuery req.URL.RawQuery).1.lookup k = none) := by
  obtain ⟨r, hr, _, _, _, _, hu, _⟩ :=
    Client.NewRequest_built E c method endpoint queryParams payload req h
  obtain ⟨_, _, _, u, hp, hru⟩ := http.NewRequest_ok E _ _ _ r hr
  have hq : r.URL.RawQuery = [] := by
    rw [hru]
    exact hendpoint u hp
  have h0 : E.ParseQuery [] = [] := by
    rw [hParseQuery]
    rfl
  rw [hq, h0, hEncode] at hu
  rw [hu]
  obtain ⟨h1, h2⟩ := url.ParseQuery_Encode_addAll queryParams hmap
  refine ⟨h1, fun k v hkv => ?_, fun k hk => ?_⟩
  · show (url.ParseQuery (Values.Encode _)).1.lookup k = _
    rw [h2, lookup_of_mem_nodup queryParams k v hmap hkv]
    rfl
  · show (url.ParseQuery (Values.Encode _)).1.lookup k = _
    rw [h2, lookup_eq_none_of_not_mem queryParams k hk]
    rfl

set_option maxRecDepth 1000000 in
/-- C17 at parameters with `&`, `=`, `%`, `+`, a space and a letter outside ASCII. -/
theorem NewRequest_query_roundtrip_witness :
    (Example.reservedParams.map Prod.fst).Nodup
    ∧ Example.client.NewRequest (Example.stdEnv (Example.answer 200 [])) (str "GET")
        (str "/test") Example.reservedParams none = (some Example.reservedRequest, none)
    ∧ Example.reservedRequest.URL.RawQuery = str "q%26a=x%3Dy+z&%C3%BC=100%25%2B"
    ∧ ((url.ParseQuery Example.reservedRequest.URL.RawQuery).2 = none
      ∧ (∀ k v, (k, v) ∈ Example.reservedParams →
          (url.ParseQuery Example.reservedRequest.URL.RawQuery).1.lookup k = some [v])
      ∧ (∀ k, k ∉ Example.reservedParams.map Prod.fst →
          (url.ParseQuery Example.reservedRequest.URL.RawQuery).1.lookup k = none)) :=
  ⟨by decide, by decide!, rfl,
    NewRequest_query_roundtrip (Example.stdEnv (Example.answer 200 [])) Example.client
      (str "GET") (str "/test") Example.reservedParams none Example.reservedRequest
      rfl (fun _ => rfl) (by decide)
      (fun u hu => by
        simp only [Example.stdEnv, Except.ok.injEq] at hu
        rw [← hu]
        decide)
      (by decide!)⟩

/-- C18. The postcondition of `NewClient`: with `s`, `h`, `v` the options' Scheme, Host and
APIVersion, each empty string replaced by `https`, `merchant.dero.io` and `v1`, and the base
URL `s://h/api/v`: if `url.ParseRequestURI` refuses the base URL, `NewClient` returns a nil
client and that error; otherwise it returns no error and the client whose scheme, host,
apiVersion and baseURL are `s`, `h`, `v` and the base URL and whose apiKey and secretKey are
the options' values. -/
theorem NewClient_postcondition (E : Env) (o : ClientOptions) :
    let s := if o.Scheme = [] then str "https" else o.Scheme
    let h := if o.Host = [] then str "merchant.dero.io" else o.Host
    let v := if o.APIVersion = [] then str "v1" else o.APIVersion
    (∀ err, E.ParseRequestURI (s ++ str "://" ++ h ++ str "/api/" ++ v) = .error err →
      NewClient E o = (none, some err))
    ∧ (∀ u, E.ParseRequestURI (s ++ str "://" ++ h ++ str "/api/" ++ v) = .ok u →
      NewClient E o
        = (some ⟨s, h, v, s ++ str "://" ++ h ++ str "/api/" ++ v, ⟨10 * 1000000000⟩,
            o.APIKey, o.SecretKey⟩, none)) := by
  intro s h v
  constructor
  · intro err he
    unfold NewClient
    simp only [defaultScheme, defaultHost, defaultAPIVersion]
    rw [he]
  · intro u hu
    unfold NewClient
    simp only [defaultScheme, defaultHost, defaultAPIVersion]
    rw [hu]

set_option maxRecDepth 1000000 in
/-- C18 at the cases of `TestNewClient`: the default options give the default client, and the
base URL of the invalid options has no scheme, for `1234` starts with a digit. -/
theorem NewClient_postcondition_witness :
    url.getScheme (str "1234://localhost:8080:9090/api////v1")
      = .ok ([], str "1234://localhost:8080:9090/api////v1")
    ∧ NewClient (Example.stdEnv (Example.answer 200 [])) Example.invalidOptions
      = (none, some (Error.foreign (str "*url.Error") (str "invalid URI for request")))
    ∧ NewClient (Example.stdEnv (Example.answer 200 []))
        ⟨[], [], [], Example.client.apiKey, Example.client.secretKey⟩
      = (some ⟨str "https", str "merchant.dero.io", str "v1",
          str "https://merchant.dero.io/api/v1", ⟨10000000000⟩, Example.client.apiKey,
          Example.client.secretKey⟩, none) :=
  ⟨by decide,
    (NewClient_postcondition (Example.stdEnv (Example.answer 200 []))
      Example.invalidOptions).1 _ (by decide),
    (NewClient_postcondition (Example.stdEnv (Example.answer 200 []))
      ⟨[], [], [], Example.client.apiKey, Example.client.secretKey⟩).2
      ⟨str "https", [], none, [], str "//merchant.dero.io/api/v1", [], false, [], []⟩
      (by decide)⟩

/-- C19 fails for the body `null`: for the request whose body is the JSON literal `null`,
signed under `validWebhookSecretKey`, `ParseWebhookRequest` returns a nil event with a nil
error and `VerifyAndParseWebhookRequest` returns `(true, nil, nil)`. -/
theorem ParseWebhookRequest_event_counterexample :
    ParseWebhookRequest (Example.stdEnv (Example.answer 200 [])) Example.nullRequest
      = .ok ((none, none), Example.nullRequest)
    ∧ VerifyAndParseWebhookRequest (Example.stdEnv (Example.answer 200 [])) Example.nullRequest
        Example.validWebhookSecretKey
      = .ok ((true, none, none), Example.nullRequest) := by
  decide!

/-- C19, as amended. A successful webhook parse yields an event unless the body is `null`:
with `json.Unmarshal` as the decoder, whenever `ParseWebhookRequest` returns a nil error, and
whenever `VerifyAndParseWebhookRequest` returns `(true, e, nil)`, the request has a body and
the event returned is nil exactly when the bytes of the body are the JSON literal `null`,
alone between optional white space. -/
theorem ParseWebhookRequest_event (E : Env) (hjson : E.unmarshalEvent = json.unmarshalEvent)
    (req : Request) (K : GoString) :
    (∀ e req', ParseWebhookRequest E req = .ok ((e, none), req') →
      ∃ rc, req.Body = some rc
        ∧ (e = none ↔ ∃ ws, json.skipSpace rc.data = str "null" ++ ws ∧ json.skipSpace ws = []))
    ∧ (∀ e req', VerifyAndParseWebhookRequest E req K = .ok ((true, e, none), req') →
      ∃ rc, req.Body = some rc
        ∧ (e = none ↔ ∃ ws, json.skipSpace rc.data = str "null" ++ ws ∧ json.skipSpace ws = [])) := by
  have hparse : ∀ (req : Request) e req', ParseWebhookRequest E req = .ok ((e, none), req') →
      ∃ rc, req.Body = some rc
        ∧ (e = none ↔ ∃ ws, json.skipSpace rc.data = str "null" ++ ws ∧ json.skipSpace ws = []) := by
    intro req e req' h
    unfold ParseWebhookRequest at h
    cases hb : req.Body with
    | none =>
      rw [hb] at h
      simp at h
    | some rc =>
      rw [hb] at h
      refine ⟨rc, rfl, ?_⟩
      simp only [ioutil.ReadAll, hjson] at h
      split at h
      · simp at h
      · next body _ heq =>
        simp only [Prod.mk.injEq] at heq
        obtain ⟨⟨hbody, _⟩, _⟩ := heq
        subst hbody
        rcases hd : json.unmarshalEvent rc.data with ⟨e0, err⟩
        rw [hd] at h
        cases err with
        | some e1 => simp at h
        | none =>
          simp only [Except.ok.injEq, Prod.mk.injEq, and_true] at h
          rw [← h.1]
          exact json.unmarshalEvent_nil _ _ hd
  refine ⟨hparse req, fun e req' h => ?_⟩
  unfold VerifyAndParseWebhookRequest at h
  rcases VerifyWebhookSignature_paths req K with
    ⟨_, h1⟩ | ⟨e, he, h1⟩ | ⟨e, he, h1⟩ | ⟨_, h1⟩ | ⟨rc, e, hb, hrc, h1⟩ | ⟨B, _, h1⟩
      | ⟨B, _, h1⟩ <;> rw [h1] at h <;> simp only at h
  · simp at h
  · simp at h
  · simp at h
  · simp at h
  · simp at h
  · split at h
    · simp at h
    · simp at h
    · next e0 req2 hp =>
      simp only [Except.ok.injEq, Prod.mk.injEq, true_and] at h
      obtain ⟨⟨he, _⟩, _⟩ := h
      subst he
      exact hparse req _ _ hp
  · simp at h

set_option maxRecDepth 1000000 in
/-- C19, as amended, at the first event of `TestVerifyAndParseWebhookRequest`: the body is an
object, and the event returned is not nil. -/
theorem ParseWebhookRequest_event_witness :
    (Example.stdEnv (Example.answer 200 [])).unmarshalEvent = json.unmarshalEvent
    ∧ VerifyAndParseWebhookRequest (Example.stdEnv (Example.answer 200 []))
        Example.signedRequest Example.validWebhookSecretKey
      = .ok ((true, some Example.paidEvent, none), Example.signedRequest)
    ∧ json.skipSpace Example.paidBody = Example.paidBody
    ∧ ((∀ e req', ParseWebhookRequest (Example.stdEnv (Example.answer 200 []))
          Example.signedRequest = .ok ((e, none), req') →
        ∃ rc, Example.signedRequest.Body = some rc
          ∧ (e = none
            ↔ ∃ ws, json.skipSpace rc.data = str "null" ++ ws ∧ json.skipSpace ws = []))
      ∧ (∀ e req', VerifyAndParseWebhookRequest (Example.stdEnv (Example.answer 200 []))
          Example.signedRequest Example.validWebhookSecretKey = .ok ((true, e, none), req') →
        ∃ rc, Example.signedRequest.Body = some rc
          ∧ (e = none
            ↔ ∃ ws, json.skipSpace rc.data = str "null" ++ ws ∧ json.skipSpace ws = []))) :=
  ⟨rfl, by decide!, by decide!,
    ParseWebhookRequest_event (Example.stdEnv (Example.answer 200 [])) rfl
      Example.signedRequest Example.validWebhookSecretKey⟩

/-- C20 fails when `GetBody` fails: for the request with a body whose `GetBody` returns an
error and the client whose secret key is not hexadecimal, `SendSignedRequest` returns the
error of `GetBody`, which is not the error of decoding the key. -/
theorem SendSignedRequest_bad_key_counterexample :
    Example.brokenRequest.Body.isSome = true
    ∧ ¬ hex.Valid Example.badKeyClient.secretKey
    ∧ Example.badKeyClient.SendSignedRequest (Example.stdEnv (Example.answer 200 []))
        Example.brokenRequest (none : Option (Target Unit))
      = .ok (⟨some (Error.errorString (str "body is gone")), none, []⟩, Example.brokenRequest)
    ∧ (hex.DecodeString Example.badKeyClient.secretKey).2
      ≠ some (Error.errorString (str "body is gone")) :=
  ⟨by decide, by decide, rfl, by decide⟩

/-- C20, as amended. A misconfigured secret key never results in a transmission: for every
request that has a body and every client whose secret key string is not valid hexadecimal,
whenever `SendSignedRequest` returns, it returns an error, has not called the HTTP client, has
not written the value behind `respBody` and has left the request, X-Signature included, as it
was; and when `GetBody` returns a reader that reads to the end without error, as for every
request `NewRequest` builds, `SendSignedRequest` returns, and the error is that of
`hex.DecodeString` on the secret key. -/
theorem SendSignedRequest_bad_key {ρ : Type} (E : Env) (c : Client) (req : Request)
    (respBody : Option (Target ρ))
    (hbody : req.Body.isSome = true) (hkey : ¬ hex.Valid c.secretKey) :
    (∀ r req', c.SendSignedRequest E req respBody = .ok (r, req') →
      r.err ≠ none ∧ r.done = [] ∧ r.respBody = respBody.map (fun t => t.value) ∧ req' = req)
    ∧ (∀ B, req.GetBody = some (bytes.NewBuffer B, none) →
      ∃ e, (hex.DecodeString c.secretKey).2 = some e
        ∧ c.SendSignedRequest E req respBody
          = .ok (⟨some e, respBody.map (fun t => t.value), []⟩, req)) := by
  obtain ⟨rc, hrc⟩ := Option.isSome_iff_exists.1 hbody
  obtain ⟨e, he⟩ : ∃ e, (hex.DecodeString c.secretKey).2 = some e := by
    cases hk : (hex.DecodeString c.secretKey).2 with
    | none => exact absurd ((hex.Decode_ok_iff _).1 hk) hkey
    | some e => exact ⟨e, rfl⟩
  rcases hdk : hex.DecodeString c.secretKey with ⟨key, err⟩
  rw [hdk] at he
  simp only at he
  subst he
  constructor
  · intro r req' h
    unfold Client.SendSignedRequest at h
    simp only [hrc, hdk] at h
    split at h
    · simp at h
    · simp only [Except.ok.injEq, Prod.mk.injEq] at h
      obtain ⟨rfl, rfl⟩ := h
      exact ⟨by simp, rfl, rfl, rfl⟩
    · split at h
      · simp only [Except.ok.injEq, Prod.mk.injEq] at h
        obtain ⟨rfl, rfl⟩ := h
        exact ⟨by simp, rfl, rfl, rfl⟩
      · simp only [Except.ok.injEq, Prod.mk.injEq] at h
        obtain ⟨rfl, rfl⟩ := h
        exact ⟨by simp, rfl, rfl, rfl⟩
  · intro B hget
    refine ⟨e, rfl, ?_⟩
    unfold Client.SendSignedRequest
    simp only [hrc, hget, bytes.NewBuffer, ioutil.ReadAll, hdk]

set_option maxRecDepth 1000000 in
/-- C20, as amended, at the request of `TestSendSignedRequest` and a client whose secret key
is `not-hex`. -/
theorem SendSignedRequest_bad_key_witness :
    Example.postRequest.Body.isSome = true
    ∧ ¬ hex.Valid Example.badKeyClient.secretKey
    ∧ ((∀ r req', Example.badKeyClient.SendSignedRequest (Example.stdEnv (Example.answer 200 []))
          Example.postRequest (none : Option (Target Unit)) = .ok (r, req') →
        r.err ≠ none ∧ r.done = [] ∧ r.respBody = (none : Option (Target Unit)).map
          (fun t => t.value) ∧ req' = Example.postRequest)
      ∧ (∀ B, Example.postRequest.GetBody = some (bytes.NewBuffer B, none) →
        ∃ e, (hex.DecodeString Example.badKeyClient.secretKey).2 = some e
          ∧ Example.badKeyClient.SendSignedRequest (Example.stdEnv (Example.answer 200 []))
              Example.postRequest (none : Option (Target Unit))
            = .ok (⟨some e, (none : Option (Target Unit)).map (fun t => t.value), []⟩,
                Example.postRequest))) :=
  ⟨rfl, by decide,
    SendSignedRequest_bad_key (Example.stdEnv (Example.answer 200 [])) Example.badKeyClient
      Example.postRequest none rfl (by decide)⟩

end DeroMerchant
